import Mathlib

/-!
Verification of the 2x2x2 pocket-cube logic layer (`cube_logic.py`).

A cube configuration is the ordered list of 24 sticker labels; moves are the
fixed permutation tables of `Cube.move_dict`; the canonicalizer, breadth-first
explorer and bidirectional solver are embedded as executable functions below,
and the stated properties are proved about these embeddings.
-/

/-- A cube configuration: an ordered sequence of 24 sticker labels.
In the source this is a Python tuple of strings. -/
abbrev Config := List String

def Cube.up_symbol : String := "up"

def Cube.front_symbol : String := "front"

def Cube.left_symbol : String := "left"

def Cube.right_symbol : String := "right"

def Cube.back_symbol : String := "back"

def Cube.down_symbol : String := "down"

/-- `Cube.solved_tuple` from the source: the solved configuration. -/
def Cube.solved_tuple : Config :=
  [Cube.up_symbol, Cube.front_symbol, Cube.left_symbol, Cube.up_symbol, Cube.left_symbol,
   Cube.back_symbol, Cube.up_symbol, Cube.back_symbol, Cube.right_symbol, Cube.up_symbol,
   Cube.right_symbol, Cube.front_symbol, Cube.down_symbol, Cube.left_symbol, Cube.front_symbol,
   Cube.down_symbol, Cube.back_symbol, Cube.left_symbol, Cube.down_symbol, Cube.right_symbol,
   Cube.back_symbol, Cube.down_symbol, Cube.front_symbol, Cube.right_symbol]

/-- `Cube.move_dict` from the source: the 18 named permutations of the 24
sticker positions (12 quarter turns and 6 half turns), in the dict's
insertion order. -/
def Cube.move_dict : List (String × List Nat) :=
  [("U", [9, 10, 11, 0, 1, 2, 3, 4, 5, 6, 7, 8,
          12, 13, 14, 15, 16, 17, 18, 19, 20, 21, 22, 23]),
   ("R", [0, 1, 2, 3, 4, 5, 11, 9, 10, 22, 23, 21,
          12, 13, 14, 15, 16, 17, 7, 8, 6, 20, 18, 19]),
   ("L", [5, 3, 4, 16, 17, 15, 6, 7, 8, 9, 10, 11,
          1, 2, 0, 14, 12, 13, 18, 19, 20, 21, 22, 23]),
   ("F", [13, 14, 12, 3, 4, 5, 6, 7, 8, 2, 0, 1,
          23, 21, 22, 15, 16, 17, 18, 19, 20, 10, 11, 9]),
   ("B", [0, 1, 2, 8, 6, 7, 19, 20, 18, 9, 10, 11,
          12, 13, 14, 4, 5, 3, 17, 15, 16, 21, 22, 23]),
   ("D", [0, 1, 2, 3, 4, 5, 6, 7, 8, 9, 10, 11,
          15, 16, 17, 18, 19, 20, 21, 22, 23, 12, 13, 14]),
   ("u", [3, 4, 5, 6, 7, 8, 9, 10, 11, 0, 1, 2,
          12, 13, 14, 15, 16, 17, 18, 19, 20, 21, 22, 23]),
   ("r", [0, 1, 2, 3, 4, 5, 20, 18, 19, 7, 8, 6,
          12, 13, 14, 15, 16, 17, 22, 23, 21, 11, 9, 10]),
   ("l", [14, 12, 13, 1, 2, 0, 6, 7, 8, 9, 10, 11,
          16, 17, 15, 5, 3, 4, 18, 19, 20, 21, 22, 23]),
   ("f", [10, 11, 9, 3, 4, 5, 6, 7, 8, 23, 21, 22,
          2, 0, 1, 15, 16, 17, 18, 19, 20, 13, 14, 12]),
   ("b", [0, 1, 2, 17, 15, 16, 4, 5, 3, 9, 10, 11,
          12, 13, 14, 19, 20, 18, 8, 6, 7, 21, 22, 23]),
   ("d", [0, 1, 2, 3, 4, 5, 6, 7, 8, 9, 10, 11,
          21, 22, 23, 12, 13, 14, 15, 16, 17, 18, 19, 20]),
   ("R2", [0, 1, 2, 3, 4, 5, 21, 22, 23, 18, 19, 20,
           12, 13, 14, 15, 16, 17, 9, 10, 11, 6, 7, 8]),
   ("U2", [6, 7, 8, 9, 10, 11, 0, 1, 2, 3, 4, 5,
           12, 13, 14, 15, 16, 17, 18, 19, 20, 21, 22, 23]),
   ("L2", [15, 16, 17, 12, 13, 14, 6, 7, 8, 9, 10, 11,
           3, 4, 5, 0, 1, 2, 18, 19, 20, 21, 22, 23]),
   ("F2", [21, 22, 23, 3, 4, 5, 6, 7, 8, 12, 13, 14,
           9, 10, 11, 15, 16, 17, 18, 19, 20, 0, 1, 2]),
   ("B2", [0, 1, 2, 18, 19, 20, 15, 16, 17, 9, 10, 11,
           12, 13, 14, 6, 7, 8, 3, 4, 5, 21, 22, 23]),
   ("D2", [0, 1, 2, 3, 4, 5, 6, 7, 8, 9, 10, 11,
           18, 19, 20, 21, 22, 23, 12, 13, 14, 15, 16, 17])]

/-- `Cube.maximum_moves` from the source: the combined-depth safety bound. -/
def Cube.maximum_moves : Nat := 14

/-- Look a move name up in `Cube.move_dict` (`move in Cube.move_dict` /
`Cube.move_dict[move]` in the source). -/
def Cube.find_move (m : String) : Option (List Nat) :=
  (Cube.move_dict.find? (fun e => e.1 = m)).map (fun e => e.2)

/-- `Cube.__permute`: `tuple(group[i] for i in order)`. -/
def Cube.permute (group : Config) (order : List Nat) : Config :=
  order.map (fun i => group.getD i "")

/-- `Cube.do_move`: apply one named move; unknown names raise `ValueError`. -/
def Cube.do_move (c : Config) (move : String) : Except String Config :=
  match Cube.find_move move with
  | some p => .ok (Cube.permute c p)
  | none => .error ("Unknown move \"" ++ move ++ "\" supplied.")

/-- `Cube.do_moves`: apply the moves of a list in order. -/
def Cube.do_moves (c : Config) (moves : List String) : Except String Config :=
  moves.foldlM Cube.do_move c

/-- Total version of move application used inside statements and proofs:
on a key of `Cube.move_dict` it agrees with `Cube.do_move`, otherwise it is
the identity (that branch is never reached from code paths we model). -/
def Cube.apply_move (c : Config) (move : String) : Config :=
  match Cube.find_move move with
  | some p => Cube.permute c p
  | none => c

/-- Python's `str.islower()` restricted to what the move tokens need:
some cased character exists and no character is uppercase. -/
def pyIslower (s : String) : Bool :=
  s.data.any (fun ch => ch.isLower) && s.data.all (fun ch => !(ch.isUpper))

/-- `str.lower()`, character by character (kernel-reducible form). -/
def strToLower (s : String) : String := ⟨s.data.map Char.toLower⟩

/-- `str.upper()`, character by character (kernel-reducible form). -/
def strToUpper (s : String) : String := ⟨s.data.map Char.toUpper⟩

/-- `Cube.invert_move` from the source: two-character tokens (half turns) are
their own inverse, one-character tokens swap case. -/
def Cube.invert_move (move_str : String) : String :=
  if move_str.length = 2 then move_str
  else if pyIslower move_str then strToUpper move_str
  else strToLower move_str

/-- `Cube.__init__`: the constructor accepts exactly the length-24
configurations and stores the configuration unchanged. -/
def Cube.mk_cube (configuration : Config) : Except String Config :=
  if configuration.length ≠ 24 then .error "Must use a tuple of size 24."
  else .ok configuration

/-- Composition of two permutation tables: applying `p` and then `q` to a
configuration is applying `compPerm p q`. -/
def compPerm (p q : List Nat) : List Nat :=
  q.map (fun i => p.getD i 0)

lemma permute_permute (c : Config) (p q : List Nat) (hq : ∀ i ∈ q, i < p.length) :
    Cube.permute (Cube.permute c p) q = Cube.permute c (compPerm p q) := by
  unfold Cube.permute compPerm
  rw [List.map_map]
  apply List.map_congr_left
  intro i hi
  simp only [Function.comp_apply]
  have hip : i < p.length := hq i hi
  rw [List.getD_eq_getElem?_getD (List.map (fun i => List.getD c i "") p),
      List.getElem?_map, List.getElem?_eq_getElem hip,
      List.getD_eq_getElem?_getD p, List.getElem?_eq_getElem hip]
  simp

lemma permute_range (c : Config) (h : c.length = 24) :
    Cube.permute c (List.range 24) = c := by
  unfold Cube.permute
  apply List.ext_getElem
  · simp [h]
  · intro i h1 h2
    simp only [List.getElem_map, List.getElem_range]
    rw [List.getD_eq_getElem?_getD, List.getElem?_eq_getElem h2]
    rfl

/-- If looking up two moves yields tables whose composition is the identity,
doing those two moves in sequence returns the original configuration. -/
lemma do_moves_pair_cancel {m m' : String} {p q : List Nat}
    (hm : Cube.find_move m = some p) (hm' : Cube.find_move m' = some q)
    (hq : ∀ i ∈ q, i < p.length) (hcomp : compPerm p q = List.range 24)
    (c : Config) (hc : c.length = 24) :
    Cube.do_moves c [m, m'] = .ok c := by
  unfold Cube.do_moves
  simp only [List.foldlM, Cube.do_move, hm, hm']
  show Except.ok (Cube.permute (Cube.permute c p) q) = Except.ok c
  rw [permute_permute c p q hq, hcomp, permute_range c hc]

/-- Boolean check used to settle C2 for one move table entry. -/
def c2check (m : String) : Bool :=
  match Cube.find_move m, Cube.find_move (Cube.invert_move m) with
  | some p, some q => q.all (fun i => i < p.length) && compPerm p q = List.range 24
  | _, _ => false

lemma c2check_all : Cube.move_dict.all (fun e => c2check e.1) = true := by decide

/-- Claim C2: for every move `m` among the 18 keys of `Cube.move_dict` and
every length-24 configuration `c`, applying `m` and then `Cube.invert_move m`
returns exactly the original configuration `c`. -/
theorem claim_C2 (m : String) (p : List Nat) (hm : (m, p) ∈ Cube.move_dict)
    (c : Config) (hc : c.length = 24) :
    Cube.do_moves c [m, Cube.invert_move m] = .ok c := by
  have hall := c2check_all
  rw [List.all_eq_true] at hall
  have hcheck : c2check m = true := hall (m, p) hm
  unfold c2check at hcheck
  cases h1 : Cube.find_move m with
  | none => rw [h1] at hcheck; cases h2 : Cube.find_move (Cube.invert_move m) <;>
      simp [h2] at hcheck
  | some p' =>
    cases h2 : Cube.find_move (Cube.invert_move m) with
    | none => rw [h1, h2] at hcheck; simp at hcheck
    | some q =>
      rw [h1, h2] at hcheck
      simp only [Bool.and_eq_true, List.all_eq_true, decide_eq_true_eq] at hcheck
      exact do_moves_pair_cancel h1 h2 hcheck.1 hcheck.2 c hc

/-- Witness for C2 at a concrete input: the "R" move followed by its inverse
"r" restores the solved configuration. -/
theorem claim_C2_witness :
    Cube.do_moves Cube.solved_tuple ["R", Cube.invert_move "R"] = .ok Cube.solved_tuple :=
  claim_C2 "R" [0, 1, 2, 3, 4, 5, 11, 9, 10, 22, 23, 21,
                12, 13, 14, 15, 16, 17, 7, 8, 6, 20, 18, 19]
    (by decide) Cube.solved_tuple (by decide)

/-- Four-move and two-move cancellation, via composed permutation tables. -/
lemma do_moves_four_cancel {m : String} {p : List Nat}
    (hm : Cube.find_move m = some p) (hp : ∀ i ∈ p, i < p.length)
    (hcomp : compPerm (compPerm (compPerm p p) p) p = List.range 24)
    (c : Config) (hc : c.length = 24) :
    Cube.do_moves c [m, m, m, m] = .ok c := by
  unfold Cube.do_moves
  simp only [List.foldlM, Cube.do_move, hm]
  show Except.ok (Cube.permute (Cube.permute (Cube.permute (Cube.permute c p) p) p) p) =
    Except.ok c
  have hlen2 : (compPerm p p).length = p.length := by simp [compPerm]
  have hlen3 : (compPerm (compPerm p p) p).length = p.length := by simp [compPerm]
  rw [permute_permute c p p hp,
      permute_permute c (compPerm p p) p (fun i hi => hlen2 ▸ hp i hi),
      permute_permute c (compPerm (compPerm p p) p) p (fun i hi => hlen3 ▸ hp i hi),
      hcomp, permute_range c hc]

lemma do_moves_twice_cancel {m : String} {p : List Nat}
    (hm : Cube.find_move m = some p) (hp : ∀ i ∈ p, i < p.length)
    (hcomp : compPerm p p = List.range 24)
    (c : Config) (hc : c.length = 24) :
    Cube.do_moves c [m, m] = .ok c := by
  unfold Cube.do_moves
  simp only [List.foldlM, Cube.do_move, hm]
  show Except.ok (Cube.permute (Cube.permute c p) p) = Except.ok c
  rw [permute_permute c p p hp, hcomp, permute_range c hc]

/-- Boolean check used to settle C7 for one move table entry. -/
def c7check (e : String × List Nat) : Bool :=
  match Cube.find_move e.1 with
  | some p =>
      p.all (fun i => i < p.length) &&
      (if e.1.length = 1 then compPerm (compPerm (compPerm p p) p) p = List.range 24
       else compPerm p p = List.range 24)
  | none => false

lemma c7check_all : Cube.move_dict.all c7check = true := by decide

lemma move_dict_keys_short :
    Cube.move_dict.all (fun e => e.1.length = 1 || e.1.length = 2) = true := by decide

/-- Claim C7: every one-character (quarter-turn) move of `Cube.move_dict`
applied four times returns any length-24 configuration to itself, and every
two-character (half-turn) move applied twice does the same. -/
theorem claim_C7 (m : String) (p : List Nat) (hm : (m, p) ∈ Cube.move_dict)
    (c : Config) (hc : c.length = 24) :
    (m.length = 1 → Cube.do_moves c [m, m, m, m] = .ok c) ∧
    (m.length = 2 → Cube.do_moves c [m, m] = .ok c) := by
  have hall := c7check_all
  rw [List.all_eq_true] at hall
  have hcheck : c7check (m, p) = true := hall (m, p) hm
  unfold c7check at hcheck
  cases h1 : Cube.find_move m with
  | none => rw [h1] at hcheck; simp at hcheck
  | some p' =>
    rw [h1] at hcheck
    simp only [Bool.and_eq_true, List.all_eq_true, decide_eq_true_eq] at hcheck
    obtain ⟨hbound, hrest⟩ := hcheck
    constructor
    · intro hlen1
      rw [if_pos hlen1] at hrest
      simp only [decide_eq_true_eq] at hrest
      exact do_moves_four_cancel h1 hbound hrest c hc
    · intro hlen2
      rw [if_neg (by omega)] at hrest
      simp only [decide_eq_true_eq] at hrest
      exact do_moves_twice_cancel h1 hbound hrest c hc

/-- Witness for C7 at a concrete input: "U" four times restores the solved
configuration. -/
theorem claim_C7_witness :
    Cube.do_moves Cube.solved_tuple ["U", "U", "U", "U"] = .ok Cube.solved_tuple :=
  (claim_C7 "U" [9, 10, 11, 0, 1, 2, 3, 4, 5, 6, 7, 8,
                 12, 13, 14, 15, 16, 17, 18, 19, 20, 21, 22, 23]
    (by decide) Cube.solved_tuple (by decide)).1 (by decide)

/-- Boolean check used to settle C8 for one face letter. -/
def c8check (x : String) : Bool :=
  match Cube.find_move x, Cube.find_move (x ++ "2") with
  | some p, some p2 => p.all (fun i => i < p.length) && compPerm p p = p2
  | _, _ => false

lemma c8check_all : (["U", "R", "L", "F", "B", "D"].all c8check) = true := by decide

/-- Claim C8: for each face letter X, the half-turn move "X2" of
`Cube.move_dict` sends every length-24 configuration to the same result as
applying the quarter-turn move "X" twice. -/
theorem claim_C8 (x : String) (hx : x ∈ ["U", "R", "L", "F", "B", "D"])
    (c : Config) (_hc : c.length = 24) :
    Cube.do_moves c [x, x] = Cube.do_move c (x ++ "2") := by
  have hall := c8check_all
  rw [List.all_eq_true] at hall
  have hcheck : c8check x = true := hall x hx
  unfold c8check at hcheck
  cases h1 : Cube.find_move x with
  | none => rw [h1] at hcheck; cases h2 : Cube.find_move (x ++ "2") <;> simp [h2] at hcheck
  | some p =>
    cases h2 : Cube.find_move (x ++ "2") with
    | none => rw [h1, h2] at hcheck; simp at hcheck
    | some p2 =>
      rw [h1, h2] at hcheck
      simp only [Bool.and_eq_true, List.all_eq_true, decide_eq_true_eq] at hcheck
      unfold Cube.do_moves Cube.do_move
      simp only [List.foldlM, h1, h2]
      show Except.ok (Cube.permute (Cube.permute c p) p) = Except.ok (Cube.permute c p2)
      rw [permute_permute c p p hcheck.1, hcheck.2]

/-- Witness for C8 at a concrete input: "U" twice equals "U2" on the solved
configuration. -/
theorem claim_C8_witness :
    Cube.do_moves Cube.solved_tuple ["U", "U"] = Cube.do_move Cube.solved_tuple "U2" :=
  claim_C8 "U" (by decide) Cube.solved_tuple (by decide)

/-- Claim C10: the `Cube` constructor errors exactly on configurations whose
length differs from 24, and on every length-24 list (no legality check) it
succeeds storing that very configuration. -/
theorem claim_C10 (c : Config) :
    ((∃ e, Cube.mk_cube c = .error e) ↔ c.length ≠ 24) ∧
    (c.length = 24 → Cube.mk_cube c = .ok c) := by
  unfold Cube.mk_cube
  constructor
  · constructor
    · intro ⟨e, he⟩ hlen
      rw [if_neg (by omega)] at he
      cases he
    · intro hne
      exact ⟨_, by rw [if_pos hne]⟩
  · intro h24
    rw [if_neg (by omega)]

/-- Witness for C10 at concrete inputs: the solved tuple is accepted
unchanged, and a one-element list is rejected. -/
theorem claim_C10_witness :
    Cube.mk_cube Cube.solved_tuple = .ok Cube.solved_tuple ∧
    (∃ e, Cube.mk_cube ["up"] = .error e) :=
  ⟨(claim_C10 Cube.solved_tuple).2 (by decide),
   (claim_C10 ["up"]).1.mpr (by decide)⟩

/-- `CubeBuilder.solve_moves` from the source: the restricted move set used
by the solver. -/
def CubeBuilder.solve_moves : List String := ["R", "r", "F", "f", "U", "u"]

/-- One move leaves the three stickers of the fixed reference corner
(positions 15, 16, 17) of a configuration unchanged. -/
def fixesCorner (c : Config) (m : String) : Prop :=
  (Cube.apply_move c m).getD 15 "" = c.getD 15 "" ∧
  (Cube.apply_move c m).getD 16 "" = c.getD 16 "" ∧
  (Cube.apply_move c m).getD 17 "" = c.getD 17 ""

/-- Claim C4 as stated: the restricted move set is exactly the set of moves
of `Cube.move_dict` that never move the fixed corner's stickers. -/
def claimC4Statement : Prop :=
  (∀ m ∈ CubeBuilder.solve_moves, ∀ c : Config, c.length = 24 → fixesCorner c m) ∧
  (∀ e ∈ Cube.move_dict, e.1 ∉ CubeBuilder.solve_moves →
    ∃ c : Config, c.length = 24 ∧ ¬ fixesCorner c e.1)

/-- A permutation table that holds 15, 16, 17 at positions 15, 16, 17
fixes the corner labels of every configuration. -/
lemma fixesCorner_of_table {m : String} {p : List Nat}
    (hm : Cube.find_move m = some p)
    (h15 : p.getD 15 0 = 15) (h16 : p.getD 16 0 = 16) (h17 : p.getD 17 0 = 17)
    (hlen : 17 < p.length) (c : Config) : fixesCorner c m := by
  have key : ∀ i, i < p.length → (Cube.permute c p).getD i "" = c.getD (p.getD i 0) "" := by
    intro i hi
    unfold Cube.permute
    rw [List.getD_eq_getElem?_getD (List.map (fun i => List.getD c i "") p),
        List.getElem?_map, List.getElem?_eq_getElem hi,
        List.getD_eq_getElem?_getD p, List.getElem?_eq_getElem hi]
    simp
  unfold fixesCorner Cube.apply_move
  rw [hm]
  refine ⟨?_, ?_, ?_⟩
  · rw [key 15 (by omega), h15]
  · rw [key 16 (by omega), h16]
  · rw [key 17 (by omega), h17]

/-- The all-distinct test configuration used to exhibit moved corners. -/
def testConfig : Config :=
  ["a0", "a1", "a2", "a3", "a4", "a5", "a6", "a7", "a8", "a9", "a10", "a11",
   "a12", "a13", "a14", "a15", "a16", "a17", "a18", "a19", "a20", "a21", "a22", "a23"]

/-- Counterexample to C4 as stated: the half-turn move "U2" is a key of
`Cube.move_dict`, is not in `CubeBuilder.solve_moves`, and yet leaves
positions 15, 16, 17 of every length-24 configuration unchanged, so the
restricted move set is not "exactly the moves that never move the fixed
corner's stickers". -/
theorem claim_C4_counterexample : ¬ claimC4Statement := by
  intro h
  obtain ⟨c, -, hne⟩ := h.2
    ("U2", [6, 7, 8, 9, 10, 11, 0, 1, 2, 3, 4, 5,
            12, 13, 14, 15, 16, 17, 18, 19, 20, 21, 22, 23])
    (by decide) (by decide)
  exact hne (fixesCorner_of_table (m := "U2")
    (p := [6, 7, 8, 9, 10, 11, 0, 1, 2, 3, 4, 5,
           12, 13, 14, 15, 16, 17, 18, 19, 20, 21, 22, 23])
    (by decide) (by decide) (by decide) (by decide) (by decide) c)

/-- Boolean check for the first half of the amended C4. -/
def c4fixcheck (m : String) : Bool :=
  match Cube.find_move m with
  | some p => p.getD 15 0 = 15 && p.getD 16 0 = 16 && p.getD 17 0 = 17 &&
      decide (17 < p.length)
  | none => false

lemma c4fixcheck_all : CubeBuilder.solve_moves.all c4fixcheck = true := by decide

/-- Claim C4, amended: `CubeBuilder.solve_moves` is exactly the set of
one-character (quarter-turn) moves of `Cube.move_dict` that never move the
fixed corner's stickers; the three half-turn moves "R2", "U2", "F2" also
leave the corner in place but are not part of the restricted set. -/
theorem claim_C4 :
    (∀ m ∈ CubeBuilder.solve_moves, ∀ c : Config, c.length = 24 → fixesCorner c m) ∧
    (∀ e ∈ Cube.move_dict, e.1.length = 1 → e.1 ∉ CubeBuilder.solve_moves →
      ∃ c : Config, c.length = 24 ∧ ¬ fixesCorner c e.1) := by
  constructor
  · intro m hm c _
    have hall := c4fixcheck_all
    rw [List.all_eq_true] at hall
    have hcheck := hall m hm
    unfold c4fixcheck at hcheck
    cases h1 : Cube.find_move m with
    | none => rw [h1] at hcheck; cases hcheck
    | some p =>
      rw [h1] at hcheck
      simp only [Bool.and_eq_true, decide_eq_true_eq] at hcheck
      exact fixesCorner_of_table h1 hcheck.1.1.1 hcheck.1.1.2 hcheck.1.2 hcheck.2 c
  · intro e he hlen hnot
    have hsplit : e = ("L", [5, 3, 4, 16, 17, 15, 6, 7, 8, 9, 10, 11,
                             1, 2, 0, 14, 12, 13, 18, 19, 20, 21, 22, 23]) ∨
        e = ("B", [0, 1, 2, 8, 6, 7, 19, 20, 18, 9, 10, 11,
                   12, 13, 14, 4, 5, 3, 17, 15, 16, 21, 22, 23]) ∨
        e = ("D", [0, 1, 2, 3, 4, 5, 6, 7, 8, 9, 10, 11,
                   15, 16, 17, 18, 19, 20, 21, 22, 23, 12, 13, 14]) ∨
        e = ("l", [14, 12, 13, 1, 2, 0, 6, 7, 8, 9, 10, 11,
                   16, 17, 15, 5, 3, 4, 18, 19, 20, 21, 22, 23]) ∨
        e = ("b", [0, 1, 2, 17, 15, 16, 4, 5, 3, 9, 10, 11,
                   12, 13, 14, 19, 20, 18, 8, 6, 7, 21, 22, 23]) ∨
        e = ("d", [0, 1, 2, 3, 4, 5, 6, 7, 8, 9, 10, 11,
                   21, 22, 23, 12, 13, 14, 15, 16, 17, 18, 19, 20]) := by
      unfold Cube.move_dict at he
      simp only [List.mem_cons, List.not_mem_nil, or_false] at he
      rcases he with h | h | h | h | h | h | h | h | h | h | h | h | h | h | h | h | h | h <;>
        subst h <;> first
          | (exfalso; revert hnot; decide)
          | (exfalso; revert hlen; decide)
          | tauto
    rcases hsplit with h | h | h | h | h | h <;> subst h <;>
      exact ⟨testConfig, by decide, by intro hfix; revert hfix; unfold fixesCorner; decide⟩

/-- Witness for the amended C4 at a concrete input: "R" fixes the corner of
the solved configuration, and "D" (a quarter turn outside the restricted
set) moves it on some configuration. -/
theorem claim_C4_witness :
    fixesCorner Cube.solved_tuple "R" ∧
    ∃ c : Config, c.length = 24 ∧ ¬ fixesCorner c "D" :=
  ⟨claim_C4.1 "R" (by decide) Cube.solved_tuple (by decide),
   claim_C4.2 ("D", [0, 1, 2, 3, 4, 5, 6, 7, 8, 9, 10, 11,
                     15, 16, 17, 18, 19, 20, 21, 22, 23, 12, 13, 14])
     (by decide) (by decide) (by decide)⟩

/-- `CubeBuilder.__get_third`: given a 3-element collection containing both
reference colors, the first member differing from both; `None` otherwise. -/
def CubeBuilder.get_third (triplet : List String) (first second : String) : Option String :=
  if first ∈ triplet ∧ second ∈ triplet then
    triplet.find? (fun thing => thing ≠ first && thing ≠ second)
  else none

/-- The scanning loop of `CubeBuilder.__get_symbols`: visit the cubie slices
at indices 0,3,6,9,12,18,21 (index 15, the fixed cubie, is skipped) and fill
the still-unknown up/right/front colors by the third-element deduction. -/
def CubeBuilder.symbol_scan (colors : List String) :
    Option String × Option String × Option String :=
  let down := colors.getD 15 ""
  let back := colors.getD 16 ""
  let left := colors.getD 17 ""
  [0, 3, 6, 9, 12, 18, 21].foldl
    (fun acc i =>
      let triplet := (colors.drop i).take 3
      let u := match acc.1 with
        | some s => some s
        | none => CubeBuilder.get_third triplet left back
      let r := match acc.2.1 with
        | some s => some s
        | none => CubeBuilder.get_third triplet down back
      let f := match acc.2.2 with
        | some s => some s
        | none => CubeBuilder.get_third triplet down left
      (u, r, f))
    (none, none, none)

/-- `CubeBuilder.__get_symbols`: the color-to-role dictionary, represented as
the insertion-ordered list of (color key, role) pairs; a later pair with the
same key shadows an earlier one, exactly like the Python dict literal.
Raises when a key is still unresolved (`None`). -/
def CubeBuilder.get_symbols (colors : List String) :
    Except String (List (Option String × String)) :=
  let down := colors.getD 15 ""
  let back := colors.getD 16 ""
  let left := colors.getD 17 ""
  let urf := CubeBuilder.symbol_scan colors
  let symbols : List (Option String × String) :=
    [(urf.1, Cube.up_symbol), (urf.2.1, Cube.right_symbol), (some left, Cube.left_symbol),
     (urf.2.2, Cube.front_symbol), (some back, Cube.back_symbol), (some down, Cube.down_symbol)]
  if symbols.any (fun e => e.1 = none) then
    .error "Symbol map does not resolve correctly."
  else .ok symbols

/-- Dictionary lookup with Python semantics: the value of the last pair whose
key equals the color. -/
def lookupColor (pairs : List (Option String × String)) (color : String) : Option String :=
  (pairs.reverse.find? (fun e => e.1 = some color)).map (fun e => e.2)

/-- The translation loop of `CubeBuilder.get_cube_from_colors`: map every
color through the symbol dictionary, raising at the first unknown color. -/
def CubeBuilder.translate_colors (pairs : List (Option String × String)) :
    List String → Except String (List String)
  | [] => .ok []
  | color :: rest =>
    match lookupColor pairs color with
    | some s =>
      match CubeBuilder.translate_colors pairs rest with
      | .ok l => .ok (s :: l)
      | .error e => .error e
    | none => .error ("Error reading cube symbol " ++ color ++ ".")

/-- `CubeBuilder.__check_triplet`: whether `triplet` is one of the three
cyclic rotations of `oriented_triplet`, by the source's case analysis on the
first element. -/
def CubeBuilder.check_triplet (triplet oriented_triplet : List String) : Bool :=
  if triplet.getD 0 "" = oriented_triplet.getD 0 "" then
    triplet.getD 1 "" = oriented_triplet.getD 1 "" &&
    triplet.getD 2 "" = oriented_triplet.getD 2 ""
  else if triplet.getD 0 "" = oriented_triplet.getD 1 "" then
    triplet.getD 1 "" = oriented_triplet.getD 2 "" &&
    triplet.getD 2 "" = oriented_triplet.getD 0 ""
  else if triplet.getD 0 "" = oriented_triplet.getD 2 "" then
    triplet.getD 1 "" = oriented_triplet.getD 0 "" &&
    triplet.getD 2 "" = oriented_triplet.getD 1 ""
  else false

/-- The cubie (group of 3 consecutive labels) of a configuration at block
index `i`. -/
def cubieAt (c : Config) (i : Nat) : List String :=
  (c.drop (3 * i)).take 3

/-- The `test_cube` list built inside `CubeBuilder.__check_validity`: for
each cubie of the configuration (index range stepping by 3), append one copy
of it per solved cubie it is a rotation of. -/
def CubeBuilder.test_cube_of (c : Config) : List String :=
  (List.range ((c.length + 2) / 3)).foldl
    (fun acc i =>
      (List.range ((c.length + 2) / 3)).foldl
        (fun acc2 j =>
          if CubeBuilder.check_triplet (cubieAt c i) (cubieAt Cube.solved_tuple j)
          then acc2 ++ cubieAt c i else acc2)
        acc)
    []

/-- `CubeBuilder.__check_validity`: six distinct labels with four stickers
each, and the `test_cube` rebuilt from the triplet matches must equal the
configuration. -/
def CubeBuilder.check_validity (c : Config) : Bool :=
  if c.dedup.length ≠ 6 then false
  else if c.dedup.any (fun l => c.count l ≠ 4) then false
  else CubeBuilder.test_cube_of c = c

/-- `CubeBuilder.get_cube_from_colors`: deduce the color-to-role map, build
the candidate configuration, and accept it only if it passes the validity
check. -/
def CubeBuilder.get_cube_from_colors (colors : List String) : Except String Config := do
  let symbol_dict ← CubeBuilder.get_symbols colors
  let translate_list ← CubeBuilder.translate_colors symbol_dict colors
  let cube ← Cube.mk_cube translate_list
  if CubeBuilder.check_validity cube then pure cube
  else .error "Invalid cube provided."

/-- The spec-side first validity condition: exactly six distinct labels,
each appearing exactly 4 times. -/
def countsOkSpec (c : Config) : Prop :=
  c.dedup.length = 6 ∧ ∀ l ∈ c.dedup, c.count l = 4

/-- One cyclic rotation of a 3-element list. -/
def rotOnce (t : List String) : List String :=
  [t.getD 1 "", t.getD 2 "", t.getD 0 ""]

/-- The spec-side rotation relation: `t` is one of the three cyclic
rotations of `s`. -/
def isRotationOf (t s : List String) : Prop :=
  t = s ∨ t = rotOnce s ∨ t = rotOnce (rotOnce s)

instance (t s : List String) : Decidable (isRotationOf t s) := by
  unfold isRotationOf; infer_instance

/-- The spec-side second validity condition: every cubie is a cyclic
rotation of some cubie of the solved configuration. -/
def tripletsOkSpec (c : Config) : Prop :=
  ∀ i < 8, ∃ j < 8, isRotationOf (cubieAt c i) (cubieAt Cube.solved_tuple j)

instance (c : Config) : Decidable (countsOkSpec c) := by
  unfold countsOkSpec; infer_instance

instance (c : Config) : Decidable (tripletsOkSpec c) := by
  unfold tripletsOkSpec; infer_instance

instance exceptDecEq {e a : Type} [DecidableEq e] [DecidableEq a] :
    DecidableEq (Except e a)
  | .error x, .error y =>
    if h : x = y then .isTrue (by rw [h]) else .isFalse (by intro hh; cases hh; exact h rfl)
  | .error _, .ok _ => .isFalse (by intro h; cases h)
  | .ok _, .error _ => .isFalse (by intro h; cases h)
  | .ok x, .ok y =>
    if h : x = y then .isTrue (by rw [h]) else .isFalse (by intro hh; cases hh; exact h rfl)

lemma permute_getD (c : Config) (p : List Nat) (i : Nat) (hi : i < p.length) :
    (Cube.permute c p).getD i "" = c.getD (p.getD i 0) "" := by
  unfold Cube.permute
  rw [List.getD_eq_getElem?_getD (List.map (fun i => List.getD c i "") p),
      List.getElem?_map, List.getElem?_eq_getElem hi,
      List.getD_eq_getElem?_getD p, List.getElem?_eq_getElem hi]
  simp

lemma permute_length (c : Config) (p : List Nat) :
    (Cube.permute c p).length = p.length := by
  unfold Cube.permute; simp

lemma list3_eq (l : List String) (h : l.length = 3) :
    l = [l.getD 0 "", l.getD 1 "", l.getD 2 ""] := by
  obtain ⟨a, b, c, rfl⟩ := List.length_eq_three.mp h
  rfl

lemma cubieAt_length (c : Config) (i : Nat) (h : 3 * i + 3 ≤ c.length) :
    (cubieAt c i).length = 3 := by
  unfold cubieAt
  rw [List.length_take, List.length_drop]
  omega

lemma cubieAt_getD (c : Config) (i k : Nat) (hk : k < 3) (h : 3 * i + k < c.length) :
    (cubieAt c i).getD k "" = c.getD (3 * i + k) "" := by
  unfold cubieAt
  rw [List.getD_eq_getElem?_getD, List.getD_eq_getElem?_getD]
  rw [List.getElem?_take, if_pos hk, List.getElem?_drop]

lemma cubieAt_as_list (c : Config) (i : Nat) (h : 3 * i + 3 ≤ c.length) :
    cubieAt c i = [c.getD (3 * i) "", c.getD (3 * i + 1) "", c.getD (3 * i + 2) ""] := by
  rw [list3_eq (cubieAt c i) (cubieAt_length c i h),
      cubieAt_getD c i 0 (by omega) (by omega),
      cubieAt_getD c i 1 (by omega) (by omega),
      cubieAt_getD c i 2 (by omega) (by omega)]
  norm_num

/-- The source's first-element case analysis recognises exactly the cyclic
rotations, whenever the reference triplet has three distinct entries. -/
lemma check_triplet_iff (t s : List String) (ht : t.length = 3) (hs : s.length = 3)
    (hd : s.getD 0 "" ≠ s.getD 1 "" ∧ s.getD 0 "" ≠ s.getD 2 "" ∧
          s.getD 1 "" ≠ s.getD 2 "") :
    CubeBuilder.check_triplet t s = true ↔ isRotationOf t s := by
  obtain ⟨a, b, c, rfl⟩ := List.length_eq_three.mp ht
  obtain ⟨d, e, f, rfl⟩ := List.length_eq_three.mp hs
  obtain ⟨hde, hdf, hef⟩ := hd
  simp only [List.getD] at hde hdf hef
  unfold CubeBuilder.check_triplet isRotationOf rotOnce
  simp only [List.getD_cons_zero, List.getD_cons_succ]
  by_cases h1 : a = d <;> by_cases h2 : a = e <;> by_cases h3 : a = f <;>
    simp_all

lemma solved_cubie_facts :
    ∀ j < 8, (cubieAt Cube.solved_tuple j).length = 3 ∧
      (cubieAt Cube.solved_tuple j).getD 0 "" ≠ (cubieAt Cube.solved_tuple j).getD 1 "" ∧
      (cubieAt Cube.solved_tuple j).getD 0 "" ≠ (cubieAt Cube.solved_tuple j).getD 2 "" ∧
      (cubieAt Cube.solved_tuple j).getD 1 "" ≠ (cubieAt Cube.solved_tuple j).getD 2 "" := by
  decide

lemma solved_rot_disjoint :
    ∀ j < 8, ∀ k < 8, ∀ t : List String,
      isRotationOf t (cubieAt Cube.solved_tuple j) →
      isRotationOf t (cubieAt Cube.solved_tuple k) → j = k := by
  have core : ∀ j < 8, ∀ k < 8, j ≠ k →
      ¬ isRotationOf (cubieAt Cube.solved_tuple j) (cubieAt Cube.solved_tuple k) ∧
      ¬ isRotationOf (rotOnce (cubieAt Cube.solved_tuple j)) (cubieAt Cube.solved_tuple k) ∧
      ¬ isRotationOf (rotOnce (rotOnce (cubieAt Cube.solved_tuple j)))
          (cubieAt Cube.solved_tuple k) := by decide
  intro j hj k hk t h1 h2
  by_contra hne
  obtain ⟨c1, c2, c3⟩ := core j hj k hk hne
  rcases h1 with h | h | h <;> rw [h] at h2
  · exact c1 h2
  · exact c2 h2
  · exact c3 h2

lemma rot_closure (t s : List String) (hs : s.length = 3) (h : isRotationOf t s) :
    isRotationOf (rotOnce t) s := by
  obtain ⟨d, e, f, rfl⟩ := List.length_eq_three.mp hs
  rcases h with h | h | h <;> subst h <;> unfold isRotationOf rotOnce <;> simp

/-- Folding `fun a x => a ++ g x` over a list appends the flattened images. -/
lemma foldl_extend {α : Type} (l : List α) (f : List String → α → List String)
    (g : α → List String) (hf : ∀ a x, f a x = a ++ g x) (init : List String) :
    l.foldl f init = init ++ (l.map g).flatten := by
  induction l generalizing init with
  | nil => simp
  | cons x xs ih => simp [List.foldl_cons, hf, ih, List.append_assoc]

lemma flatten_ite_nil {α : Type} (l : List α) (P : α → Bool) (t : List String)
    (h : ∀ x ∈ l, P x = false) :
    (l.map (fun k => if P k then t else [])).flatten = [] := by
  induction l with
  | nil => simp
  | cons x xs ih =>
    simp only [List.map_cons, List.flatten_cons, h x (by simp)]
    simp only [Bool.false_eq_true, if_false, List.nil_append]
    exact ih (fun y hy => h y (by simp [hy]))

lemma flatten_ite_single (l : List Nat) (P : Nat → Bool) (t : List String) (j : Nat)
    (hn : l.Nodup) (hj : j ∈ l) (hPj : P j = true)
    (huniq : ∀ k ∈ l, P k = true → k = j) :
    (l.map (fun k => if P k then t else [])).flatten = t := by
  induction l with
  | nil => simp at hj
  | cons x xs ih =>
    rw [List.nodup_cons] at hn
    cases hx : P x with
    | true =>
      have hxj : x = j := huniq x (by simp) hx
      simp only [List.map_cons, List.flatten_cons, hx, if_true]
      have hrest : (xs.map (fun k => if P k then t else [])).flatten = [] := by
        apply flatten_ite_nil
        intro y hy
        cases hPy : P y with
        | true =>
          exfalso
          have : y = j := huniq y (by simp [hy]) hPy
          rw [this, ← hxj] at hy
          exact hn.1 hy
        | false => rfl
      rw [hrest, List.append_nil]
    | false =>
      have hxj : x ≠ j := fun he => by rw [he, hPj] at hx; cases hx
      have hjxs : j ∈ xs := by
        rcases List.mem_cons.mp hj with h | h
        · exact absurd h.symm hxj
        · exact h
      simp only [List.map_cons, List.flatten_cons, hx]
      simp only [Bool.false_eq_true, if_false, List.nil_append]
      exact ih hn.2 hjxs (fun k hk hPk => huniq k (by simp [hk]) hPk)

/-- Concatenating the cubies of a configuration in order rebuilds it. -/
lemma flatten_cubies (n : Nat) (c : Config) (h : c.length = 3 * n) :
    ((List.range n).map (fun i => cubieAt c i)).flatten = c := by
  induction n generalizing c with
  | zero =>
    simp only [List.range_zero, List.map_nil, List.flatten_nil]
    exact (List.eq_nil_of_length_eq_zero (by omega)).symm
  | succ n ih =>
    rw [List.range_succ_eq_map]
    simp only [List.map_cons, List.flatten_cons, List.map_map]
    have hmap : ∀ i, cubieAt c (i + 1) = cubieAt (c.drop 3) i := by
      intro i
      unfold cubieAt
      congr 1
      rw [List.drop_drop]
      congr 1
      omega
    have : (List.map (fun i => cubieAt c (i + 1)) (List.range n)).flatten = c.drop 3 := by
      have heq : (List.map (fun i => cubieAt c (i + 1)) (List.range n)) =
          (List.map (fun i => cubieAt (c.drop 3) i) (List.range n)) := by
        apply List.map_congr_left
        intro i _
        exact hmap i
      rw [heq]
      apply ih
      rw [List.length_drop]
      omega
    show cubieAt c 0 ++ (List.map ((fun i => cubieAt c i) ∘ (fun i => i + 1))
      (List.range n)).flatten = c
    have hcomp : (List.map ((fun i => cubieAt c i) ∘ (fun i => i + 1)) (List.range n)) =
        (List.map (fun i => cubieAt c (i + 1)) (List.range n)) := rfl
    rw [hcomp, this]
    show (c.drop 0).take 3 ++ c.drop 3 = c
    rw [List.drop_zero, List.take_append_drop]

lemma test_cube_char (c : Config) (h24 : c.length = 24) :
    CubeBuilder.test_cube_of c = ((List.range 8).map (fun i =>
      ((List.range 8).map (fun j =>
        if CubeBuilder.check_triplet (cubieAt c i) (cubieAt Cube.solved_tuple j)
        then cubieAt c i else [])).flatten)).flatten := by
  unfold CubeBuilder.test_cube_of
  rw [h24]
  norm_num
  rw [foldl_extend (List.range 8) _
      (fun i => ((List.range 8).map (fun j =>
        if CubeBuilder.check_triplet (cubieAt c i) (cubieAt Cube.solved_tuple j)
        then cubieAt c i else [])).flatten)
      (fun a i => foldl_extend (List.range 8) _
        (fun j => if CubeBuilder.check_triplet (cubieAt c i) (cubieAt Cube.solved_tuple j)
          then cubieAt c i else [])
        (fun a2 j => by
          by_cases hj : CubeBuilder.check_triplet (cubieAt c i) (cubieAt Cube.solved_tuple j)
          · simp [hj]
          · simp [hj]) a)]
  simp

/-- At most one solved cubie matches any given triplet. -/
lemma check_triplet_unique (t : List String) (ht : t.length = 3) (j k : Nat)
    (hj : j < 8) (hk : k < 8)
    (h1 : CubeBuilder.check_triplet t (cubieAt Cube.solved_tuple j) = true)
    (h2 : CubeBuilder.check_triplet t (cubieAt Cube.solved_tuple k) = true) : j = k := by
  obtain ⟨hlj, hdj⟩ := solved_cubie_facts j hj
  obtain ⟨hlk, hdk⟩ := solved_cubie_facts k hk
  exact solved_rot_disjoint j hj k hk t
    ((check_triplet_iff t _ ht hlj hdj).mp h1)
    ((check_triplet_iff t _ ht hlk hdk).mp h2)

lemma flatten_length_le {α : Type} (l : List α) (g : α → List String)
    (hb : ∀ x ∈ l, (g x).length ≤ 3) :
    ((l.map g).flatten).length ≤ 3 * l.length := by
  induction l with
  | nil => simp
  | cons x xs ih =>
    simp only [List.map_cons, List.flatten_cons, List.length_append, List.length_cons]
    have h1 := hb x (by simp)
    have h2 := ih (fun y hy => hb y (by simp [hy]))
    omega

lemma flatten_length_lt {α : Type} (l : List α) (g : α → List String) (i0 : α)
    (hi0 : i0 ∈ l) (hempty : g i0 = []) (hb : ∀ x ∈ l, (g x).length ≤ 3) :
    ((l.map g).flatten).length + 3 ≤ 3 * l.length := by
  induction l with
  | nil => simp at hi0
  | cons x xs ih =>
    simp only [List.map_cons, List.flatten_cons, List.length_append, List.length_cons]
    rcases List.mem_cons.mp hi0 with h | h
    · rw [← h, hempty]
      have h2 := flatten_length_le xs g (fun y hy => hb y (by simp [hy]))
      simp only [List.length_nil]
      omega
    · have h1 := hb x (by simp)
      have h2 := ih h (fun y hy => hb y (by simp [hy]))
      omega

/-- The inner loop of the validity check produces either nothing (no match)
or exactly one copy of the cubie. -/
lemma inner_loop_cases (c : Config) (h24 : c.length = 24) (i : Nat) (hi : i < 8) :
    (((List.range 8).map (fun j =>
      if CubeBuilder.check_triplet (cubieAt c i) (cubieAt Cube.solved_tuple j)
      then cubieAt c i else [])).flatten = cubieAt c i ∧
      (∃ j < 8, isRotationOf (cubieAt c i) (cubieAt Cube.solved_tuple j))) ∨
    (((List.range 8).map (fun j =>
      if CubeBuilder.check_triplet (cubieAt c i) (cubieAt Cube.solved_tuple j)
      then cubieAt c i else [])).flatten = [] ∧
      ¬ (∃ j < 8, isRotationOf (cubieAt c i) (cubieAt Cube.solved_tuple j))) := by
  have ht : (cubieAt c i).length = 3 := cubieAt_length c i (by omega)
  by_cases hex : ∃ j < 8, isRotationOf (cubieAt c i) (cubieAt Cube.solved_tuple j)
  · left
    obtain ⟨j, hj, hiso⟩ := hex
    obtain ⟨hlj, hdj⟩ := solved_cubie_facts j hj
    refine ⟨?_, ⟨j, hj, hiso⟩⟩
    apply flatten_ite_single _ _ _ j (List.nodup_range 8) (List.mem_range.mpr hj)
      ((check_triplet_iff _ _ ht hlj hdj).mpr hiso)
    intro k hk hPk
    exact check_triplet_unique (cubieAt c i) ht k j (List.mem_range.mp hk) hj hPk
      ((check_triplet_iff _ _ ht hlj hdj).mpr hiso)
  · right
    refine ⟨?_, hex⟩
    apply flatten_ite_nil
    intro j hj
    cases hPj : CubeBuilder.check_triplet (cubieAt c i) (cubieAt Cube.solved_tuple j) with
    | true =>
      exfalso
      obtain ⟨hlj, hdj⟩ := solved_cubie_facts j (List.mem_range.mp hj)
      exact hex ⟨j, List.mem_range.mp hj, (check_triplet_iff _ _ ht hlj hdj).mp hPj⟩
    | false => rfl

/-- The `test_cube` equals the configuration exactly when every cubie is a
rotation of some solved cubie. -/
lemma test_cube_eq_iff (c : Config) (h24 : c.length = 24) :
    (CubeBuilder.test_cube_of c = c) ↔ tripletsOkSpec c := by
  rw [test_cube_char c h24]
  constructor
  · intro heq
    by_contra hnot
    unfold tripletsOkSpec at hnot
    push_neg at hnot
    obtain ⟨i0, hi0, hno⟩ := hnot
    have hcases := inner_loop_cases c h24 i0 hi0
    have hempty : ((List.range 8).map (fun j =>
        if CubeBuilder.check_triplet (cubieAt c i0) (cubieAt Cube.solved_tuple j)
        then cubieAt c i0 else [])).flatten = [] := by
      rcases hcases with ⟨-, ⟨j, hj, hiso⟩⟩ | ⟨h, -⟩
      · exact absurd hiso (hno j hj)
      · exact h
    have hlen : (((List.range 8).map (fun i =>
        ((List.range 8).map (fun j =>
          if CubeBuilder.check_triplet (cubieAt c i) (cubieAt Cube.solved_tuple j)
          then cubieAt c i else [])).flatten)).flatten).length + 3 ≤ 24 := by
      have := flatten_length_lt (List.range 8)
        (fun i => ((List.range 8).map (fun j =>
          if CubeBuilder.check_triplet (cubieAt c i) (cubieAt Cube.solved_tuple j)
          then cubieAt c i else [])).flatten)
        i0 (List.mem_range.mpr hi0) hempty ?_
      · simpa using this
      · intro x hx
        rcases inner_loop_cases c h24 x (List.mem_range.mp hx) with ⟨h, -⟩ | ⟨h, -⟩ <;>
          simp only [h]
        · rw [cubieAt_length c x (by have := List.mem_range.mp hx; omega)]
        · simp
    have : c.length + 3 ≤ 24 := by rw [← heq]; exact hlen
    omega
  · intro htrip
    have hinner : ∀ i ∈ List.range 8, ((List.range 8).map (fun j =>
        if CubeBuilder.check_triplet (cubieAt c i) (cubieAt Cube.solved_tuple j)
        then cubieAt c i else [])).flatten = cubieAt c i := by
      intro i hi
      rcases inner_loop_cases c h24 i (List.mem_range.mp hi) with ⟨h, -⟩ | ⟨-, hnx⟩
      · exact h
      · exact absurd (htrip i (List.mem_range.mp hi)) hnx
    rw [List.map_congr_left hinner]
    exact flatten_cubies 8 c (by omega)

/-- `CubeBuilder.__check_validity` decides exactly the two spec conditions:
six labels of four stickers each, and every cubie a cyclic rotation of a
solved cubie. -/
lemma check_validity_eq (c : Config) (h24 : c.length = 24) :
    CubeBuilder.check_validity c = true ↔ (countsOkSpec c ∧ tripletsOkSpec c) := by
  unfold CubeBuilder.check_validity
  by_cases hL : c.dedup.length = 6
  · rw [if_neg (fun h => h hL)]
    by_cases hA : (c.dedup.any fun l => c.count l ≠ 4) = true
    · rw [if_pos hA]
      constructor
      · intro h; cases h
      · rintro ⟨⟨-, hcnt⟩, -⟩
        exfalso
        rw [List.any_eq_true] at hA
        obtain ⟨l, hl, hbad⟩ := hA
        simp only [decide_eq_true_eq] at hbad
        exact hbad (hcnt l hl)
    · rw [if_neg hA]
      rw [Bool.not_eq_true, List.any_eq_false] at hA
      have hcnt : ∀ l ∈ c.dedup, c.count l = 4 := by
        intro l hl
        have := hA l hl
        simpa using this
      simp only [decide_eq_true_eq]
      rw [test_cube_eq_iff c h24]
      constructor
      · intro htrip
        exact ⟨⟨hL, hcnt⟩, htrip⟩
      · rintro ⟨-, htrip⟩
        exact htrip
  · rw [if_pos hL]
    constructor
    · intro h; cases h
    · rintro ⟨⟨h6, -⟩, -⟩
      exact absurd h6 hL

lemma translate_length (pairs : List (Option String × String)) :
    ∀ (colors : List String) (l : List String),
      CubeBuilder.translate_colors pairs colors = .ok l → l.length = colors.length := by
  intro colors
  induction colors with
  | nil =>
    intro l h
    unfold CubeBuilder.translate_colors at h
    cases h
    rfl
  | cons color rest ih =>
    intro l h
    unfold CubeBuilder.translate_colors at h
    cases hlk : lookupColor pairs color with
    | none => rw [hlk] at h; cases h
    | some s =>
      rw [hlk] at h
      cases hrec : CubeBuilder.translate_colors pairs rest with
      | error e => rw [hrec] at h; cases h
      | ok l' =>
        rw [hrec] at h
        cases h
        simp [ih l' hrec]

/-- Claim C3: when the color-to-role deduction and translation succeed with
candidate configuration `cand`, `get_cube_from_colors` returns a cube holding
exactly `cand` if `cand` has six labels of four stickers each and every cubie
is a cyclic rotation of some solved cubie, and raises an error (the source's
`InvalidConfiguration` / "Invalid cube provided") otherwise. -/
theorem claim_C3 (colors : List String) (h24 : colors.length = 24)
    (pairs : List (Option String × String)) (cand : Config)
    (hsym : CubeBuilder.get_symbols colors = .ok pairs)
    (htr : CubeBuilder.translate_colors pairs colors = .ok cand) :
    ((countsOkSpec cand ∧ tripletsOkSpec cand) →
        CubeBuilder.get_cube_from_colors colors = .ok cand) ∧
    (¬ (countsOkSpec cand ∧ tripletsOkSpec cand) →
        CubeBuilder.get_cube_from_colors colors = .error "Invalid cube provided.") := by
  have hlen : cand.length = 24 := by rw [translate_length pairs colors cand htr, h24]
  have hmk : Cube.mk_cube cand = .ok cand := by
    unfold Cube.mk_cube
    rw [if_neg (by omega)]
  have hred : CubeBuilder.get_cube_from_colors colors =
      (if CubeBuilder.check_validity cand then pure cand
       else .error "Invalid cube provided.") := by
    unfold CubeBuilder.get_cube_from_colors
    rw [hsym]
    show (CubeBuilder.translate_colors pairs colors).bind _ = _
    rw [htr]
    show (Cube.mk_cube cand).bind _ = _
    rw [hmk]
    rfl
  constructor
  · intro hspec
    rw [hred, if_pos ((check_validity_eq cand hlen).mpr hspec)]
    rfl
  · intro hspec
    rw [hred, if_neg (fun h => hspec ((check_validity_eq cand hlen).mp h))]

/-- Witness for C3 at a concrete input: a correctly colored cube (colors
"w","g","o","r","b","y" laid out like the solved configuration) passes both
checks and is canonicalized to the solved configuration. -/
theorem claim_C3_witness :
    CubeBuilder.get_cube_from_colors
      ["w", "g", "o", "w", "o", "b", "w", "b", "r", "w", "r", "g",
       "y", "o", "g", "y", "b", "o", "y", "r", "b", "y", "g", "r"] =
    .ok Cube.solved_tuple :=
  (claim_C3
    ["w", "g", "o", "w", "o", "b", "w", "b", "r", "w", "r", "g",
     "y", "o", "g", "y", "b", "o", "y", "r", "b", "y", "g", "r"]
    (by decide)
    [(some "w", Cube.up_symbol), (some "r", Cube.right_symbol),
     (some "o", Cube.left_symbol), (some "g", Cube.front_symbol),
     (some "b", Cube.back_symbol), (some "y", Cube.down_symbol)]
    Cube.solved_tuple (by decide) (by decide)).1 (by decide)

/-- The move tables of `Cube.move_dict` send each cubie block to a cyclic
rotation of some cubie block. -/
def blockRotSpec (p : List Nat) : Prop :=
  ∀ i < 8, ∃ j < 8,
    (p.getD (3 * i) 0 = 3 * j ∧ p.getD (3 * i + 1) 0 = 3 * j + 1 ∧
     p.getD (3 * i + 2) 0 = 3 * j + 2) ∨
    (p.getD (3 * i) 0 = 3 * j + 1 ∧ p.getD (3 * i + 1) 0 = 3 * j + 2 ∧
     p.getD (3 * i + 2) 0 = 3 * j) ∨
    (p.getD (3 * i) 0 = 3 * j + 2 ∧ p.getD (3 * i + 1) 0 = 3 * j ∧
     p.getD (3 * i + 2) 0 = 3 * j + 1)

instance (p : List Nat) : Decidable (blockRotSpec p) := by
  unfold blockRotSpec; infer_instance

lemma all_moves_blockRot : ∀ e ∈ Cube.move_dict, blockRotSpec e.2 := by decide

lemma all_moves_length : ∀ e ∈ Cube.move_dict, e.2.length = 24 := by decide

lemma all_moves_perm : ∀ e ∈ Cube.move_dict, List.Perm e.2 (List.range 24) := by decide

lemma all_moves_found : ∀ e ∈ Cube.move_dict, Cube.find_move e.1 = some e.2 := by decide

lemma permute_perm (c : Config) (p : List Nat) (hc : c.length = 24)
    (hp : List.Perm p (List.range 24)) : List.Perm (Cube.permute c p) c := by
  unfold Cube.permute
  have h2 : List.Perm (p.map fun i => c.getD i "")
      ((List.range 24).map fun i => c.getD i "") := hp.map _
  refine h2.trans ?_
  have : (List.range 24).map (fun i => c.getD i "") = Cube.permute c (List.range 24) := rfl
  rw [this, permute_range c hc]

lemma countsOk_perm (a b : Config) (h : List.Perm a b) :
    countsOkSpec a ↔ countsOkSpec b := by
  unfold countsOkSpec
  have hd : List.Perm a.dedup b.dedup := h.dedup
  constructor
  · rintro ⟨h6, hcnt⟩
    refine ⟨by rw [← hd.length_eq, h6], ?_⟩
    intro l hl
    rw [← h.count_eq]
    exact hcnt l (hd.mem_iff.mpr hl)
  · rintro ⟨h6, hcnt⟩
    refine ⟨by rw [hd.length_eq, h6], ?_⟩
    intro l hl
    rw [h.count_eq]
    exact hcnt l (hd.mem_iff.mp hl)

lemma tripletsOk_move (c : Config) (h24 : c.length = 24) (p : List Nat)
    (hbr : blockRotSpec p) (hplen : p.length = 24)
    (ht : tripletsOkSpec c) : tripletsOkSpec (Cube.permute c p) := by
  intro i hi
  obtain ⟨j, hj, hcase⟩ := hbr i hi
  have hplen' : (Cube.permute c p).length = 24 := by rw [permute_length, hplen]
  have hlist : cubieAt (Cube.permute c p) i =
      [(Cube.permute c p).getD (3 * i) "", (Cube.permute c p).getD (3 * i + 1) "",
       (Cube.permute c p).getD (3 * i + 2) ""] :=
    cubieAt_as_list _ i (by omega)
  have hg0 : (Cube.permute c p).getD (3 * i) "" = c.getD (p.getD (3 * i) 0) "" :=
    permute_getD c p _ (by omega)
  have hg1 : (Cube.permute c p).getD (3 * i + 1) "" = c.getD (p.getD (3 * i + 1) 0) "" :=
    permute_getD c p _ (by omega)
  have hg2 : (Cube.permute c p).getD (3 * i + 2) "" = c.getD (p.getD (3 * i + 2) 0) "" :=
    permute_getD c p _ (by omega)
  have hcj : cubieAt c j =
      [c.getD (3 * j) "", c.getD (3 * j + 1) "", c.getD (3 * j + 2) ""] :=
    cubieAt_as_list c j (by omega)
  obtain ⟨j', hj', hiso⟩ := ht j hj
  obtain ⟨hlj', -⟩ := solved_cubie_facts j' hj'
  rcases hcase with ⟨e0, e1, e2⟩ | ⟨e0, e1, e2⟩ | ⟨e0, e1, e2⟩
  · refine ⟨j', hj', ?_⟩
    have : cubieAt (Cube.permute c p) i = cubieAt c j := by
      rw [hlist, hg0, hg1, hg2, e0, e1, e2, hcj]
    rw [this]
    exact hiso
  · refine ⟨j', hj', ?_⟩
    have : cubieAt (Cube.permute c p) i = rotOnce (cubieAt c j) := by
      rw [hlist, hg0, hg1, hg2, e0, e1, e2, hcj]
      rfl
    rw [this]
    exact rot_closure _ _ hlj' hiso
  · refine ⟨j', hj', ?_⟩
    have : cubieAt (Cube.permute c p) i = rotOnce (rotOnce (cubieAt c j)) := by
      rw [hlist, hg0, hg1, hg2, e0, e1, e2, hcj]
      rfl
    rw [this]
    exact rot_closure _ _ hlj' (rot_closure _ _ hlj' hiso)

/-- Claim C9: legality is preserved by every move of `Cube.move_dict`: a
configuration passing `__check_validity` still passes it after any move. -/
theorem claim_C9 (c : Config) (h24 : c.length = 24)
    (hval : CubeBuilder.check_validity c = true)
    (m : String) (p : List Nat) (hm : (m, p) ∈ Cube.move_dict)
    (c' : Config) (hdo : Cube.do_move c m = .ok c') :
    CubeBuilder.check_validity c' = true := by
  have hfind : Cube.find_move m = some p := all_moves_found (m, p) hm
  have hc' : c' = Cube.permute c p := by
    unfold Cube.do_move at hdo
    rw [hfind] at hdo
    cases hdo
    rfl
  have hplen : p.length = 24 := all_moves_length (m, p) hm
  have hperm : List.Perm (Cube.permute c p) c :=
    permute_perm c p h24 (all_moves_perm (m, p) hm)
  obtain ⟨hcounts, htrips⟩ := (check_validity_eq c h24).mp hval
  have hlen' : c'.length = 24 := by rw [hc', permute_length, hplen]
  rw [check_validity_eq c' hlen']
  subst hc'
  exact ⟨(countsOk_perm _ c hperm).mpr hcounts,
         tripletsOk_move c h24 p (all_moves_blockRot (m, p) hm) hplen htrips⟩

/-- Witness for C9 at a concrete input: the solved configuration is valid and
stays valid after the "U" move. -/
theorem claim_C9_witness :
    CubeBuilder.check_validity
      (Cube.permute Cube.solved_tuple
        [9, 10, 11, 0, 1, 2, 3, 4, 5, 6, 7, 8,
         12, 13, 14, 15, 16, 17, 18, 19, 20, 21, 22, 23]) = true :=
  claim_C9 Cube.solved_tuple (by decide) (by decide) "U"
    [9, 10, 11, 0, 1, 2, 3, 4, 5, 6, 7, 8,
     12, 13, 14, 15, 16, 17, 18, 19, 20, 21, 22, 23]
    (by decide) _ rfl

/-- A search node: the start cube (parent `None`, marker `""`) or a cube
created by `get_cube_children` from its parent with the move that produced
it. -/
inductive Node where
  | root (configuration : Config)
  | child (configuration : Config) (marker : String) (parent : Node)
deriving DecidableEq

/-- The `configuration` field of a node's cube. -/
def Node.configuration : Node → Config
  | .root c => c
  | .child c _ _ => c

/-- The `marker` field: the move that produced this node (`""` for a start
node). -/
def Node.marker : Node → String
  | .root _ => ""
  | .child _ m _ => m

/-- The number of parent links above the node. -/
def Node.depth : Node → Nat
  | .root _ => 0
  | .child _ _ p => Node.depth p + 1

/-- The markers along the parent chain, from the root down to this node. -/
def Node.pathOf : Node → List String
  | .root _ => []
  | .child _ m p => Node.pathOf p ++ [m]

/-- The state of a `Searcher`: current layer, next layer, visited map
(insertion-ordered association list, as a Python dict), position within the
current layer, layer counter, and the move set. -/
structure SearchState where
  currentLayer : List Node
  nextLayer : List Node
  visited : List (Config × Node)
  count : Nat
  layerNumber : Nat
  search_moves : List String
deriving DecidableEq

/-- `Searcher.__init__`. -/
def Searcher.init (start : Config) (search_moves : List String) : SearchState :=
  { currentLayer := [Node.root start], nextLayer := [], visited := [],
    count := 0, layerNumber := 0, search_moves := search_moves }

/-- Membership/lookup in the visited dict. -/
def lookupVisited (v : List (Config × Node)) (c : Config) : Option Node :=
  (v.find? (fun e => e.1 = c)).map (fun e => e.2)

/-- `Searcher.get_cube_children`: one child per move of the move set, with
marker and parent fields set. (The caller always passes move names that are
keys of `Cube.move_dict`; unknown names would raise in the source and are
skipped here.) -/
def Searcher.get_cube_children (cube : Node) (search_moves : List String) : List Node :=
  search_moves.filterMap (fun key =>
    (Cube.find_move key).map (fun p =>
      Node.child (Cube.permute cube.configuration p) key cube))

/-- The layer-promotion step at the top of `Searcher.get_next`. -/
def Searcher.promote (s : SearchState) : SearchState :=
  { s with currentLayer := s.nextLayer, nextLayer := [], count := 0,
           layerNumber := s.layerNumber + 1 }

/-- `Searcher.get_next`, with explicit fuel standing for the source's
bounded internal recursion over already-visited entries; the returned state
carries the mutations. -/
def Searcher.get_next_fuel : Nat → SearchState → Option Node × SearchState
  | 0, s => (none, s)
  | fuel + 1, s =>
    let s1 := if s.count ≥ s.currentLayer.length then Searcher.promote s else s
    if s1.currentLayer.length = 0 then (none, s1)
    else
      let current := s1.currentLayer.getD s1.count (Node.root [])
      match lookupVisited s1.visited current.configuration with
      | some _ => Searcher.get_next_fuel fuel { s1 with count := s1.count + 1 }
      | none =>
        (some current,
         { s1 with
           nextLayer := s1.nextLayer ++ Searcher.get_cube_children current s1.search_moves,
           visited := s1.visited ++ [(current.configuration, current)],
           count := s1.count + 1 })

/-- An upper bound on the internal recursion depth of one `get_next` call. -/
def Searcher.fuel_for (s : SearchState) : Nat :=
  s.currentLayer.length + s.nextLayer.length + 2

/-- `Searcher.get_next`. -/
def Searcher.get_next (s : SearchState) : Option Node × SearchState :=
  Searcher.get_next_fuel (Searcher.fuel_for s) s

/-- Repeated `get_next`: the list of produced nodes, in order, and the final
state; stops early at exhaustion. -/
def Searcher.pullN : Nat → SearchState → List Node × SearchState
  | 0, s => ([], s)
  | n + 1, s =>
    match Searcher.get_next s with
    | (none, s') => ([], s')
    | (some nd, s') =>
      let rest := Searcher.pullN n s'
      (nd :: rest.1, rest.2)

/-- Applying a list of moves in order (total form; on `Cube.move_dict` keys
it agrees with `do_moves`). -/
def applySeq (c : Config) (ms : List String) : Config :=
  ms.foldl Cube.apply_move c

/-- `b` is reachable from `a` in exactly `n` moves of the move set. -/
def ReachN (moves : List String) (a b : Config) (n : Nat) : Prop :=
  ∃ ms : List String, ms.length = n ∧ (∀ m ∈ ms, m ∈ moves) ∧ applySeq a ms = b

/-- `n` is the graph distance from `a` to `b` under the move set. -/
def MinReach (moves : List String) (a b : Config) (n : Nat) : Prop :=
  ReachN moves a b n ∧ ∀ k < n, ¬ ReachN moves a b k

/-- A single move edge of the search graph. -/
def Step (moves : List String) (a b : Config) : Prop :=
  ∃ m ∈ moves, (Cube.find_move m).isSome ∧ Cube.apply_move a m = b

/-- All move sequences over `moves` of length `n`. -/
def seqsOf (moves : List String) : Nat → List (List String)
  | 0 => [[]]
  | n + 1 => (seqsOf moves n).flatMap (fun ms => moves.map (fun m => ms ++ [m]))

lemma mem_seqsOf (moves : List String) :
    ∀ (n : Nat) (ms : List String),
      ms ∈ seqsOf moves n ↔ (ms.length = n ∧ ∀ m ∈ ms, m ∈ moves) := by
  intro n
  induction n with
  | zero =>
    intro ms
    constructor
    · intro h
      simp only [seqsOf, List.mem_singleton] at h
      subst h
      simp
    · rintro ⟨h, -⟩
      simp only [seqsOf, List.mem_singleton]
      exact List.eq_nil_of_length_eq_zero h
  | succ n ih =>
    intro ms
    constructor
    · intro h
      simp only [seqsOf, List.mem_flatMap, List.mem_map] at h
      obtain ⟨ms', hms', m, hm, rfl⟩ := h
      obtain ⟨hlen, hmem⟩ := (ih ms').mp hms'
      refine ⟨by simp [hlen], ?_⟩
      intro x hx
      rcases List.mem_append.mp hx with h | h
      · exact hmem x h
      · rw [List.mem_singleton.mp h]; exact hm
    · rintro ⟨hlen, hmem⟩
      have hne : ms ≠ [] := by intro h; rw [h] at hlen; cases hlen
      obtain ⟨ms', m, rfl⟩ : ∃ ms' m, ms = ms' ++ [m] := by
        refine ⟨ms.dropLast, ms.getLast hne, ?_⟩
        rw [List.dropLast_append_getLast hne]
      simp only [seqsOf, List.mem_flatMap, List.mem_map]
      refine ⟨ms', ?_, m, hmem m (by simp), rfl⟩
      apply (ih ms').mpr
      constructor
      · have := hlen
        rw [List.length_append] at this
        simpa using this
      · intro x hx
        exact hmem x (by simp [hx])

instance (moves : List String) (a b : Config) (n : Nat) :
    Decidable (ReachN moves a b n) := by
  apply decidable_of_iff (∃ ms ∈ seqsOf moves n, applySeq a ms = b)
  constructor
  · rintro ⟨ms, hms, happ⟩
    obtain ⟨hlen, hmem⟩ := (mem_seqsOf moves n ms).mp hms
    exact ⟨ms, hlen, hmem, happ⟩
  · rintro ⟨ms, hlen, hmem, happ⟩
    exact ⟨ms, (mem_seqsOf moves n ms).mpr ⟨hlen, hmem⟩, happ⟩

instance (moves : List String) (a b : Config) (n : Nat) :
    Decidable (MinReach moves a b n) := by
  unfold MinReach; infer_instance

lemma applySeq_append (c : Config) (ms ns : List String) :
    applySeq c (ms ++ ns) = applySeq (applySeq c ms) ns := by
  unfold applySeq
  rw [List.foldl_append]

lemma reachN_zero (moves : List String) (a b : Config) :
    ReachN moves a b 0 ↔ b = a := by
  constructor
  · rintro ⟨ms, hlen, -, happ⟩
    rw [List.eq_nil_of_length_eq_zero hlen] at happ
    exact happ.symm
  · rintro rfl
    exact ⟨[], rfl, by simp, rfl⟩

lemma reachN_step (moves : List String) (a c d : Config) (n : Nat)
    (h : ReachN moves a c n) (hs : Step moves c d) : ReachN moves a d (n + 1) := by
  obtain ⟨ms, hlen, hmem, happ⟩ := h
  obtain ⟨m, hm, -, happ'⟩ := hs
  refine ⟨ms ++ [m], by simp [hlen], ?_, ?_⟩
  · intro x hx
    rcases List.mem_append.mp hx with h | h
    · exact hmem x h
    · rw [List.mem_singleton.mp h]; exact hm
  · rw [applySeq_append, happ]
    show Cube.apply_move c m = d
    exact happ'

lemma reach_least (moves : List String) (a c : Config) :
    ∀ (n : Nat), ReachN moves a c n → ∃ j ≤ n, MinReach moves a c j := by
  intro n
  induction n using Nat.strong_induction_on with
  | _ n ih =>
    intro h
    by_cases hall : ∀ k < n, ¬ ReachN moves a c k
    · exact ⟨n, le_refl n, h, hall⟩
    · push_neg at hall
      obtain ⟨k, hk, hRk⟩ := hall
      obtain ⟨j, hj, hmin⟩ := ih k hk hRk
      exact ⟨j, by omega, hmin⟩

lemma minReach_unique (moves : List String) (a c : Config) (n n' : Nat)
    (h : MinReach moves a c n) (h' : MinReach moves a c n') : n = n' := by
  rcases Nat.lt_trichotomy n n' with hlt | heq | hgt
  · exact absurd h.1 (h'.2 n hlt)
  · exact heq
  · exact absurd h'.1 (h.2 n' hgt)

/-- Distance decrement: a configuration at distance `n+1` has a predecessor
at distance `n`. -/
lemma minReach_pred (moves : List String)
    (hmoves : ∀ m ∈ moves, (Cube.find_move m).isSome)
    (a c : Config) (n : Nat) (h : MinReach moves a c (n + 1)) :
    ∃ c', MinReach moves a c' n ∧ Step moves c' c := by
  obtain ⟨⟨ms, hlen, hmem, happ⟩, hmin⟩ := h
  have hne : ms ≠ [] := by intro he; rw [he] at hlen; cases hlen
  obtain ⟨ms', m, rfl⟩ : ∃ ms' m, ms = ms' ++ [m] :=
    ⟨ms.dropLast, ms.getLast hne, (List.dropLast_append_getLast hne).symm⟩
  have hlen' : ms'.length = n := by
    rw [List.length_append] at hlen
    simpa using hlen
  have hmem' : ∀ x ∈ ms', x ∈ moves := fun x hx => hmem x (by simp [hx])
  have hm : m ∈ moves := hmem m (by simp)
  set c' := applySeq a ms' with hc'
  have hstep : Step moves c' c := by
    refine ⟨m, hm, hmoves m hm, ?_⟩
    rw [← happ, applySeq_append]
    rfl
  have hreach : ReachN moves a c' n := ⟨ms', hlen', hmem', rfl⟩
  obtain ⟨j, hj, hminj⟩ := reach_least moves a c' n hreach
  have hjn : j = n := by
    by_contra hne'
    have hjlt : j < n := by omega
    exact hmin (j + 1) (by omega) (reachN_step moves a c' c j hminj.1 hstep)
  rw [hjn] at hminj
  exact ⟨c', hminj, hstep⟩

/-- Well-formedness of a node relative to a start configuration and move
set: the chain of markers is drawn from the move set and each node's
configuration is obtained from its parent's by the marker move. -/
def Node.ok (start : Config) (moves : List String) : Node → Prop
  | .root c => c = start
  | .child c m par => Node.ok start moves par ∧ m ∈ moves ∧
      (Cube.find_move m).isSome ∧ c = Cube.apply_move par.configuration m

lemma node_ok_path (start : Config) (moves : List String) :
    ∀ nd : Node, Node.ok start moves nd →
      applySeq start nd.pathOf = nd.configuration ∧
      nd.pathOf.length = nd.depth ∧ ∀ m ∈ nd.pathOf, m ∈ moves := by
  intro nd
  induction nd with
  | root c =>
    intro h
    cases h
    exact ⟨rfl, rfl, by simp [Node.pathOf]⟩
  | child c m par ih =>
    rintro ⟨hpar, hm, -, hc⟩
    obtain ⟨hpath, hlen, hmem⟩ := ih hpar
    refine ⟨?_, ?_, ?_⟩
    · show applySeq start (par.pathOf ++ [m]) = c
      rw [applySeq_append, hpath, hc]
      rfl
    · show (par.pathOf ++ [m]).length = par.depth + 1
      simp [hlen]
    · intro x hx
      rcases List.mem_append.mp hx with h | h
      · exact hmem x h
      · rw [List.mem_singleton.mp h]; exact hm

lemma node_ok_reach (start : Config) (moves : List String) (nd : Node)
    (h : Node.ok start moves nd) :
    ReachN moves start nd.configuration nd.depth := by
  obtain ⟨hpath, hlen, hmem⟩ := node_ok_path start moves nd h
  exact ⟨nd.pathOf, hlen, hmem, hpath⟩

/-- Configurations of well-formed nodes have 24 stickers (the start does,
and every move table has 24 entries). -/
lemma node_ok_length (start : Config) (h24 : start.length = 24) (moves : List String) :
    ∀ nd : Node, Node.ok start moves nd → nd.configuration.length = 24 := by
  intro nd
  induction nd with
  | root c => intro h; cases h; exact h24
  | child c m par ih =>
    rintro ⟨hpar, -, hsome, hc⟩
    rw [hc]
    unfold Cube.apply_move
    cases hf : Cube.find_move m with
    | none => rw [hf] at hsome; cases hsome
    | some p =>
      show (Cube.permute par.configuration p).length = 24
      rw [permute_length]
      cases hfind : Cube.move_dict.find? (fun e => e.1 = m) with
      | none =>
        unfold Cube.find_move at hf
        rw [hfind] at hf
        cases hf
      | some e =>
        unfold Cube.find_move at hf
        rw [hfind] at hf
        have he : e.2 = p := by
          cases hf
          rfl
        rw [← he]
        exact all_moves_length e (List.mem_of_find?_eq_some hfind)

/-- Configurations of well-formed nodes are permutations of the start. -/
lemma node_ok_perm (start : Config) (h24 : start.length = 24) (moves : List String) :
    ∀ nd : Node, Node.ok start moves nd →
      List.Perm nd.configuration start := by
  intro nd
  induction nd with
  | root c => intro h; cases h; exact List.Perm.refl _
  | child c m par ih =>
    rintro ⟨hpar, -, hsome, hc⟩
    have hparperm := ih hpar
    have hparlen : par.configuration.length = 24 :=
      node_ok_length start h24 moves par hpar
    rw [hc]
    unfold Cube.apply_move
    cases hf : Cube.find_move m with
    | none => rw [hf] at hsome; cases hsome
    | some p =>
      show List.Perm (Cube.permute par.configuration p) start
      refine List.Perm.trans ?_ hparperm
      apply permute_perm par.configuration p hparlen
      cases hfind : Cube.move_dict.find? (fun e => e.1 = m) with
      | none =>
        unfold Cube.find_move at hf
        rw [hfind] at hf
        cases hf
      | some e =>
        unfold Cube.find_move at hf
        rw [hfind] at hf
        have he : e.2 = p := by cases hf; rfl
        rw [← he]
        exact all_moves_perm e (List.mem_of_find?_eq_some hfind)

/-- The breadth-first invariant of a searcher started at `start` with move
set `moves`, after having produced exactly the nodes of `pulled`, in order. -/
structure SearchInv (start : Config) (moves : List String)
    (s : SearchState) (pulled : List Node) : Prop where
  moves_eq : s.search_moves = moves
  visited_eq : s.visited = pulled.map (fun p => (p.configuration, p))
  nodup : (pulled.map Node.configuration).Nodup
  pulled_ok : ∀ p ∈ pulled, Node.ok start moves p
  pulled_min : ∀ p ∈ pulled, MinReach moves start p.configuration p.depth
  pulled_le : ∀ p ∈ pulled, p.depth ≤ s.layerNumber
  pulled_mono : List.Pairwise (fun a b => Node.depth a ≤ Node.depth b) pulled
  cur_ok : ∀ nd ∈ s.currentLayer, Node.ok start moves nd
  next_ok : ∀ nd ∈ s.nextLayer, Node.ok start moves nd
  cur_depth : ∀ nd ∈ s.currentLayer, nd.depth = s.layerNumber
  next_depth : ∀ nd ∈ s.nextLayer, nd.depth = s.layerNumber + 1
  count_le : s.count ≤ s.currentLayer.length
  complete_lt : ∀ c n, MinReach moves start c n → n < s.layerNumber →
      c ∈ pulled.map Node.configuration
  complete_cur : ∀ c, MinReach moves start c s.layerNumber →
      c ∈ pulled.map Node.configuration ∨
      c ∈ (s.currentLayer.drop s.count).map Node.configuration
  complete_next : ∀ c, MinReach moves start c (s.layerNumber + 1) →
      (∃ nd ∈ s.nextLayer, nd.configuration = c) ∨
      (∃ c', Step moves c' c ∧
        c' ∈ (s.currentLayer.drop s.count).map Node.configuration)
  children_in_next : ∀ p ∈ pulled, p.depth = s.layerNumber →
      ∀ m ∈ moves, ∃ nd ∈ s.nextLayer,
        nd.configuration = Cube.apply_move p.configuration m

/-- The decreasing measure of `get_next`'s internal recursion. -/
def Searcher.sMeasure (s : SearchState) : Nat :=
  (s.currentLayer.length - s.count) + s.nextLayer.length + 1

lemma lookupVisited_none_iff (pulled : List Node) (c : Config) :
    lookupVisited (pulled.map (fun p => (p.configuration, p))) c = none ↔
      c ∉ pulled.map Node.configuration := by
  unfold lookupVisited
  rw [Option.map_eq_none', List.find?_eq_none]
  constructor
  · intro h hc
    obtain ⟨p, hp, hpc⟩ := List.mem_map.mp hc
    exact absurd (by simp [hpc] : decide ((p.configuration, p).1 = c) = true)
      (h (p.configuration, p) (List.mem_map.mpr ⟨p, hp, rfl⟩))
  · intro h e he hd
    obtain ⟨p, hp, rfl⟩ := List.mem_map.mp he
    simp only [decide_eq_true_eq] at hd
    exact h (List.mem_map.mpr ⟨p, hp, hd⟩)

lemma lookupVisited_some_mem (pulled : List Node) (c : Config) (nd : Node)
    (h : lookupVisited (pulled.map (fun p => (p.configuration, p))) c = some nd) :
    nd ∈ pulled ∧ nd.configuration = c := by
  unfold lookupVisited at h
  cases hf : List.find? (fun e => e.1 = c) (pulled.map (fun p => (p.configuration, p))) with
  | none => rw [hf] at h; cases h
  | some e =>
    rw [hf] at h
    have hmem := List.mem_of_find?_eq_some hf
    have hpred := List.find?_some hf
    obtain ⟨p, hp, rfl⟩ := List.mem_map.mp hmem
    simp only [decide_eq_true_eq] at hpred
    cases h
    exact ⟨hp, hpred⟩

/-- Promotion preserves the invariant when the current layer is exhausted. -/
lemma promote_inv (start : Config) (moves : List String)
    (hmoves : ∀ m ∈ moves, (Cube.find_move m).isSome)
    (s : SearchState) (pulled : List Node)
    (hinv : SearchInv start moves s pulled)
    (hcnt : s.currentLayer.length ≤ s.count) :
    SearchInv start moves (Searcher.promote s) pulled := by
  have hdropnil : s.currentLayer.drop s.count = [] := List.drop_eq_nil_of_le hcnt
  have complete_cur' : ∀ c, MinReach moves start c s.layerNumber →
      c ∈ pulled.map Node.configuration := by
    intro c hc
    rcases hinv.complete_cur c hc with h | h
    · exact h
    · rw [hdropnil] at h; cases h
  have complete_next' : ∀ c, MinReach moves start c (s.layerNumber + 1) →
      ∃ nd ∈ s.nextLayer, nd.configuration = c := by
    intro c hc
    rcases hinv.complete_next c hc with h | ⟨c', -, hmem⟩
    · exact h
    · rw [hdropnil] at hmem; cases hmem
  refine
    { moves_eq := hinv.moves_eq
      visited_eq := hinv.visited_eq
      nodup := hinv.nodup
      pulled_ok := hinv.pulled_ok
      pulled_min := hinv.pulled_min
      pulled_le := fun p hp => Nat.le_succ_of_le (hinv.pulled_le p hp)
      pulled_mono := hinv.pulled_mono
      cur_ok := hinv.next_ok
      next_ok := by intro nd h; cases h
      cur_depth := hinv.next_depth
      next_depth := by intro nd h; cases h
      count_le := Nat.zero_le _
      complete_lt := ?_
      complete_cur := ?_
      complete_next := ?_
      children_in_next := ?_ }
  · -- complete_lt at layerNumber + 1
    intro c n hc hn
    rcases Nat.lt_succ_iff_lt_or_eq.mp hn with h | h
    · exact hinv.complete_lt c n hc h
    · exact complete_cur' c (h ▸ hc)
  · -- complete_cur at layerNumber + 1
    intro c hc
    rcases complete_next' c hc with ⟨nd, hnd, hcfg⟩
    right
    show c ∈ (s.nextLayer.drop 0).map Node.configuration
    rw [List.drop_zero]
    exact List.mem_map.mpr ⟨nd, hnd, hcfg⟩
  · -- complete_next at layerNumber + 2
    intro c hc
    obtain ⟨c', hc', hstep⟩ := minReach_pred moves hmoves start c _ hc
    rcases complete_next' c' hc' with ⟨nd, hnd, hcfg⟩
    right
    refine ⟨c', hstep, ?_⟩
    show c' ∈ (s.nextLayer.drop 0).map Node.configuration
    rw [List.drop_zero]
    exact List.mem_map.mpr ⟨nd, hnd, hcfg⟩
  · -- children_in_next at layerNumber + 1: vacuous
    intro p hp hdep
    exfalso
    have h1 := hinv.pulled_le p hp
    have h2 : (Searcher.promote s).layerNumber = s.layerNumber + 1 := rfl
    rw [h2] at hdep
    omega

lemma getD_mem (l : List Node) (n : Nat) (h : n < l.length) :
    l.getD n (Node.root []) ∈ l := by
  rw [List.getD_eq_getElem?_getD, List.getElem?_eq_getElem h]
  exact List.getElem_mem h

lemma drop_split (l : List Node) (n : Nat) (h : n < l.length) :
    l.drop n = l.getD n (Node.root []) :: l.drop (n + 1) := by
  rw [List.getD_eq_getElem?_getD, List.getElem?_eq_getElem h]
  exact List.drop_eq_getElem_cons h

/-- A pulled node holding a configuration that sits in the current layer at
the current layer's depth must itself have that depth. -/
lemma pulled_depth_here (start : Config) (moves : List String)
    (s1 : SearchState) (pulled : List Node)
    (hinv : SearchInv start moves s1 pulled)
    (nd0 : Node) (hnd0 : nd0 ∈ pulled)
    (cur : Node) (hcur : cur ∈ s1.currentLayer)
    (hcfg : nd0.configuration = cur.configuration)
    (c : Config) (hstepc : Step moves cur.configuration c)
    (hc : MinReach moves start c (s1.layerNumber + 1)) :
    nd0.depth = s1.layerNumber := by
  have hmin := hinv.pulled_min nd0 hnd0
  rw [hcfg] at hmin
  have hreachL : ReachN moves start cur.configuration s1.layerNumber := by
    have := node_ok_reach start moves cur (hinv.cur_ok cur hcur)
    rw [hinv.cur_depth cur hcur] at this
    exact this
  have hle : nd0.depth ≤ s1.layerNumber := by
    by_contra hgt
    exact (hmin.2 s1.layerNumber (by omega)) hreachL
  have hge : s1.layerNumber ≤ nd0.depth := by
    by_contra hlt
    exact (hc.2 (nd0.depth + 1) (by omega))
      (reachN_step moves start cur.configuration c nd0.depth hmin.1 hstepc)
  omega

/-- Skipping an already-visited entry preserves the invariant. -/
lemma skip_inv (start : Config) (moves : List String)
    (s1 : SearchState) (pulled : List Node) (nd0 : Node)
    (hinv : SearchInv start moves s1 pulled)
    (hlt : s1.count < s1.currentLayer.length)
    (hvis : lookupVisited s1.visited
      ((s1.currentLayer.getD s1.count (Node.root [])).configuration) = some nd0) :
    SearchInv start moves { s1 with count := s1.count + 1 } pulled := by
  obtain ⟨cur, hcurdef⟩ : ∃ cur, s1.currentLayer.getD s1.count (Node.root []) = cur :=
    ⟨_, rfl⟩
  rw [hcurdef] at hvis
  have hcurmem : cur ∈ s1.currentLayer := hcurdef ▸ getD_mem _ _ hlt
  have hsplit : s1.currentLayer.drop s1.count = cur :: s1.currentLayer.drop (s1.count + 1) :=
    hcurdef ▸ drop_split s1.currentLayer s1.count hlt
  rw [hinv.visited_eq] at hvis
  obtain ⟨hnd0, hnd0cfg⟩ := lookupVisited_some_mem pulled cur.configuration nd0 hvis
  refine
    { moves_eq := hinv.moves_eq
      visited_eq := hinv.visited_eq
      nodup := hinv.nodup
      pulled_ok := hinv.pulled_ok
      pulled_min := hinv.pulled_min
      pulled_le := hinv.pulled_le
      pulled_mono := hinv.pulled_mono
      cur_ok := hinv.cur_ok
      next_ok := hinv.next_ok
      cur_depth := hinv.cur_depth
      next_depth := hinv.next_depth
      count_le := hlt
      complete_lt := hinv.complete_lt
      complete_cur := ?_
      complete_next := ?_
      children_in_next := hinv.children_in_next }
  · intro c hc
    rcases hinv.complete_cur c hc with h | h
    · exact Or.inl h
    · rw [hsplit] at h
      rcases List.mem_map.mp h with ⟨nd, hnd, hcfg⟩
      rcases List.mem_cons.mp hnd with heq | hnd'
      · refine Or.inl (List.mem_map.mpr ⟨nd0, hnd0, ?_⟩)
        rw [hnd0cfg, ← heq, hcfg]
      · exact Or.inr (List.mem_map.mpr ⟨nd, hnd', hcfg⟩)
  · intro c hc
    rcases hinv.complete_next c hc with h | ⟨c', hstep, hmem⟩
    · exact Or.inl h
    · rw [hsplit] at hmem
      rcases List.mem_map.mp hmem with ⟨nd, hnd, hcfg⟩
      rcases List.mem_cons.mp hnd with heq | hnd'
      · -- predecessor is the skipped configuration: its children are already
        -- in the next layer via the pulled twin of that configuration
        left
        obtain ⟨m, hm, hsome, happ⟩ := hstep
        have hcurc : cur.configuration = c' := by rw [← heq, hcfg]
        have hstepc : Step moves cur.configuration c :=
          ⟨m, hm, hsome, by rw [hcurc]; exact happ⟩
        have hdep0 : nd0.depth = s1.layerNumber :=
          pulled_depth_here start moves s1 pulled hinv nd0 hnd0 cur hcurmem hnd0cfg
            c hstepc hc
        obtain ⟨nd', hnd', hcfg'⟩ := hinv.children_in_next nd0 hnd0 hdep0 m hm
        refine ⟨nd', hnd', ?_⟩
        rw [hcfg', hnd0cfg, hcurc]
        exact happ
      · exact Or.inr ⟨c', hstep, List.mem_map.mpr ⟨nd, hnd', hcfg⟩⟩

lemma children_mem_unpack (cur : Node) (ms : List String) (nd : Node)
    (h : nd ∈ Searcher.get_cube_children cur ms) :
    ∃ m ∈ ms, ∃ p, Cube.find_move m = some p ∧
      nd = Node.child (Cube.permute cur.configuration p) m cur := by
  unfold Searcher.get_cube_children at h
  obtain ⟨m, hm, hf⟩ := List.mem_filterMap.mp h
  cases hfm : Cube.find_move m with
  | none => rw [hfm] at hf; cases hf
  | some p =>
    rw [hfm] at hf
    simp only [Option.map_some'] at hf
    cases hf
    exact ⟨m, hm, p, hfm, rfl⟩

lemma children_exists (cur : Node) (ms : List String) (m : String) (hm : m ∈ ms)
    (hsome : (Cube.find_move m).isSome) :
    ∃ nd ∈ Searcher.get_cube_children cur ms,
      nd.configuration = Cube.apply_move cur.configuration m := by
  cases hfm : Cube.find_move m with
  | none => rw [hfm] at hsome; cases hsome
  | some p =>
    refine ⟨Node.child (Cube.permute cur.configuration p) m cur, ?_, ?_⟩
    · unfold Searcher.get_cube_children
      apply List.mem_filterMap.mpr
      exact ⟨m, hm, by rw [hfm]; rfl⟩
    · show Cube.permute cur.configuration p = Cube.apply_move cur.configuration m
      unfold Cube.apply_move
      rw [hfm]

/-- Producing a fresh node preserves the invariant, with the node appended
to the pulled list; the node's depth is the current layer number. -/
lemma pull_inv (start : Config) (moves : List String)
    (hmoves : ∀ m ∈ moves, (Cube.find_move m).isSome)
    (s1 : SearchState) (pulled : List Node) (cur : Node)
    (hinv : SearchInv start moves s1 pulled)
    (hlt : s1.count < s1.currentLayer.length)
    (hcurdef : s1.currentLayer.getD s1.count (Node.root []) = cur)
    (hvis : lookupVisited s1.visited cur.configuration = none) :
    SearchInv start moves
      { s1 with
        nextLayer := s1.nextLayer ++ Searcher.get_cube_children cur s1.search_moves,
        visited := s1.visited ++ [(cur.configuration, cur)],
        count := s1.count + 1 }
      (pulled ++ [cur]) ∧ cur.depth = s1.layerNumber := by
  have hcurmem : cur ∈ s1.currentLayer := hcurdef ▸ getD_mem _ _ hlt
  have hsplit : s1.currentLayer.drop s1.count = cur :: s1.currentLayer.drop (s1.count + 1) :=
    hcurdef ▸ drop_split s1.currentLayer s1.count hlt
  rw [hinv.visited_eq] at hvis
  have hfresh : cur.configuration ∉ pulled.map Node.configuration :=
    (lookupVisited_none_iff pulled cur.configuration).mp hvis
  have hcurok : Node.ok start moves cur := hinv.cur_ok cur hcurmem
  have hdep : cur.depth = s1.layerNumber := hinv.cur_depth cur hcurmem
  have hcurmin : MinReach moves start cur.configuration cur.depth := by
    have hreach : ReachN moves start cur.configuration cur.depth :=
      node_ok_reach start moves cur hcurok
    obtain ⟨j, hj, hminj⟩ := reach_least moves start cur.configuration cur.depth hreach
    have : j = cur.depth := by
      by_contra hne
      have hjlt : j < s1.layerNumber := by omega
      exact hfresh (hinv.complete_lt cur.configuration j hminj hjlt)
    rw [← this]
    exact hminj
  have hchild_ok : ∀ nd ∈ Searcher.get_cube_children cur s1.search_moves,
      Node.ok start moves nd ∧ nd.depth = s1.layerNumber + 1 := by
    intro nd hnd
    obtain ⟨m, hm, p, hfm, rfl⟩ := children_mem_unpack cur s1.search_moves nd hnd
    rw [hinv.moves_eq] at hm
    constructor
    · refine ⟨hcurok, hm, by rw [hfm]; rfl, ?_⟩
      show Cube.permute cur.configuration p = Cube.apply_move cur.configuration m
      unfold Cube.apply_move
      rw [hfm]
    · show cur.depth + 1 = s1.layerNumber + 1
      rw [hdep]
  constructor
  case right => exact hdep
  refine
    { moves_eq := hinv.moves_eq
      visited_eq := by
        show s1.visited ++ [(cur.configuration, cur)] = _
        rw [hinv.visited_eq, List.map_append]
        rfl
      nodup := by
        rw [List.map_append, List.nodup_append]
        refine ⟨hinv.nodup, by simp, ?_⟩
        intro c hc hc'
        simp only [List.map_cons, List.map_nil, List.mem_singleton] at hc'
        rw [hc'] at hc
        exact hfresh hc
      pulled_ok := ?_
      pulled_min := ?_
      pulled_le := ?_
      pulled_mono := ?_
      cur_ok := hinv.cur_ok
      next_ok := ?_
      cur_depth := hinv.cur_depth
      next_depth := ?_
      count_le := hlt
      complete_lt := ?_
      complete_cur := ?_
      complete_next := ?_
      children_in_next := ?_ }
  · intro p hp
    rcases List.mem_append.mp hp with h | h
    · exact hinv.pulled_ok p h
    · rw [List.mem_singleton.mp h]; exact hcurok
  · intro p hp
    rcases List.mem_append.mp hp with h | h
    · exact hinv.pulled_min p h
    · rw [List.mem_singleton.mp h]; exact hcurmin
  · intro p hp
    rcases List.mem_append.mp hp with h | h
    · exact hinv.pulled_le p h
    · rw [List.mem_singleton.mp h]
      show cur.depth ≤ s1.layerNumber
      omega
  · rw [List.pairwise_append]
    refine ⟨hinv.pulled_mono, by simp, ?_⟩
    intro a ha b hb
    rw [List.mem_singleton.mp hb]
    rw [hdep]
    exact hinv.pulled_le a ha
  · -- next_ok
    intro nd hnd
    rcases List.mem_append.mp hnd with h | h
    · exact hinv.next_ok nd h
    · exact (hchild_ok nd h).1
  · -- next_depth
    intro nd hnd
    rcases List.mem_append.mp hnd with h | h
    · exact hinv.next_depth nd h
    · exact (hchild_ok nd h).2
  · -- complete_lt
    intro c n hc hn
    rw [List.map_append]
    exact List.mem_append.mpr (Or.inl (hinv.complete_lt c n hc hn))
  · -- complete_cur
    intro c hc
    rcases hinv.complete_cur c hc with h | h
    · exact Or.inl (by rw [List.map_append]; exact List.mem_append.mpr (Or.inl h))
    · rw [hsplit] at h
      rcases List.mem_map.mp h with ⟨nd, hnd, hcfg⟩
      rcases List.mem_cons.mp hnd with heq | hnd'
      · refine Or.inl ?_
        rw [List.map_append]
        refine List.mem_append.mpr (Or.inr ?_)
        simp only [List.map_cons, List.map_nil, List.mem_singleton]
        rw [← hcfg, heq]
      · exact Or.inr (List.mem_map.mpr ⟨nd, hnd', hcfg⟩)
  · -- complete_next
    intro c hc
    rcases hinv.complete_next c hc with ⟨nd, hnd, hcfg⟩ | ⟨c', hstep, hmem⟩
    · exact Or.inl ⟨nd, List.mem_append.mpr (Or.inl hnd), hcfg⟩
    · rw [hsplit] at hmem
      rcases List.mem_map.mp hmem with ⟨nd, hnd, hcfg⟩
      rcases List.mem_cons.mp hnd with heq | hnd'
      · -- the predecessor is the node being pulled: its children are added now
        left
        obtain ⟨m, hm, hsome, happ⟩ := hstep
        obtain ⟨nd', hnd', hcfg'⟩ :=
          children_exists cur s1.search_moves m (by rw [hinv.moves_eq]; exact hm) hsome
        refine ⟨nd', List.mem_append.mpr (Or.inr hnd'), ?_⟩
        rw [hcfg']
        have : cur.configuration = c' := by rw [← heq, hcfg]
        rw [this]
        exact happ
      · exact Or.inr ⟨c', hstep, List.mem_map.mpr ⟨nd, hnd', hcfg⟩⟩
  · -- children_in_next
    intro p hp hpd m hm
    rcases List.mem_append.mp hp with h | h
    · obtain ⟨nd', hnd', hcfg'⟩ := hinv.children_in_next p h hpd m hm
      exact ⟨nd', List.mem_append.mpr (Or.inl hnd'), hcfg'⟩
    · rw [List.mem_singleton.mp h]
      obtain ⟨nd', hnd', hcfg'⟩ :=
        children_exists cur s1.search_moves m (by rw [hinv.moves_eq]; exact hm)
          (hmoves m hm)
      exact ⟨nd', List.mem_append.mpr (Or.inr hnd'), hcfg'⟩

lemma get_next_fuel_succ_eq (fuel : Nat) (s s1 : SearchState)
    (hsel : s1 = if s.count ≥ s.currentLayer.length then Searcher.promote s else s) :
    Searcher.get_next_fuel (fuel + 1) s =
      if s1.currentLayer.length = 0 then (none, s1)
      else
        match lookupVisited s1.visited
          (s1.currentLayer.getD s1.count (Node.root [])).configuration with
        | some _ => Searcher.get_next_fuel fuel { s1 with count := s1.count + 1 }
        | none =>
          (some (s1.currentLayer.getD s1.count (Node.root [])),
           { s1 with
             nextLayer := s1.nextLayer ++ Searcher.get_cube_children
               (s1.currentLayer.getD s1.count (Node.root [])) s1.search_moves,
             visited := s1.visited ++
               [((s1.currentLayer.getD s1.count (Node.root [])).configuration,
                 s1.currentLayer.getD s1.count (Node.root []))],
             count := s1.count + 1 }) := by
  subst hsel
  rfl

/-- One call to `get_next` (with sufficient fuel) from an invariant state:
either it produces a fresh node and extends the pulled list by exactly that
node, or it signals exhaustion with both layers empty. -/
lemma get_next_spec (start : Config) (moves : List String)
    (hmoves : ∀ m ∈ moves, (Cube.find_move m).isSome) :
    ∀ (fuel : Nat) (s : SearchState) (pulled : List Node),
      SearchInv start moves s pulled → Searcher.sMeasure s ≤ fuel →
      (∃ nd s', Searcher.get_next_fuel fuel s = (some nd, s') ∧
         SearchInv start moves s' (pulled ++ [nd]) ∧
         nd.depth = s'.layerNumber ∧ s.layerNumber ≤ s'.layerNumber) ∨
      (∃ s', Searcher.get_next_fuel fuel s = (none, s') ∧
         SearchInv start moves s' pulled ∧ s'.currentLayer = [] ∧ s'.nextLayer = [] ∧
         s.layerNumber ≤ s'.layerNumber) := by
  intro fuel
  induction fuel with
  | zero =>
    intro s pulled _ hm
    exfalso
    unfold Searcher.sMeasure at hm
    omega
  | succ fuel ih =>
    intro s pulled hinv hm
    by_cases hp : s.count ≥ s.currentLayer.length
    · -- promotion happens
      have heq := get_next_fuel_succ_eq fuel s (Searcher.promote s) (by rw [if_pos hp])
      have hinv1 := promote_inv start moves hmoves s pulled hinv hp
      by_cases hz : (Searcher.promote s).currentLayer.length = 0
      · rw [if_pos hz] at heq
        right
        exact ⟨Searcher.promote s, heq, hinv1, List.eq_nil_of_length_eq_zero hz, rfl,
          Nat.le_succ s.layerNumber⟩
      · rw [if_neg hz] at heq
        have hlt1 : (Searcher.promote s).count < (Searcher.promote s).currentLayer.length := by
          show 0 < (Searcher.promote s).currentLayer.length
          omega
        cases hv : lookupVisited (Searcher.promote s).visited
            ((Searcher.promote s).currentLayer.getD (Searcher.promote s).count
              (Node.root [])).configuration with
        | some nd0 =>
          rw [hv] at heq
          have hinv2 := skip_inv start moves (Searcher.promote s) pulled nd0 hinv1 hlt1 hv
          have hm2 : Searcher.sMeasure
              { Searcher.promote s with count := (Searcher.promote s).count + 1 } ≤ fuel := by
            have hs1 : Searcher.sMeasure
                { Searcher.promote s with count := (Searcher.promote s).count + 1 } =
                (s.nextLayer.length - 1) + 0 + 1 := rfl
            have hs2 : Searcher.sMeasure s =
                (s.currentLayer.length - s.count) + s.nextLayer.length + 1 := rfl
            have hlen : (Searcher.promote s).currentLayer.length = s.nextLayer.length := rfl
            rw [hs2] at hm
            rw [hlen] at hlt1
            have hlt1' : 0 < s.nextLayer.length := hlt1
            rw [hs1]
            omega
          rcases ih _ pulled hinv2 hm2 with ⟨nd, s', hr, hi, hd, hl⟩ | ⟨s', hr, hi, hc, hn, hl⟩
          · refine Or.inl ⟨nd, s', by rw [heq]; exact hr, hi, hd, ?_⟩
            exact le_trans (Nat.le_succ s.layerNumber) hl
          · refine Or.inr ⟨s', by rw [heq]; exact hr, hi, hc, hn, ?_⟩
            exact le_trans (Nat.le_succ s.layerNumber) hl
        | none =>
          rw [hv] at heq
          obtain ⟨hinv', hdep⟩ := pull_inv start moves hmoves (Searcher.promote s) pulled
            ((Searcher.promote s).currentLayer.getD (Searcher.promote s).count (Node.root []))
            hinv1 hlt1 rfl hv
          refine Or.inl ⟨_, _, heq, hinv', ?_, ?_⟩
          · exact hdep
          · exact Nat.le_succ s.layerNumber
    · -- no promotion
      have heq := get_next_fuel_succ_eq fuel s s (by rw [if_neg hp])
      have hlt1 : s.count < s.currentLayer.length := by omega
      have hz : ¬ s.currentLayer.length = 0 := by omega
      rw [if_neg hz] at heq
      cases hv : lookupVisited s.visited
          (s.currentLayer.getD s.count (Node.root [])).configuration with
      | some nd0 =>
        rw [hv] at heq
        have hinv2 := skip_inv start moves s pulled nd0 hinv hlt1 hv
        have hm2 : Searcher.sMeasure { s with count := s.count + 1 } ≤ fuel := by
          have hs1 : Searcher.sMeasure { s with count := s.count + 1 } =
              (s.currentLayer.length - (s.count + 1)) + s.nextLayer.length + 1 := rfl
          have hs2 : Searcher.sMeasure s =
              (s.currentLayer.length - s.count) + s.nextLayer.length + 1 := rfl
          rw [hs2] at hm
          rw [hs1]
          omega
        rcases ih _ pulled hinv2 hm2 with ⟨nd, s', hr, hi, hd, hl⟩ | ⟨s', hr, hi, hc, hn, hl⟩
        · exact Or.inl ⟨nd, s', by rw [heq]; exact hr, hi, hd, hl⟩
        · exact Or.inr ⟨s', by rw [heq]; exact hr, hi, hc, hn, hl⟩
      | none =>
        rw [hv] at heq
        obtain ⟨hinv', hdep⟩ := pull_inv start moves hmoves s pulled
          (s.currentLayer.getD s.count (Node.root [])) hinv hlt1 rfl hv
        exact Or.inl ⟨_, _, heq, hinv', hdep, le_refl _⟩

lemma sMeasure_le_fuel_for (s : SearchState) :
    Searcher.sMeasure s ≤ Searcher.fuel_for s := by
  unfold Searcher.sMeasure Searcher.fuel_for
  omega

/-- `get_next` on an invariant state. -/
lemma get_next_spec' (start : Config) (moves : List String)
    (hmoves : ∀ m ∈ moves, (Cube.find_move m).isSome)
    (s : SearchState) (pulled : List Node) (hinv : SearchInv start moves s pulled) :
    (∃ nd s', Searcher.get_next s = (some nd, s') ∧
       SearchInv start moves s' (pulled ++ [nd]) ∧
       nd.depth = s'.layerNumber ∧ s.layerNumber ≤ s'.layerNumber) ∨
    (∃ s', Searcher.get_next s = (none, s') ∧
       SearchInv start moves s' pulled ∧ s'.currentLayer = [] ∧ s'.nextLayer = [] ∧
       s.layerNumber ≤ s'.layerNumber) :=
  get_next_spec start moves hmoves (Searcher.fuel_for s) s pulled hinv
    (sMeasure_le_fuel_for s)

/-- The initial searcher state satisfies the invariant with nothing pulled. -/
lemma init_inv (start : Config) (moves : List String)
    (hmoves : ∀ m ∈ moves, (Cube.find_move m).isSome) :
    SearchInv start moves (Searcher.init start moves) [] := by
  refine
    { moves_eq := rfl
      visited_eq := rfl
      nodup := List.nodup_nil
      pulled_ok := by intro p hp; cases hp
      pulled_min := by intro p hp; cases hp
      pulled_le := by intro p hp; cases hp
      pulled_mono := List.Pairwise.nil
      cur_ok := ?_
      next_ok := by intro nd h; cases h
      cur_depth := ?_
      next_depth := by intro nd h; cases h
      count_le := by simp [Searcher.init]
      complete_lt := by intro c n _ h; cases h
      complete_cur := ?_
      complete_next := ?_
      children_in_next := by intro p hp; cases hp }
  · intro nd h
    rcases List.mem_singleton.mp h with rfl
    rfl
  · intro nd h
    rcases List.mem_singleton.mp h with rfl
    rfl
  · intro c hc
    right
    have : c = start := (reachN_zero moves start c).mp hc.1
    subst this
    show c ∈ (([Node.root c] : List Node).drop 0).map Node.configuration
    simp [Node.configuration]
  · intro c hc
    obtain ⟨c', hc', hstep⟩ := minReach_pred moves hmoves start c 0 hc
    right
    have : c' = start := (reachN_zero moves start c').mp hc'.1
    subst this
    refine ⟨c', hstep, ?_⟩
    show c' ∈ (([Node.root c'] : List Node).drop 0).map Node.configuration
    simp [Node.configuration]

lemma pullN_spec (start : Config) (moves : List String)
    (hmoves : ∀ m ∈ moves, (Cube.find_move m).isSome) :
    ∀ (n : Nat) (s : SearchState) (pulled : List Node),
      SearchInv start moves s pulled →
      SearchInv start moves (Searcher.pullN n s).2 (pulled ++ (Searcher.pullN n s).1) := by
  intro n
  induction n with
  | zero =>
    intro s pulled hinv
    simpa [Searcher.pullN] using hinv
  | succ n ih =>
    intro s pulled hinv
    rcases get_next_spec' start moves hmoves s pulled hinv with
      ⟨nd, s', hr, hi, -, -⟩ | ⟨s', hr, hi, -, -, -⟩
    · have := ih s' (pulled ++ [nd]) hi
      simp only [Searcher.pullN, hr]
      simpa [List.append_assoc] using this
    · simp only [Searcher.pullN, hr]
      simpa using hi

/-- Claim C6: along any run of `get_next` from a fresh searcher, the produced
configurations are pairwise distinct; the visited map holds exactly one
binding per produced configuration, namely the (first and only) node that
produced it, in production order, and is never overwritten; and each
produced node's parent chain is a shortest path: applying its markers to the
start yields its configuration, and the chain's length is the minimal number
of moves from the start under the searcher's move set. -/
theorem claim_C6 (start : Config) (moves : List String)
    (hmoves : ∀ m ∈ moves, (Cube.find_move m).isSome) (n : Nat) :
    ((Searcher.pullN n (Searcher.init start moves)).1.map Node.configuration).Nodup ∧
    (Searcher.pullN n (Searcher.init start moves)).2.visited =
      (Searcher.pullN n (Searcher.init start moves)).1.map (fun p => (p.configuration, p)) ∧
    ∀ p ∈ (Searcher.pullN n (Searcher.init start moves)).1,
      applySeq start p.pathOf = p.configuration ∧
      MinReach moves start p.configuration p.pathOf.length := by
  have hinv := pullN_spec start moves hmoves n (Searcher.init start moves) []
    (init_inv start moves hmoves)
  rw [List.nil_append] at hinv
  refine ⟨hinv.nodup, hinv.visited_eq, ?_⟩
  intro p hp
  obtain ⟨hpath, hlen, -⟩ := node_ok_path start moves p (hinv.pulled_ok p hp)
  refine ⟨hpath, ?_⟩
  rw [hlen]
  exact hinv.pulled_min p hp

/-- Witness for C6 at a concrete input: two pulls from the solved cube under
the restricted move set. -/
theorem claim_C6_witness :
    (((Searcher.pullN 2 (Searcher.init Cube.solved_tuple CubeBuilder.solve_moves)).1.map
      Node.configuration).Nodup ∧
    (Searcher.pullN 2 (Searcher.init Cube.solved_tuple CubeBuilder.solve_moves)).2.visited =
      (Searcher.pullN 2 (Searcher.init Cube.solved_tuple CubeBuilder.solve_moves)).1.map
        (fun p => (p.configuration, p)) ∧
    ∀ p ∈ (Searcher.pullN 2 (Searcher.init Cube.solved_tuple CubeBuilder.solve_moves)).1,
      applySeq Cube.solved_tuple p.pathOf = p.configuration ∧
      MinReach CubeBuilder.solve_moves Cube.solved_tuple p.configuration p.pathOf.length) ∧
    (Searcher.pullN 2 (Searcher.init Cube.solved_tuple CubeBuilder.solve_moves)).1.length = 2 :=
  ⟨claim_C6 Cube.solved_tuple CubeBuilder.solve_moves (by decide) 2, by decide⟩

/-- The outcome of `Solver.__find_matching_middle`: a meeting pair, `None`
(an explorer exhausted), the depth-bound `ValueError`, or the out-of-fuel
marker of the embedding (proved unreachable). -/
inductive MiddleResult where
  | found (front back : Node)
  | noMeeting
  | boundExceeded
  | fuelOut
deriving DecidableEq

/-- The `while` loop of `Solver.__find_matching_middle`: check the freshly
pulled pair for a meeting, pull the next pair, stop when the combined layer
count exceeds `Cube.maximum_moves`. -/
def Solver.loop : Nat → SearchState → SearchState → Option Node → Option Node → MiddleResult
  | 0, _, _, _, _ => .fuelOut
  | fuel + 1, fs, bs, cf, cb =>
    match cf, cb with
    | some f, some b =>
      match lookupVisited bs.visited f.configuration with
      | some bnode => .found f bnode
      | none =>
        match lookupVisited fs.visited b.configuration with
        | some fnode => .found fnode b
        | none =>
          if (Searcher.get_next fs).2.layerNumber + (Searcher.get_next bs).2.layerNumber >
              Cube.maximum_moves then .boundExceeded
          else Solver.loop fuel (Searcher.get_next fs).2 (Searcher.get_next bs).2
            (Searcher.get_next fs).1 (Searcher.get_next bs).1
    | _, _ => .noMeeting

/-- `Solver.__find_matching_middle`: two searchers, initial pulls, then the
loop.  The fuel is one more than the largest possible number of iterations
(each iteration feeds one fresh configuration, a permutation of the
24-element origin, into the front visited map). -/
def Solver.find_matching_middle (origin target : Config)
    (search_moves : List String) : MiddleResult :=
  Solver.loop (Nat.factorial 24 + 2)
    (Searcher.get_next (Searcher.init origin search_moves)).2
    (Searcher.get_next (Searcher.init target search_moves)).2
    (Searcher.get_next (Searcher.init origin search_moves)).1
    (Searcher.get_next (Searcher.init target search_moves)).1

/-- `Solver.__get_parent_chain`: the node, its parent, ... down to the root. -/
def Solver.get_parent_chain : Node → List Node
  | .root c => [.root c]
  | .child c m p => .child c m p :: Solver.get_parent_chain p

/-- `Solver.get_solution`: canonicalize the origin, run the two-way search,
and read the move sequence off the two parent chains (the back chain's
markers inverted). -/
def Solver.get_solution (origin target : Config)
    (moves : List String) : Except String (List String) := do
  let optimized_cube ← CubeBuilder.get_cube_from_colors origin
  match Solver.find_matching_middle optimized_cube target moves with
  | .found front back =>
    pure ((((Solver.get_parent_chain front).reverse.filter
            (fun link => link.marker ≠ "")).map Node.marker) ++
          (((Solver.get_parent_chain back).filter
            (fun link => link.marker ≠ "")).map (fun link => Cube.invert_move link.marker)))
  | .noMeeting => .error "CubeError: Cube is unsolvable."
  | .boundExceeded => .error "Cube Error: cube is impossible to solve."
  | .fuelOut => .error "fuel exhausted"

/-- One lock-step iteration on the solver's state quadruple (front searcher,
back searcher, front head, back head). -/
def Solver.advance (st : SearchState × SearchState × Option Node × Option Node) :
    SearchState × SearchState × Option Node × Option Node :=
  ((Searcher.get_next st.1).2, (Searcher.get_next st.2.1).2,
   (Searcher.get_next st.1).1, (Searcher.get_next st.2.1).1)

/-- The state quadruple after `n` lock-step iterations. -/
def Solver.trace (st : SearchState × SearchState × Option Node × Option Node) :
    Nat → SearchState × SearchState × Option Node × Option Node
  | 0 => st
  | n + 1 => Solver.advance (Solver.trace st n)

/-- At iteration `n`, one of the two heads is missing (an explorer was
exhausted). -/
def Solver.exhaustAt (st : SearchState × SearchState × Option Node × Option Node)
    (n : Nat) : Prop :=
  (Solver.trace st n).2.2.1 = none ∨ (Solver.trace st n).2.2.2 = none

instance (st : SearchState × SearchState × Option Node × Option Node) (n : Nat) :
    Decidable (Solver.exhaustAt st n) := by
  unfold Solver.exhaustAt; infer_instance

/-- At iteration `n`, the freshly pulled pair reveals a meeting: one head's
configuration is in the other searcher's visited map. -/
def Solver.meetAt (st : SearchState × SearchState × Option Node × Option Node)
    (n : Nat) : Prop :=
  ∃ f b, (Solver.trace st n).2.2.1 = some f ∧ (Solver.trace st n).2.2.2 = some b ∧
    (lookupVisited (Solver.trace st n).2.1.visited f.configuration ≠ none ∨
     lookupVisited (Solver.trace st n).1.visited b.configuration ≠ none)

/-- Between iterations `n` and `n+1`, the combined layer counters exceed the
safety bound right after the pulls. -/
def Solver.boundAt (st : SearchState × SearchState × Option Node × Option Node)
    (n : Nat) : Prop :=
  (Solver.trace st (n + 1)).1.layerNumber + (Solver.trace st (n + 1)).2.1.layerNumber >
    Cube.maximum_moves

/-- The loop completes at least `n` full iterations: no stop fires earlier. -/
def Solver.runsTo (st : SearchState × SearchState × Option Node × Option Node)
    (n : Nat) : Prop :=
  ∀ k < n, ¬ Solver.exhaustAt st k ∧ ¬ Solver.meetAt st k ∧ ¬ Solver.boundAt st k

lemma trace_shift (st : SearchState × SearchState × Option Node × Option Node) :
    ∀ n, Solver.trace st (n + 1) = Solver.trace (Solver.advance st) n := by
  intro n
  induction n with
  | zero => rfl
  | succ n ih =>
    show Solver.advance (Solver.trace st (n + 1)) = Solver.advance (Solver.trace (Solver.advance st) n)
    rw [ih]

lemma exhaustAt_shift (st) (n : Nat) :
    Solver.exhaustAt st (n + 1) ↔ Solver.exhaustAt (Solver.advance st) n := by
  unfold Solver.exhaustAt
  rw [trace_shift]

lemma meetAt_shift (st) (n : Nat) :
    Solver.meetAt st (n + 1) ↔ Solver.meetAt (Solver.advance st) n := by
  unfold Solver.meetAt
  rw [trace_shift]

lemma boundAt_shift (st) (n : Nat) :
    Solver.boundAt st (n + 1) ↔ Solver.boundAt (Solver.advance st) n := by
  unfold Solver.boundAt
  rw [trace_shift, trace_shift]

lemma runsTo_shift (st) (n : Nat)
    (h0 : ¬ Solver.exhaustAt st 0 ∧ ¬ Solver.meetAt st 0 ∧ ¬ Solver.boundAt st 0)
    (h : Solver.runsTo (Solver.advance st) n) : Solver.runsTo st (n + 1) := by
  intro k hk
  cases k with
  | zero => exact h0
  | succ k =>
    have hk' : k < n := by omega
    obtain ⟨h1, h2, h3⟩ := h k hk'
    exact ⟨(exhaustAt_shift st k).not.mpr h1, (meetAt_shift st k).not.mpr h2,
           (boundAt_shift st k).not.mpr h3⟩

/-- The number of nodes a searcher can ever produce is bounded by the number
of permutations of its 24-sticker start configuration. -/
lemma pulled_length_le (start : Config) (h24 : start.length = 24) (moves : List String)
    (s : SearchState) (pulled : List Node) (hinv : SearchInv start moves s pulled) :
    pulled.length ≤ Nat.factorial 24 := by
  have hsub : (pulled.map Node.configuration) ⊆ start.permutations := by
    intro c hc
    obtain ⟨p, hp, rfl⟩ := List.mem_map.mp hc
    exact List.mem_permutations.mpr (node_ok_perm start h24 moves p (hinv.pulled_ok p hp))
  have hlen := (hinv.nodup.subperm hsub).length_le
  rw [List.length_map] at hlen
  rw [List.length_permutations, h24] at hlen
  exact hlen

/-- Classification of the solver loop's outcome by the first stop of the
lock-step trace: exhaustion gives `noMeeting`, a tripped depth bound gives
`boundExceeded`, a meeting gives `found`, and the fuel never runs out. -/
lemma loop_classify (startF : Config) (h24 : startF.length = 24) (moves : List String)
    (hmoves : ∀ m ∈ moves, (Cube.find_move m).isSome) :
    ∀ (fuel : Nat) (fs bs : SearchState) (cf cb : Option Node) (pulledF : List Node),
      SearchInv startF moves fs pulledF →
      Nat.factorial 24 + 2 ≤ fuel + pulledF.length →
      (Solver.loop fuel fs bs cf cb ≠ .fuelOut) ∧
      (Solver.loop fuel fs bs cf cb = .noMeeting →
        ∃ n, Solver.runsTo (fs, bs, cf, cb) n ∧ Solver.exhaustAt (fs, bs, cf, cb) n) ∧
      (Solver.loop fuel fs bs cf cb = .boundExceeded →
        ∃ n, Solver.runsTo (fs, bs, cf, cb) n ∧ ¬ Solver.exhaustAt (fs, bs, cf, cb) n ∧
          ¬ Solver.meetAt (fs, bs, cf, cb) n ∧ Solver.boundAt (fs, bs, cf, cb) n) ∧
      (∀ f b, Solver.loop fuel fs bs cf cb = .found f b →
        ∃ n, Solver.runsTo (fs, bs, cf, cb) n ∧ ¬ Solver.exhaustAt (fs, bs, cf, cb) n ∧
          Solver.meetAt (fs, bs, cf, cb) n) := by
  intro fuel
  induction fuel with
  | zero =>
    intro fs bs cf cb pulledF hinv hfuel
    exfalso
    have := pulled_length_le startF h24 moves fs pulledF hinv
    omega
  | succ fuel ih =>
    intro fs bs cf cb pulledF hinv hfuel
    have hplen := pulled_length_le startF h24 moves fs pulledF hinv
    cases cf with
    | none =>
      have heq : Solver.loop (fuel + 1) fs bs none cb = .noMeeting := by
        cases cb <;> rfl
      rw [heq]
      refine ⟨fun h => MiddleResult.noConfusion h, ?_, ?_, ?_⟩
      · intro _
        exact ⟨0, by intro k hk; omega, Or.inl rfl⟩
      · intro h; exact (MiddleResult.noConfusion h)
      · intro f b h; exact (MiddleResult.noConfusion h)
    | some f =>
      cases cb with
      | none =>
        have heq : Solver.loop (fuel + 1) fs bs (some f) none = .noMeeting := rfl
        rw [heq]
        refine ⟨fun h => MiddleResult.noConfusion h, ?_, ?_, ?_⟩
        · intro _
          exact ⟨0, by intro k hk; omega, Or.inr rfl⟩
        · intro h; exact (MiddleResult.noConfusion h)
        · intro f' b' h; exact (MiddleResult.noConfusion h)
      | some b =>
        have hnoexh : ¬ Solver.exhaustAt (fs, bs, some f, some b) 0 := by
          rintro (h | h) <;> cases h
        cases hvb : lookupVisited bs.visited f.configuration with
        | some bnode =>
          have heq : Solver.loop (fuel + 1) fs bs (some f) (some b) = .found f bnode := by
            simp only [Solver.loop, hvb]
          rw [heq]
          refine ⟨fun h => MiddleResult.noConfusion h, ?_, ?_, ?_⟩
          · intro h; exact (MiddleResult.noConfusion h)
          · intro h; exact (MiddleResult.noConfusion h)
          · intro f' b' _
            refine ⟨0, by intro k hk; omega, hnoexh, ?_⟩
            exact ⟨f, b, rfl, rfl, Or.inl (by
              show lookupVisited bs.visited f.configuration ≠ none
              rw [hvb]; simp)⟩
        | none =>
          cases hvf : lookupVisited fs.visited b.configuration with
          | some fnode =>
            have heq : Solver.loop (fuel + 1) fs bs (some f) (some b) = .found fnode b := by
              simp only [Solver.loop, hvb, hvf]
            rw [heq]
            refine ⟨fun h => MiddleResult.noConfusion h, ?_, ?_, ?_⟩
            · intro h; exact (MiddleResult.noConfusion h)
            · intro h; exact (MiddleResult.noConfusion h)
            · intro f' b' _
              refine ⟨0, by intro k hk; omega, hnoexh, ?_⟩
              exact ⟨f, b, rfl, rfl, Or.inr (by
                show lookupVisited fs.visited b.configuration ≠ none
                rw [hvf]; simp)⟩
          | none =>
            have hnomeet : ¬ Solver.meetAt (fs, bs, some f, some b) 0 := by
              rintro ⟨f', b', hf', hb', hor⟩
              cases hf'
              cases hb'
              rcases hor with h | h
              · exact h hvb
              · exact h hvf
            by_cases hb' : (Searcher.get_next fs).2.layerNumber +
                (Searcher.get_next bs).2.layerNumber > Cube.maximum_moves
            · have heq : Solver.loop (fuel + 1) fs bs (some f) (some b) = .boundExceeded := by
                simp only [Solver.loop, hvb, hvf]
                rw [if_pos hb']
              rw [heq]
              refine ⟨fun h => MiddleResult.noConfusion h, ?_, ?_, ?_⟩
              · intro h; exact (MiddleResult.noConfusion h)
              · intro _
                exact ⟨0, by intro k hk; omega, hnoexh, hnomeet, hb'⟩
              · intro f' b' h; exact (MiddleResult.noConfusion h)
            · have heq : Solver.loop (fuel + 1) fs bs (some f) (some b) =
                  Solver.loop fuel (Searcher.get_next fs).2 (Searcher.get_next bs).2
                    (Searcher.get_next fs).1 (Searcher.get_next bs).1 := by
                simp only [Solver.loop, hvb, hvf]
                rw [if_neg hb']
              have hnobound : ¬ Solver.boundAt (fs, bs, some f, some b) 0 := hb'
              have h0 : ¬ Solver.exhaustAt (fs, bs, some f, some b) 0 ∧
                  ¬ Solver.meetAt (fs, bs, some f, some b) 0 ∧
                  ¬ Solver.boundAt (fs, bs, some f, some b) 0 := ⟨hnoexh, hnomeet, hnobound⟩
              have hadv : Solver.advance (fs, bs, some f, some b) =
                  ((Searcher.get_next fs).2, (Searcher.get_next bs).2,
                   (Searcher.get_next fs).1, (Searcher.get_next bs).1) := rfl
              rcases get_next_spec' startF moves hmoves fs pulledF hinv with
                ⟨nd, fs', hr, hinv', -, -⟩ | ⟨fs', hr, hinv', -, -, -⟩
              · -- the front searcher produced a node: recurse
                have hr2 : (Searcher.get_next fs).2 = fs' := by rw [hr]
                have hfuel' : Nat.factorial 24 + 2 ≤ fuel + (pulledF ++ [nd]).length := by
                  rw [List.length_append]
                  simp only [List.length_cons, List.length_nil]
                  omega
                have hIH := ih (Searcher.get_next fs).2 (Searcher.get_next bs).2
                  (Searcher.get_next fs).1 (Searcher.get_next bs).1 (pulledF ++ [nd])
                  (by rw [hr2]; exact hinv') hfuel'
                rw [heq]
                refine ⟨hIH.1, ?_, ?_, ?_⟩
                · intro h
                  obtain ⟨n, hrun, hexh⟩ := hIH.2.1 h
                  refine ⟨n + 1, runsTo_shift _ n h0 (by rw [hadv]; exact hrun), ?_⟩
                  rw [exhaustAt_shift, hadv]
                  exact hexh
                · intro h
                  obtain ⟨n, hrun, hx, hm, hbd⟩ := hIH.2.2.1 h
                  refine ⟨n + 1, runsTo_shift _ n h0 (by rw [hadv]; exact hrun), ?_, ?_, ?_⟩
                  · rw [exhaustAt_shift, hadv]; exact hx
                  · rw [meetAt_shift, hadv]; exact hm
                  · rw [boundAt_shift, hadv]; exact hbd
                · intro f' b' h
                  obtain ⟨n, hrun, hx, hm⟩ := hIH.2.2.2 f' b' h
                  refine ⟨n + 1, runsTo_shift _ n h0 (by rw [hadv]; exact hrun), ?_, ?_⟩
                  · rw [exhaustAt_shift, hadv]; exact hx
                  · rw [meetAt_shift, hadv]; exact hm
              · -- the front searcher is exhausted: next iteration exits
                have hr1 : (Searcher.get_next fs).1 = none := by rw [hr]
                obtain ⟨g, rfl⟩ : ∃ g, fuel = g + 1 := ⟨fuel - 1, by omega⟩
                have heq2 : Solver.loop (g + 1) (Searcher.get_next fs).2
                    (Searcher.get_next bs).2 (Searcher.get_next fs).1
                    (Searcher.get_next bs).1 = .noMeeting := by
                  rw [hr1]
                  cases (Searcher.get_next bs).1 <;> rfl
                rw [heq, heq2]
                refine ⟨fun h => MiddleResult.noConfusion h, ?_, ?_, ?_⟩
                · intro _
                  refine ⟨1, ?_, ?_⟩
                  · intro k hk
                    have : k = 0 := by omega
                    rw [this]
                    exact h0
                  · unfold Solver.exhaustAt
                    rw [trace_shift, hadv]
                    left
                    show (Solver.trace ((Searcher.get_next fs).2, (Searcher.get_next bs).2,
                      (Searcher.get_next fs).1, (Searcher.get_next bs).1) 0).2.2.1 = none
                    exact hr1
                · intro h; exact (MiddleResult.noConfusion h)
                · intro f' b' h; exact (MiddleResult.noConfusion h)

lemma canon_length (colors : List String) (c : Config)
    (h : CubeBuilder.get_cube_from_colors colors = .ok c) : c.length = 24 := by
  unfold CubeBuilder.get_cube_from_colors at h
  cases hsym : CubeBuilder.get_symbols colors with
  | error e => rw [hsym] at h; cases h
  | ok pairs =>
    rw [hsym] at h
    replace h : ((CubeBuilder.translate_colors pairs colors).bind (fun translate_list =>
        (Cube.mk_cube translate_list).bind (fun cube =>
          if CubeBuilder.check_validity cube = true then pure cube
          else Except.error "Invalid cube provided."))) = Except.ok c := h
    cases htr : CubeBuilder.translate_colors pairs colors with
    | error e => rw [htr] at h; cases h
    | ok l =>
      rw [htr] at h
      replace h : ((Cube.mk_cube l).bind (fun cube =>
          if CubeBuilder.check_validity cube = true then pure cube
          else Except.error "Invalid cube provided.")) = Except.ok c := h
      cases hmk : Cube.mk_cube l with
      | error e => rw [hmk] at h; cases h
      | ok cube =>
        rw [hmk] at h
        replace h : (if CubeBuilder.check_validity cube = true
            then (pure cube : Except String Config)
            else Except.error "Invalid cube provided.") = Except.ok c := h
        unfold Cube.mk_cube at hmk
        by_cases h24 : l.length = 24
        · rw [if_neg (by omega)] at hmk
          cases hmk
          by_cases hv : CubeBuilder.check_validity l = true
          · rw [if_pos hv] at h
            cases h
            exact h24
          · rw [if_neg hv] at h
            cases h
        · rw [if_pos h24] at hmk
          cases hmk

/-- The solver's state quadruple right after the two initial pulls. -/
def Solver.initial_state (origin target : Config) (moves : List String) :
    SearchState × SearchState × Option Node × Option Node :=
  ((Searcher.get_next (Searcher.init origin moves)).2,
   (Searcher.get_next (Searcher.init target moves)).2,
   (Searcher.get_next (Searcher.init origin moves)).1,
   (Searcher.get_next (Searcher.init target moves)).1)

/-- Two different kinds of first stop cannot both describe the same run. -/
lemma stop_conflict (st : SearchState × SearchState × Option Node × Option Node)
    (n n' : Nat)
    (h1 : Solver.runsTo st n)
    (hstop : Solver.exhaustAt st n ∨
      (¬ Solver.exhaustAt st n ∧ ¬ Solver.meetAt st n ∧ Solver.boundAt st n))
    (h2 : Solver.runsTo st n') (hx : ¬ Solver.exhaustAt st n')
    (hm : Solver.meetAt st n') : False := by
  rcases Nat.lt_trichotomy n' n with hlt | heq | hgt
  · exact (h1 n' hlt).2.1 hm
  · subst heq
    rcases hstop with h | ⟨-, hnm, -⟩
    · exact hx h
    · exact hnm hm
  · obtain ⟨he, hme, hbd⟩ := h2 n hgt
    rcases hstop with h | ⟨-, -, hb⟩
    · exact he h
    · exact hbd hb

/-- Claim C5: (given a canonicalizable origin) `Solver.get_solution` raises
`Unsolvable` — one of the two unsolvable `ValueError`s of the source — if
and only if the lock-step run finds no meeting before it either exhausts an
explorer or trips the combined-depth bound `Cube.maximum_moves`; when a
meeting is found first, it returns a solution instead of raising. -/
theorem claim_C5 (origin target : Config) (moves : List String)
    (hmoves : ∀ m ∈ moves, (Cube.find_move m).isSome)
    (c : Config) (hcanon : CubeBuilder.get_cube_from_colors origin = .ok c) :
    ((∃ e, Solver.get_solution origin target moves = .error e ∧
        (e = "CubeError: Cube is unsolvable." ∨
         e = "Cube Error: cube is impossible to solve.")) ↔
      (∃ n, Solver.runsTo (Solver.initial_state c target moves) n ∧
        (Solver.exhaustAt (Solver.initial_state c target moves) n ∨
         (¬ Solver.exhaustAt (Solver.initial_state c target moves) n ∧
          ¬ Solver.meetAt (Solver.initial_state c target moves) n ∧
          Solver.boundAt (Solver.initial_state c target moves) n)))) ∧
    ((∃ n, Solver.runsTo (Solver.initial_state c target moves) n ∧
        ¬ Solver.exhaustAt (Solver.initial_state c target moves) n ∧
        Solver.meetAt (Solver.initial_state c target moves) n) →
      ∃ sol, Solver.get_solution origin target moves = .ok sol) := by
  have hlen : c.length = 24 := canon_length origin c hcanon
  obtain ⟨pulled0, hinv0⟩ :
      ∃ pulled0, SearchInv c moves (Searcher.get_next (Searcher.init c moves)).2 pulled0 := by
    rcases get_next_spec' c moves hmoves (Searcher.init c moves) []
        (init_inv c moves hmoves) with ⟨nd, s', hr, hi, -, -⟩ | ⟨s', hr, hi, -, -, -⟩
    · refine ⟨[nd], ?_⟩
      rw [hr]
      simpa using hi
    · refine ⟨[], ?_⟩
      rw [hr]
      exact hi
  have hcls := loop_classify c hlen moves hmoves (Nat.factorial 24 + 2)
    (Searcher.get_next (Searcher.init c moves)).2
    (Searcher.get_next (Searcher.init target moves)).2
    (Searcher.get_next (Searcher.init c moves)).1
    (Searcher.get_next (Searcher.init target moves)).1
    pulled0 hinv0 (by omega)
  have hred : Solver.get_solution origin target moves =
      (match Solver.find_matching_middle c target moves with
       | .found front back =>
         pure ((((Solver.get_parent_chain front).reverse.filter
                 (fun link => link.marker ≠ "")).map Node.marker) ++
               (((Solver.get_parent_chain back).filter
                 (fun link => link.marker ≠ "")).map
                   (fun link => Cube.invert_move link.marker)))
       | .noMeeting => .error "CubeError: Cube is unsolvable."
       | .boundExceeded => .error "Cube Error: cube is impossible to solve."
       | .fuelOut => .error "fuel exhausted") := by
    unfold Solver.get_solution
    rw [hcanon]
    rfl
  cases hres : Solver.find_matching_middle c target moves with
  | fuelOut => exact absurd hres hcls.1
  | found f b =>
    rw [hres] at hred
    constructor
    · constructor
      · rintro ⟨e, he, -⟩
        rw [hred] at he
        cases he
      · rintro ⟨n, hrun, hstop⟩
        exfalso
        obtain ⟨n', hrun', hx', hm'⟩ := hcls.2.2.2 f b hres
        exact stop_conflict (Solver.initial_state c target moves) n n'
          hrun hstop hrun' hx' hm'
    · intro _
      exact ⟨_, hred⟩
  | noMeeting =>
    rw [hres] at hred
    constructor
    · constructor
      · intro _
        obtain ⟨n, hrun, hexh⟩ := hcls.2.1 hres
        exact ⟨n, hrun, Or.inl hexh⟩
      · intro _
        exact ⟨"CubeError: Cube is unsolvable.", hred, Or.inl rfl⟩
    · rintro ⟨n, hrun, hx, hm⟩
      exfalso
      obtain ⟨n', hrun', hexh'⟩ := hcls.2.1 hres
      exact stop_conflict (Solver.initial_state c target moves) n' n
        hrun' (Or.inl hexh') hrun hx hm
  | boundExceeded =>
    rw [hres] at hred
    constructor
    · constructor
      · intro _
        obtain ⟨n, hrun, hx, hm, hbd⟩ := hcls.2.2.1 hres
        exact ⟨n, hrun, Or.inr ⟨hx, hm, hbd⟩⟩
      · intro _
        exact ⟨"Cube Error: cube is impossible to solve.", hred, Or.inr rfl⟩
    · rintro ⟨n, hrun, hx, hm⟩
      exfalso
      obtain ⟨n', hrun', hx', hm', hbd'⟩ := hcls.2.2.1 hres
      exact stop_conflict (Solver.initial_state c target moves) n' n
        hrun' (Or.inr ⟨hx', hm', hbd'⟩) hrun hx hm

/-- Witness for C5 at a concrete input: solving the solved cube meets at
iteration 0 and returns a solution (no `Unsolvable`). -/
theorem claim_C5_witness :
    ∃ sol, Solver.get_solution Cube.solved_tuple Cube.solved_tuple
      CubeBuilder.solve_moves = .ok sol :=
  (claim_C5 Cube.solved_tuple Cube.solved_tuple CubeBuilder.solve_moves (by decide)
    Cube.solved_tuple (by decide)).2
    ⟨0, by intro k hk; omega, by decide,
     ⟨Node.root Cube.solved_tuple, Node.root Cube.solved_tuple, rfl, rfl,
      Or.inl (by decide)⟩⟩

/-- Applying a move and then its inverse restores any length-24
configuration (total-function form of C2, used by the solver proofs). -/
lemma apply_invert_cancel (m : String) (hm : m ∈ Cube.move_dict.map Prod.fst)
    (c : Config) (hc : c.length = 24) :
    Cube.apply_move (Cube.apply_move c m) (Cube.invert_move m) = c := by
  obtain ⟨e, he, hfst⟩ := List.mem_map.mp hm
  have hall := c2check_all
  rw [List.all_eq_true] at hall
  have hcheck : c2check m = true := by rw [← hfst]; exact hall e he
  unfold c2check at hcheck
  cases h1 : Cube.find_move m with
  | none => rw [h1] at hcheck; cases h2 : Cube.find_move (Cube.invert_move m) <;>
      simp [h2] at hcheck
  | some p =>
    cases h2 : Cube.find_move (Cube.invert_move m) with
    | none => rw [h1, h2] at hcheck; simp at hcheck
    | some q =>
      rw [h1, h2] at hcheck
      simp only [Bool.and_eq_true, List.all_eq_true, decide_eq_true_eq] at hcheck
      unfold Cube.apply_move
      rw [h1, h2]
      show Cube.permute (Cube.permute c p) q = c
      rw [permute_permute c p q hcheck.1, hcheck.2, permute_range c hc]

lemma apply_move_length (c : Config) (m : String) (hm : (Cube.find_move m).isSome)
    (hc : c.length = 24) : (Cube.apply_move c m).length = 24 := by
  unfold Cube.apply_move
  cases hf : Cube.find_move m with
  | none => rw [hf] at hm; cases hm
  | some p =>
    rw [permute_length]
    cases hfind : Cube.move_dict.find? (fun e => e.1 = m) with
    | none =>
      unfold Cube.find_move at hf
      rw [hfind] at hf
      cases hf
    | some e =>
      unfold Cube.find_move at hf
      rw [hfind] at hf
      have : e.2 = p := by cases hf; rfl
      rw [← this]
      exact all_moves_length e (List.mem_of_find?_eq_some hfind)

lemma applySeq_length (ms : List String) :
    ∀ (c : Config), (∀ m ∈ ms, (Cube.find_move m).isSome) → c.length = 24 →
      (applySeq c ms).length = 24 := by
  induction ms with
  | nil => intro c _ hc; exact hc
  | cons m rest ih =>
    intro c hmem hc
    show (applySeq (Cube.apply_move c m) rest).length = 24
    exact ih (Cube.apply_move c m) (fun x hx => hmem x (by simp [hx]))
      (apply_move_length c m (hmem m (by simp)) hc)

lemma solve_moves_keys : ∀ m ∈ CubeBuilder.solve_moves, m ∈ Cube.move_dict.map Prod.fst := by
  decide

lemma solve_moves_some : ∀ m ∈ CubeBuilder.solve_moves, (Cube.find_move m).isSome := by
  decide

lemma solve_moves_invert :
    ∀ m ∈ CubeBuilder.solve_moves, Cube.invert_move m ∈ CubeBuilder.solve_moves := by
  decide

lemma solve_moves_invert_some :
    ∀ m ∈ CubeBuilder.solve_moves, (Cube.find_move (Cube.invert_move m)).isSome := by
  decide

/-- The move word undoing `ms`: inverted markers in reverse order. -/
def invWord (ms : List String) : List String :=
  (ms.map Cube.invert_move).reverse

lemma invWord_cancel (ms : List String) :
    ∀ (c : Config), (∀ m ∈ ms, m ∈ CubeBuilder.solve_moves) → c.length = 24 →
      applySeq (applySeq c ms) (invWord ms) = c := by
  induction ms with
  | nil => intro c _ _; rfl
  | cons m rest ih =>
    intro c hmem hc
    have hm : m ∈ CubeBuilder.solve_moves := hmem m (by simp)
    have hrest : ∀ x ∈ rest, x ∈ CubeBuilder.solve_moves := fun x hx => hmem x (by simp [hx])
    have hc' : (Cube.apply_move c m).length = 24 :=
      apply_move_length c m (solve_moves_some m hm) hc
    have hiw : invWord (m :: rest) = invWord rest ++ [Cube.invert_move m] := by
      unfold invWord
      simp
    have h1 : applySeq c (m :: rest) = applySeq (Cube.apply_move c m) rest := rfl
    rw [h1, hiw, applySeq_append, ih (Cube.apply_move c m) hrest hc']
    exact apply_invert_cancel m (solve_moves_keys m hm) c hc

lemma invWord_mem (ms : List String) (h : ∀ m ∈ ms, m ∈ CubeBuilder.solve_moves) :
    ∀ m ∈ invWord ms, m ∈ CubeBuilder.solve_moves := by
  intro x hx
  unfold invWord at hx
  rw [List.mem_reverse] at hx
  obtain ⟨y, hy, rfl⟩ := List.mem_map.mp hx
  exact solve_moves_invert y (h y hy)

/-- Reachability is symmetric for the restricted move set. -/
lemma reachN_symm (a b : Config) (n : Nat) (ha : a.length = 24)
    (h : ReachN CubeBuilder.solve_moves a b n) : ReachN CubeBuilder.solve_moves b a n := by
  obtain ⟨ms, hlen, hmem, happ⟩ := h
  refine ⟨invWord ms, ?_, invWord_mem ms hmem, ?_⟩
  · unfold invWord
    simp [hlen]
  · rw [← happ, invWord_cancel ms a hmem ha]

lemma reachN_trans (a b c : Config) (n n' : Nat)
    (h1 : ReachN CubeBuilder.solve_moves a b n) (h2 : ReachN CubeBuilder.solve_moves b c n') :
    ReachN CubeBuilder.solve_moves a c (n + n') := by
  obtain ⟨ms, hlen, hmem, happ⟩ := h1
  obtain ⟨ms', hlen', hmem', happ'⟩ := h2
  refine ⟨ms ++ ms', by simp [hlen, hlen'], ?_, ?_⟩
  · intro x hx
    rcases List.mem_append.mp hx with h | h
    · exact hmem x h
    · exact hmem' x h
  · rw [applySeq_append, happ, happ']

/-- On move-dict keys, `do_moves` is the total fold `applySeq`. -/
lemma do_moves_eq_applySeq (ms : List String) :
    ∀ c : Config, (∀ m ∈ ms, (Cube.find_move m).isSome) →
      Cube.do_moves c ms = .ok (applySeq c ms) := by
  induction ms with
  | nil => intro c _; rfl
  | cons m rest ih =>
    intro c hmem
    have hm := hmem m (by simp)
    cases hf : Cube.find_move m with
    | none => rw [hf] at hm; cases hm
    | some p =>
      have h1 : Cube.do_moves c (m :: rest) = Cube.do_moves (Cube.apply_move c m) rest := by
        show List.foldlM Cube.do_move c (m :: rest) = _
        rw [List.foldlM_cons]
        unfold Cube.do_move Cube.apply_move
        rw [hf]
        rfl
      rw [h1]
      have h2 : applySeq c (m :: rest) = applySeq (Cube.apply_move c m) rest := rfl
      rw [h2]
      exact ih (Cube.apply_move c m) (fun x hx => hmem x (by simp [hx]))

lemma solve_moves_nonempty : ∀ m ∈ CubeBuilder.solve_moves, m ≠ "" := by decide

/-- The front half of the solution read off a well-formed node's parent
chain is exactly the node's move path. -/
lemma chain_front (start : Config) (moves : List String) (hmv : ∀ m ∈ moves, m ≠ "") :
    ∀ nd : Node, Node.ok start moves nd →
      ((Solver.get_parent_chain nd).reverse.filter
        (fun link => link.marker ≠ "")).map Node.marker = nd.pathOf := by
  intro nd
  induction nd with
  | root c =>
    intro _
    simp [Solver.get_parent_chain, Node.marker, Node.pathOf]
  | child c m par ih =>
    rintro ⟨hpar, hm, -, -⟩
    have hm' : m ≠ "" := hmv m hm
    have hchain : Solver.get_parent_chain (Node.child c m par) =
        Node.child c m par :: Solver.get_parent_chain par := rfl
    have hfilt : List.filter (fun link => link.marker ≠ "") [Node.child c m par]
        = [Node.child c m par] := by
      simp [Node.marker, hm']
    rw [hchain, List.reverse_cons, List.filter_append, List.map_append, ih hpar, hfilt]
    rfl

/-- The back half of the solution read off a well-formed node's parent
chain is the inverted move path, reversed. -/
lemma chain_back (start : Config) (moves : List String) (hmv : ∀ m ∈ moves, m ≠ "") :
    ∀ nd : Node, Node.ok start moves nd →
      ((Solver.get_parent_chain nd).filter (fun link => link.marker ≠ "")).map
        (fun link => Cube.invert_move link.marker) = invWord nd.pathOf := by
  intro nd
  induction nd with
  | root c =>
    intro _
    simp [Solver.get_parent_chain, Node.marker, Node.pathOf, invWord]
  | child c m par ih =>
    rintro ⟨hpar, hm, -, -⟩
    have hm' : m ≠ "" := hmv m hm
    have hchain : Solver.get_parent_chain (Node.child c m par) =
        Node.child c m par :: Solver.get_parent_chain par := rfl
    have hiw : invWord (par.pathOf ++ [m]) =
        Cube.invert_move m :: invWord par.pathOf := by
      unfold invWord
      simp
    rw [hchain, List.filter_cons]
    rw [if_pos (by simp [Node.marker, hm'])]
    rw [List.map_cons, ih hpar]
    show Cube.invert_move m :: invWord par.pathOf = invWord (par.pathOf ++ [m])
    rw [hiw]

/-- From a meeting pair of well-formed nodes, the move sequence read off the
two parent chains takes the origin to the target, with length the sum of the
two depths. -/
lemma solution_of_found (origin target : Config)
    (h24o : origin.length = 24) (h24t : target.length = 24)
    (f b : Node) (hf : Node.ok origin CubeBuilder.solve_moves f)
    (hb : Node.ok target CubeBuilder.solve_moves b)
    (hcfg : f.configuration = b.configuration) :
    Cube.do_moves origin
      ((((Solver.get_parent_chain f).reverse.filter
          (fun link => link.marker ≠ "")).map Node.marker) ++
       (((Solver.get_parent_chain b).filter
          (fun link => link.marker ≠ "")).map
            (fun link => Cube.invert_move link.marker))) = .ok target ∧
    ((((Solver.get_parent_chain f).reverse.filter
        (fun link => link.marker ≠ "")).map Node.marker) ++
     (((Solver.get_parent_chain b).filter
        (fun link => link.marker ≠ "")).map
          (fun link => Cube.invert_move link.marker))).length = f.depth + b.depth := by
  rw [chain_front origin CubeBuilder.solve_moves solve_moves_nonempty f hf,
      chain_back target CubeBuilder.solve_moves solve_moves_nonempty b hb]
  obtain ⟨hfapp, hflen, hfmem⟩ := node_ok_path origin CubeBuilder.solve_moves f hf
  obtain ⟨hbapp, hblen, hbmem⟩ := node_ok_path target CubeBuilder.solve_moves b hb
  constructor
  · have hsome : ∀ m ∈ f.pathOf ++ invWord b.pathOf, (Cube.find_move m).isSome := by
      intro x hx
      rcases List.mem_append.mp hx with h | h
      · exact solve_moves_some x (hfmem x h)
      · exact solve_moves_some x (invWord_mem b.pathOf hbmem x h)
    rw [do_moves_eq_applySeq (f.pathOf ++ invWord b.pathOf) origin hsome]
    rw [applySeq_append, hfapp, hcfg, ← hbapp,
        invWord_cancel b.pathOf target hbmem h24t]
  · rw [List.length_append, hflen]
    have : (invWord b.pathOf).length = b.depth := by
      unfold invWord
      rw [List.length_reverse, List.length_map, hblen]
    rw [this]

lemma getD_eq_getElem {α : Type} (l : List α) (d : α) (i : Nat) (h : i < l.length) :
    l.getD i d = l[i] := by
  rw [List.getD_eq_getElem?_getD, List.getElem?_eq_getElem h]
  rfl

lemma map_getD_range {α : Type} (l : List α) (d : α) :
    (List.range l.length).map (fun i => l.getD i d) = l := by
  apply List.ext_getElem
  · simp
  · intro i h1 h2
    simp only [List.getElem_map, List.getElem_range]
    rw [getD_eq_getElem l d i h2]

lemma getD_mem_nat (l : List Nat) (n : Nat) (h : n < l.length) : l.getD n 0 ∈ l := by
  rw [getD_eq_getElem l 0 n h]
  exact List.getElem_mem h

lemma rot_trans (a b s : List String) (hs : s.length = 3) (h1 : isRotationOf a b)
    (h2 : isRotationOf b s) : isRotationOf a s := by
  obtain ⟨d, e, f, rfl⟩ := List.length_eq_three.mp hs
  rcases h2 with rfl | rfl | rfl <;> rcases h1 with rfl | rfl | rfl <;>
    simp [isRotationOf, rotOnce]

lemma mem_rot (t s : List String) (hs : s.length = 3) (h : isRotationOf t s) (x : String) :
    x ∈ t ↔ x ∈ s := by
  obtain ⟨d, e, f, rfl⟩ := List.length_eq_three.mp hs
  rcases h with rfl | rfl | rfl <;> simp [rotOnce] <;> tauto

lemma find_move_mem (m : String) (p : List Nat) (h : Cube.find_move m = some p) :
    ∃ e ∈ Cube.move_dict, e.1 = m ∧ e.2 = p := by
  unfold Cube.find_move at h
  cases hf : Cube.move_dict.find? (fun e => e.1 = m) with
  | none => rw [hf] at h; cases h
  | some e =>
    rw [hf] at h
    have hmem := List.mem_of_find?_eq_some hf
    have hpred := List.find?_some hf
    simp only [decide_eq_true_eq] at hpred
    cases h
    exact ⟨e, hmem, hpred, rfl⟩

/-- Every restricted move leaves the fixed corner's three stickers in place
on every configuration. -/
lemma solve_moves_fix : ∀ m ∈ CubeBuilder.solve_moves, ∀ c : Config, fixesCorner c m := by
  intro m hm c
  have hall := c4fixcheck_all
  rw [List.all_eq_true] at hall
  have hcheck := hall m hm
  unfold c4fixcheck at hcheck
  cases h1 : Cube.find_move m with
  | none => rw [h1] at hcheck; cases hcheck
  | some p =>
    rw [h1] at hcheck
    simp only [Bool.and_eq_true, decide_eq_true_eq] at hcheck
    exact fixesCorner_of_table h1 hcheck.1.1.1 hcheck.1.1.2 hcheck.1.2 hcheck.2 c

/-- The block map induced by a sticker permutation table: which cubie block
feeds block `i`. -/
def blockMap (p : List Nat) : List Nat :=
  (List.range 8).map (fun i => p.getD (3 * i) 0 / 3)

lemma all_moves_blockMap_perm :
    ∀ e ∈ Cube.move_dict, List.Perm (blockMap e.2) (List.range 8) := by decide

lemma blockMap_getD (p : List Nat) (i : Nat) (hi : i < 8) :
    (blockMap p).getD i 0 = p.getD (3 * i) 0 / 3 := by
  unfold blockMap
  rw [List.getD_eq_getElem?_getD, List.getElem?_map,
      List.getElem?_eq_getElem (by simpa using hi : i < (List.range 8).length)]
  simp

/-- A permuted configuration's cubie is a rotation of the source block given
by the block map. -/
lemma cubie_permute (c : Config) (h24 : c.length = 24) (p : List Nat)
    (hbr : blockRotSpec p) (hplen : p.length = 24) (i : Nat) (hi : i < 8) :
    isRotationOf (cubieAt (Cube.permute c p) i) (cubieAt c (p.getD (3 * i) 0 / 3)) ∧
      p.getD (3 * i) 0 / 3 < 8 := by
  obtain ⟨j, hj, hcase⟩ := hbr i hi
  have hplen' : (Cube.permute c p).length = 24 := by rw [permute_length, hplen]
  have hlist : cubieAt (Cube.permute c p) i =
      [(Cube.permute c p).getD (3 * i) "", (Cube.permute c p).getD (3 * i + 1) "",
       (Cube.permute c p).getD (3 * i + 2) ""] :=
    cubieAt_as_list _ i (by omega)
  have hg0 : (Cube.permute c p).getD (3 * i) "" = c.getD (p.getD (3 * i) 0) "" :=
    permute_getD c p _ (by omega)
  have hg1 : (Cube.permute c p).getD (3 * i + 1) "" = c.getD (p.getD (3 * i + 1) 0) "" :=
    permute_getD c p _ (by omega)
  have hg2 : (Cube.permute c p).getD (3 * i + 2) "" = c.getD (p.getD (3 * i + 2) 0) "" :=
    permute_getD c p _ (by omega)
  have hcj : cubieAt c j =
      [c.getD (3 * j) "", c.getD (3 * j + 1) "", c.getD (3 * j + 2) ""] :=
    cubieAt_as_list c j (by omega)
  rcases hcase with ⟨e0, e1, e2⟩ | ⟨e0, e1, e2⟩ | ⟨e0, e1, e2⟩
  · have hdiv : p.getD (3 * i) 0 / 3 = j := by rw [e0]; omega
    rw [hdiv]
    refine ⟨?_, hj⟩
    left
    rw [hlist, hg0, hg1, hg2, e0, e1, e2, hcj]
  · have hdiv : p.getD (3 * i) 0 / 3 = j := by rw [e0]; omega
    rw [hdiv]
    refine ⟨?_, hj⟩
    right; left
    rw [hlist, hg0, hg1, hg2, e0, e1, e2, hcj]
    rfl
  · have hdiv : p.getD (3 * i) 0 / 3 = j := by rw [e0]; omega
    rw [hdiv]
    refine ⟨?_, hj⟩
    right; right
    rw [hlist, hg0, hg1, hg2, e0, e1, e2, hcj]
    rfl

/-- The structural invariant of configurations reachable from the solved
configuration by restricted moves: the fixed corner shows down/back/left, the
labels are a permutation of the solved labels, and the cubie blocks are a
permuted family of rotated solved cubies. -/
def GoodOrigin (c : Config) : Prop :=
  c.length = 24 ∧
  c.getD 15 "" = Cube.down_symbol ∧
  c.getD 16 "" = Cube.back_symbol ∧
  c.getD 17 "" = Cube.left_symbol ∧
  List.Perm c Cube.solved_tuple ∧
  ∃ f : List Nat, List.Perm f (List.range 8) ∧
    ∀ i < 8, isRotationOf (cubieAt c i) (cubieAt Cube.solved_tuple (f.getD i 0))

lemma goodOrigin_solved : GoodOrigin Cube.solved_tuple := by
  refine ⟨by decide, by decide, by decide, by decide, List.Perm.refl _,
    List.range 8, List.Perm.refl _, by decide⟩

lemma goodOrigin_step (c : Config) (hc : GoodOrigin c) (m : String)
    (hm : m ∈ CubeBuilder.solve_moves) : GoodOrigin (Cube.apply_move c m) := by
  obtain ⟨h24, h15, h16, h17, hperm, f, hfperm, hfrot⟩ := hc
  obtain ⟨hfix15, hfix16, hfix17⟩ := solve_moves_fix m hm c
  have hsome := solve_moves_some m hm
  cases hfind : Cube.find_move m with
  | none => rw [hfind] at hsome; cases hsome
  | some p =>
    obtain ⟨e, he, hem, hep⟩ := find_move_mem m p hfind
    have hplen : p.length = 24 := by rw [← hep]; exact all_moves_length e he
    have hpperm : List.Perm p (List.range 24) := by rw [← hep]; exact all_moves_perm e he
    have hbr : blockRotSpec p := by rw [← hep]; exact all_moves_blockRot e he
    have happ : Cube.apply_move c m = Cube.permute c p := by
      unfold Cube.apply_move
      rw [hfind]
    have hlen' : (Cube.apply_move c m).length = 24 := by
      rw [happ, permute_length, hplen]
    have hbm : List.Perm (blockMap p) (List.range 8) := by
      rw [← hep]; exact all_moves_blockMap_perm e he
    have hflen : f.length = 8 := by
      have := hfperm.length_eq
      simpa using this
    refine ⟨hlen', by rw [hfix15, h15], by rw [hfix16, h16], by rw [hfix17, h17],
      (happ ▸ permute_perm c p h24 hpperm).trans hperm,
      (blockMap p).map (fun j => f.getD j 0), ?_, ?_⟩
    · have hstep1 : List.Perm ((blockMap p).map (fun j => f.getD j 0))
          ((List.range 8).map (fun j => f.getD j 0)) := hbm.map _
      have hstep2 : (List.range 8).map (fun j => f.getD j 0) = f := by
        have := map_getD_range f 0
        rw [hflen] at this
        exact this
      rw [hstep2] at hstep1
      exact hstep1.trans hfperm
    · intro i hi
      have hbmlen : (blockMap p).length = 8 := by unfold blockMap; simp
      have hgetD : ((blockMap p).map (fun j => f.getD j 0)).getD i 0 =
          f.getD ((blockMap p).getD i 0) 0 := by
        rw [getD_eq_getElem _ 0 i (by rw [List.length_map]; omega),
            List.getElem_map, getD_eq_getElem (blockMap p) 0 i (by omega)]
      obtain ⟨hrot1, hlt⟩ := cubie_permute c h24 p hbr hplen i hi
      have hbmi : (blockMap p).getD i 0 = p.getD (3 * i) 0 / 3 := blockMap_getD p i hi
      have hrot2 := hfrot (p.getD (3 * i) 0 / 3) hlt
      have hjlt : f.getD (p.getD (3 * i) 0 / 3) 0 < 8 := by
        have hmem : f.getD (p.getD (3 * i) 0 / 3) 0 ∈ f := by
          apply getD_mem_nat
          omega
        have := hfperm.mem_iff.mp hmem
        simpa using this
      have hslen : (cubieAt Cube.solved_tuple (f.getD (p.getD (3 * i) 0 / 3) 0)).length = 3 :=
        (solved_cubie_facts _ hjlt).1
      rw [hgetD, hbmi, happ]
      exact rot_trans _ _ _ hslen hrot1 hrot2

lemma goodOrigin_reach : ∀ (seq : List String) (c : Config), GoodOrigin c →
    (∀ m ∈ seq, m ∈ CubeBuilder.solve_moves) → GoodOrigin (applySeq c seq) := by
  intro seq
  induction seq with
  | nil => intro c hc _; exact hc
  | cons m rest ih =>
    intro c hc hmem
    have h1 : applySeq c (m :: rest) = applySeq (Cube.apply_move c m) rest := rfl
    rw [h1]
    exact ih (Cube.apply_move c m) (goodOrigin_step c hc m (hmem m (by simp)))
      (fun x hx => hmem x (by simp [hx]))

/-- Python's `x if x is not None else y` pattern used by the symbol scan. -/
def pyOr (a b : Option String) : Option String :=
  match a with
  | some s => some s
  | none => b

lemma scan_split_aux (c : Config) (l : List Nat) :
    ∀ (u r f : Option String),
      l.foldl (fun acc i =>
        (pyOr acc.1 (CubeBuilder.get_third ((c.drop i).take 3) (c.getD 17 "") (c.getD 16 "")),
         pyOr acc.2.1 (CubeBuilder.get_third ((c.drop i).take 3) (c.getD 15 "") (c.getD 16 "")),
         pyOr acc.2.2 (CubeBuilder.get_third ((c.drop i).take 3) (c.getD 15 "") (c.getD 17 ""))))
        (u, r, f)
      = (l.foldl (fun a i =>
           pyOr a (CubeBuilder.get_third ((c.drop i).take 3) (c.getD 17 "") (c.getD 16 ""))) u,
         l.foldl (fun a i =>
           pyOr a (CubeBuilder.get_third ((c.drop i).take 3) (c.getD 15 "") (c.getD 16 ""))) r,
         l.foldl (fun a i =>
           pyOr a (CubeBuilder.get_third ((c.drop i).take 3) (c.getD 15 "") (c.getD 17 ""))) f) := by
  induction l with
  | nil => intro u r f; rfl
  | cons x xs ih => intro u r f; exact ih _ _ _

/-- The symbol scan computes its three slots independently. -/
lemma scan_split (c : Config) :
    CubeBuilder.symbol_scan c =
      ([0, 3, 6, 9, 12, 18, 21].foldl (fun a i =>
         pyOr a (CubeBuilder.get_third ((c.drop i).take 3) (c.getD 17 "") (c.getD 16 ""))) none,
       [0, 3, 6, 9, 12, 18, 21].foldl (fun a i =>
         pyOr a (CubeBuilder.get_third ((c.drop i).take 3) (c.getD 15 "") (c.getD 16 ""))) none,
       [0, 3, 6, 9, 12, 18, 21].foldl (fun a i =>
         pyOr a (CubeBuilder.get_third ((c.drop i).take 3) (c.getD 15 "") (c.getD 17 ""))) none) :=
  scan_split_aux c [0, 3, 6, 9, 12, 18, 21] none none none

lemma foldl_pyOr_keep (l : List Nat) (g : Nat → Option String) (s : String) :
    l.foldl (fun a i => pyOr a (g i)) (some s) = some s := by
  induction l with
  | nil => rfl
  | cons x xs ih => exact ih

lemma foldl_pyOr_eval (l : List Nat) (g : Nat → Option String) (v : String)
    (hall : ∀ x ∈ l, g x = none ∨ g x = some v) (hex : ∃ x ∈ l, g x = some v) :
    l.foldl (fun a i => pyOr a (g i)) none = some v := by
  induction l with
  | nil => obtain ⟨x, hx, -⟩ := hex; cases hx
  | cons x xs ih =>
    have hstep : (x :: xs).foldl (fun a i => pyOr a (g i)) none =
        xs.foldl (fun a i => pyOr a (g i)) (g x) := rfl
    rw [hstep]
    rcases hall x (by simp) with hnone | hsome
    · rw [hnone]
      obtain ⟨y, hy, hgy⟩ := hex
      rcases List.mem_cons.mp hy with rfl | hyxs
      · rw [hgy] at hnone; cases hnone
      · exact ih (fun z hz => hall z (by simp [hz])) ⟨y, hyxs, hgy⟩
    · rw [hsome]
      exact foldl_pyOr_keep xs g v

lemma get_third_none (t : List String) (a b : String) (h : ¬ (a ∈ t ∧ b ∈ t)) :
    CubeBuilder.get_third t a b = none := by
  unfold CubeBuilder.get_third
  rw [if_neg h]

lemma third_up : ∀ t, isRotationOf t (cubieAt Cube.solved_tuple 1) →
    CubeBuilder.get_third t Cube.left_symbol Cube.back_symbol = some Cube.up_symbol := by
  intro t h
  rcases h with rfl | rfl | rfl <;> decide

lemma third_right : ∀ t, isRotationOf t (cubieAt Cube.solved_tuple 6) →
    CubeBuilder.get_third t Cube.down_symbol Cube.back_symbol = some Cube.right_symbol := by
  intro t h
  rcases h with rfl | rfl | rfl <;> decide

lemma third_front : ∀ t, isRotationOf t (cubieAt Cube.solved_tuple 4) →
    CubeBuilder.get_third t Cube.down_symbol Cube.left_symbol = some Cube.front_symbol := by
  intro t h
  rcases h with rfl | rfl | rfl <;> decide

lemma solved_mem_lb : ∀ j < 8, (Cube.left_symbol ∈ cubieAt Cube.solved_tuple j ∧
    Cube.back_symbol ∈ cubieAt Cube.solved_tuple j) ↔ (j = 1 ∨ j = 5) := by decide

lemma solved_mem_db : ∀ j < 8, (Cube.down_symbol ∈ cubieAt Cube.solved_tuple j ∧
    Cube.back_symbol ∈ cubieAt Cube.solved_tuple j) ↔ (j = 6 ∨ j = 5) := by decide

lemma solved_mem_dl : ∀ j < 8, (Cube.down_symbol ∈ cubieAt Cube.solved_tuple j ∧
    Cube.left_symbol ∈ cubieAt Cube.solved_tuple j) ↔ (j = 4 ∨ j = 5) := by decide

/-- Under the reachable-configuration invariant, one slot of the symbol scan
resolves to the expected role: the unique non-fixed block whose solved
original is `jstar` supplies the third color `v`. -/
lemma scan_fold_eval (c : Config) (h24 : c.length = 24)
    (f : List Nat) (hfperm : List.Perm f (List.range 8))
    (hfrot : ∀ i < 8, isRotationOf (cubieAt c i) (cubieAt Cube.solved_tuple (f.getD i 0)))
    (hf5 : f.getD 5 0 = 5)
    (jstar : Nat) (hjs : jstar < 8) (hjs5 : jstar ≠ 5)
    (a b v : String)
    (hyes : ∀ t, isRotationOf t (cubieAt Cube.solved_tuple jstar) →
      CubeBuilder.get_third t a b = some v)
    (hno : ∀ j, j < 8 → j ≠ jstar → j ≠ 5 →
      ¬ (a ∈ cubieAt Cube.solved_tuple j ∧ b ∈ cubieAt Cube.solved_tuple j)) :
    [0, 3, 6, 9, 12, 18, 21].foldl (fun x i =>
      pyOr x (CubeBuilder.get_third ((c.drop i).take 3) a b)) none = some v := by
  have hflen : f.length = 8 := by simpa using hfperm.length_eq
  have hnodup : f.Nodup := hfperm.nodup_iff.mpr (List.nodup_range 8)
  have hjlt : ∀ k, k < 8 → f.getD k 0 < 8 := by
    intro k hk
    have hmem : f.getD k 0 ∈ f := getD_mem_nat f k (by omega)
    simpa using hfperm.mem_iff.mp hmem
  have hinj : ∀ i j, i < 8 → j < 8 → f.getD i 0 = f.getD j 0 → i = j := by
    intro i j hi hj heq
    rw [getD_eq_getElem f 0 i (by omega), getD_eq_getElem f 0 j (by omega)] at heq
    exact (List.Nodup.getElem_inj_iff hnodup).mp heq
  have blockval : ∀ k, k < 8 → k ≠ 5 →
      CubeBuilder.get_third (cubieAt c k) a b = none ∨
      CubeBuilder.get_third (cubieAt c k) a b = some v := by
    intro k hk hk5
    by_cases hj : f.getD k 0 = jstar
    · right
      exact hyes _ (hj ▸ hfrot k hk)
    · left
      have hj5 : f.getD k 0 ≠ 5 := by
        intro h5
        exact hk5 (hinj k 5 hk (by omega) (by rw [h5, hf5]))
      have hslen : (cubieAt Cube.solved_tuple (f.getD k 0)).length = 3 :=
        (solved_cubie_facts _ (hjlt k hk)).1
      apply get_third_none
      rw [mem_rot _ _ hslen (hfrot k hk) a, mem_rot _ _ hslen (hfrot k hk) b]
      exact hno (f.getD k 0) (hjlt k hk) hj hj5
  have blockyes : ∀ k, k < 8 → f.getD k 0 = jstar →
      CubeBuilder.get_third (cubieAt c k) a b = some v := by
    intro k hk hj
    exact hyes _ (hj ▸ hfrot k hk)
  apply foldl_pyOr_eval
  · intro i hi
    have hcase : i = 0 ∨ i = 3 ∨ i = 6 ∨ i = 9 ∨ i = 12 ∨ i = 18 ∨ i = 21 := by
      simpa using hi
    rcases hcase with rfl | rfl | rfl | rfl | rfl | rfl | rfl
    · exact blockval 0 (by omega) (by omega)
    · exact blockval 1 (by omega) (by omega)
    · exact blockval 2 (by omega) (by omega)
    · exact blockval 3 (by omega) (by omega)
    · exact blockval 4 (by omega) (by omega)
    · exact blockval 6 (by omega) (by omega)
    · exact blockval 7 (by omega) (by omega)
  · have hmem : jstar ∈ f := hfperm.mem_iff.mpr (by simpa using hjs)
    obtain ⟨k, hk, hfk⟩ := List.mem_iff_getElem.mp hmem
    have hk8 : k < 8 := by omega
    have hgd : f.getD k 0 = jstar := by rw [getD_eq_getElem f 0 k hk]; exact hfk
    have hk5 : k ≠ 5 := by
      intro h5
      rw [h5, hf5] at hgd
      exact hjs5 hgd.symm
    have hg := blockyes k hk8 hgd
    interval_cases k
    · exact ⟨0, by simp, hg⟩
    · exact ⟨3, by simp, hg⟩
    · exact ⟨6, by simp, hg⟩
    · exact ⟨9, by simp, hg⟩
    · exact ⟨12, by simp, hg⟩
    · exact absurd rfl hk5
    · exact ⟨18, by simp, hg⟩
    · exact ⟨21, by simp, hg⟩

/-- The symbol dictionary deduced for any reachable configuration: every
role maps to itself. -/
def canonPairs : List (Option String × String) :=
  [(some Cube.up_symbol, Cube.up_symbol), (some Cube.right_symbol, Cube.right_symbol),
   (some Cube.left_symbol, Cube.left_symbol), (some Cube.front_symbol, Cube.front_symbol),
   (some Cube.back_symbol, Cube.back_symbol), (some Cube.down_symbol, Cube.down_symbol)]

lemma lookup_canonPairs : ∀ x ∈ Cube.solved_tuple, lookupColor canonPairs x = some x := by
  decide

lemma translate_id (pairs : List (Option String × String)) (colors : List String)
    (h : ∀ x ∈ colors, lookupColor pairs x = some x) :
    CubeBuilder.translate_colors pairs colors = .ok colors := by
  induction colors with
  | nil => rfl
  | cons x rest ih =>
    have hstep : CubeBuilder.translate_colors pairs (x :: rest) =
        (match lookupColor pairs x with
        | some s =>
          match CubeBuilder.translate_colors pairs rest with
          | .ok l => .ok (s :: l)
          | .error e => .error e
        | none => .error ("Error reading cube symbol " ++ x ++ ".")) := rfl
    rw [hstep, h x (by simp), ih (fun y hy => h y (by simp [hy]))]

lemma countsOk_solved : countsOkSpec Cube.solved_tuple := by decide

/-- The canonicalizer is the identity on reachable configurations: the
deduced symbol dictionary maps every color to itself, translation returns
the configuration unchanged, and the validity check passes. -/
lemma canon_good (c : Config) (hc : GoodOrigin c) :
    CubeBuilder.get_cube_from_colors c = .ok c := by
  obtain ⟨h24, h15, h16, h17, hperm, f, hfperm, hfrot⟩ := hc
  have hjlt : ∀ k, k < 8 → f.getD k 0 < 8 := by
    intro k hk
    have hflen : f.length = 8 := by simpa using hfperm.length_eq
    have hmem : f.getD k 0 ∈ f := getD_mem_nat f k (by omega)
    simpa using hfperm.mem_iff.mp hmem
  have hcub5 : cubieAt c 5 = cubieAt Cube.solved_tuple 5 := by
    have h1 : cubieAt c 5 = [c.getD (3 * 5) "", c.getD (3 * 5 + 1) "", c.getD (3 * 5 + 2) ""] :=
      cubieAt_as_list c 5 (by omega)
    rw [h1]
    show [c.getD 15 "", c.getD 16 "", c.getD 17 ""] = _
    rw [h15, h16, h17]
    decide
  have hf5 : f.getD 5 0 = 5 := by
    have h1 := hfrot 5 (by omega)
    rw [hcub5] at h1
    exact solved_rot_disjoint (f.getD 5 0) (hjlt 5 (by omega)) 5 (by omega) _ h1 (Or.inl rfl)
  have hscan : CubeBuilder.symbol_scan c =
      (some Cube.up_symbol, some Cube.right_symbol, some Cube.front_symbol) := by
    rw [scan_split, h15, h16, h17]
    rw [scan_fold_eval c h24 f hfperm hfrot hf5 1 (by omega) (by omega)
          Cube.left_symbol Cube.back_symbol Cube.up_symbol third_up (by
            intro j hj hj1 hj5 hmem
            rcases (solved_mem_lb j hj).mp hmem with h | h
            · exact hj1 h
            · exact hj5 h),
        scan_fold_eval c h24 f hfperm hfrot hf5 6 (by omega) (by omega)
          Cube.down_symbol Cube.back_symbol Cube.right_symbol third_right (by
            intro j hj hj6 hj5 hmem
            rcases (solved_mem_db j hj).mp hmem with h | h
            · exact hj6 h
            · exact hj5 h),
        scan_fold_eval c h24 f hfperm hfrot hf5 4 (by omega) (by omega)
          Cube.down_symbol Cube.left_symbol Cube.front_symbol third_front (by
            intro j hj hj4 hj5 hmem
            rcases (solved_mem_dl j hj).mp hmem with h | h
            · exact hj4 h
            · exact hj5 h)]
  have hsym : CubeBuilder.get_symbols c = .ok canonPairs := by
    unfold CubeBuilder.get_symbols
    simp only [hscan, h15, h16, h17]
    decide
  have htr : CubeBuilder.translate_colors canonPairs c = .ok c :=
    translate_id canonPairs c (fun x hx => lookup_canonPairs x (hperm.mem_iff.mp hx))
  have hmk : Cube.mk_cube c = .ok c := by
    unfold Cube.mk_cube
    rw [if_neg (by omega)]
  have hvalid : CubeBuilder.check_validity c = true := by
    rw [check_validity_eq c h24]
    refine ⟨(countsOk_perm c Cube.solved_tuple hperm).mpr countsOk_solved, ?_⟩
    intro i hi
    exact ⟨f.getD i 0, hjlt i hi, hfrot i hi⟩
  unfold CubeBuilder.get_cube_from_colors
  rw [hsym]
  show (CubeBuilder.translate_colors canonPairs c).bind _ = _
  rw [htr]
  show (Cube.mk_cube c).bind _ = _
  rw [hmk]
  show (if CubeBuilder.check_validity c = true then (pure c : Except String Config)
        else .error "Invalid cube provided.") = .ok c
  rw [if_pos hvalid]
  rfl

/-- For any configuration reached from the solved one by restricted moves,
the canonicalizer returns it unchanged. -/
lemma canon_identity (seq : List String) (hseq : ∀ m ∈ seq, m ∈ CubeBuilder.solve_moves) :
    CubeBuilder.get_cube_from_colors (applySeq Cube.solved_tuple seq) =
      .ok (applySeq Cube.solved_tuple seq) :=
  canon_good _ (goodOrigin_reach seq _ goodOrigin_solved hseq)

/-- The sticker table of a named move (identity for unknown names; only used
on keys of `Cube.move_dict`). -/
def tableOf (m : String) : List Nat := (Cube.find_move m).getD (List.range 24)

/-- The composed sticker table of a move word. -/
def wordPerm (ms : List String) : List Nat :=
  ms.foldl (fun P m => compPerm P (tableOf m)) (List.range 24)

lemma solve_tableOf : ∀ m ∈ CubeBuilder.solve_moves, Cube.find_move m = some (tableOf m) := by
  decide

lemma solve_tableOf_facts : ∀ m ∈ CubeBuilder.solve_moves,
    (tableOf m).length = 24 ∧ (∀ i ∈ tableOf m, i < 24) ∧ blockRotSpec (tableOf m) := by
  decide

lemma range24_facts : (List.range 24).length = 24 ∧ (∀ i ∈ List.range 24, i < 24) ∧
    blockRotSpec (List.range 24) := by decide

lemma wordPerm_append (ms : List String) (m : String) :
    wordPerm (ms ++ [m]) = compPerm (wordPerm ms) (tableOf m) := by
  unfold wordPerm
  rw [List.foldl_append]
  rfl

lemma compPerm_getD (P p : List Nat) (k : Nat) (hk : k < p.length) :
    (compPerm P p).getD k 0 = P.getD (p.getD k 0) 0 := by
  unfold compPerm
  rw [getD_eq_getElem _ 0 k (by simpa using hk), List.getElem_map, getD_eq_getElem p 0 k hk]

lemma compPerm_facts (P p : List Nat) (hPlen : P.length = 24) (hPent : ∀ i ∈ P, i < 24)
    (hplen : p.length = 24) (hpent : ∀ i ∈ p, i < 24) :
    (compPerm P p).length = 24 ∧ (∀ i ∈ compPerm P p, i < 24) := by
  constructor
  · unfold compPerm; simp [hplen]
  · intro x hx
    obtain ⟨i, hi, rfl⟩ := List.mem_map.mp hx
    have : i < P.length := by rw [hPlen]; exact hpent i hi
    exact hPent _ (getD_mem_nat P i this)

lemma blockRot_comp (P p : List Nat) (hP : blockRotSpec P) (hp : blockRotSpec p)
    (hplen : p.length = 24) : blockRotSpec (compPerm P p) := by
  intro i hi
  obtain ⟨j, hj, hcp⟩ := hp i hi
  have h0 : (compPerm P p).getD (3 * i) 0 = P.getD (p.getD (3 * i) 0) 0 :=
    compPerm_getD P p _ (by omega)
  have h1 : (compPerm P p).getD (3 * i + 1) 0 = P.getD (p.getD (3 * i + 1) 0) 0 :=
    compPerm_getD P p _ (by omega)
  have h2 : (compPerm P p).getD (3 * i + 2) 0 = P.getD (p.getD (3 * i + 2) 0) 0 :=
    compPerm_getD P p _ (by omega)
  obtain ⟨j', hj', hcP⟩ := hP j hj
  refine ⟨j', hj', ?_⟩
  rcases hcp with ⟨e0, e1, e2⟩ | ⟨e0, e1, e2⟩ | ⟨e0, e1, e2⟩ <;>
    rcases hcP with ⟨g0, g1, g2⟩ | ⟨g0, g1, g2⟩ | ⟨g0, g1, g2⟩ <;>
    rw [h0, h1, h2, e0, e1, e2] <;> omega

lemma blockMap_comp (P p : List Nat) (hP : blockRotSpec P) (hp : blockRotSpec p)
    (hplen : p.length = 24) (i : Nat) (hi : i < 8) :
    (compPerm P p).getD (3 * i) 0 / 3 = P.getD (3 * (p.getD (3 * i) 0 / 3)) 0 / 3 := by
  obtain ⟨j, hj, hcp⟩ := hp i hi
  have h0 : (compPerm P p).getD (3 * i) 0 = P.getD (p.getD (3 * i) 0) 0 :=
    compPerm_getD P p _ (by omega)
  obtain ⟨j', hj', hcP⟩ := hP j hj
  have hdiv : p.getD (3 * i) 0 / 3 = j := by
    rcases hcp with ⟨e0, -⟩ | ⟨e0, -⟩ | ⟨e0, -⟩ <;> rw [e0] <;> omega
  rw [h0, hdiv]
  rcases hcp with ⟨e0, -⟩ | ⟨e0, -⟩ | ⟨e0, -⟩ <;> rw [e0] <;>
    rcases hcP with ⟨g0, g1, g2⟩ | ⟨g0, g1, g2⟩ | ⟨g0, g1, g2⟩ <;> omega

lemma wordPerm_facts (ms : List String) (hms : ∀ m ∈ ms, m ∈ CubeBuilder.solve_moves) :
    (wordPerm ms).length = 24 ∧ (∀ i ∈ wordPerm ms, i < 24) ∧ blockRotSpec (wordPerm ms) := by
  induction ms using List.reverseRecOn with
  | nil => exact range24_facts
  | append_singleton xs x ih =>
    have hx : x ∈ CubeBuilder.solve_moves := hms x (by simp)
    have hxs : ∀ m ∈ xs, m ∈ CubeBuilder.solve_moves := fun m hm => hms m (by simp [hm])
    obtain ⟨hPlen, hPent, hPbr⟩ := ih hxs
    obtain ⟨hplen, hpent, hpbr⟩ := solve_tableOf_facts x hx
    rw [wordPerm_append]
    exact ⟨(compPerm_facts _ _ hPlen hPent hplen hpent).1,
      (compPerm_facts _ _ hPlen hPent hplen hpent).2,
      blockRot_comp _ _ hPbr hpbr hplen⟩

lemma applySeq_wordPerm (ms : List String) (hms : ∀ m ∈ ms, m ∈ CubeBuilder.solve_moves)
    (c : Config) (hc : c.length = 24) :
    applySeq c ms = Cube.permute c (wordPerm ms) := by
  induction ms using List.reverseRecOn with
  | nil => exact (permute_range c hc).symm
  | append_singleton xs x ih =>
    have hx : x ∈ CubeBuilder.solve_moves := hms x (by simp)
    have hxs : ∀ m ∈ xs, m ∈ CubeBuilder.solve_moves := fun m hm => hms m (by simp [hm])
    obtain ⟨hPlen, hPent, hPbr⟩ := wordPerm_facts xs hxs
    obtain ⟨hplen, hpent, hpbr⟩ := solve_tableOf_facts x hx
    rw [applySeq_append, ih hxs]
    show Cube.apply_move (Cube.permute c (wordPerm xs)) x = _
    unfold Cube.apply_move
    rw [solve_tableOf x hx, wordPerm_append]
    show Cube.permute (Cube.permute c (wordPerm xs)) (tableOf x) = _
    rw [permute_permute c (wordPerm xs) (tableOf x) (fun i hi => by
          rw [hPlen]; exact hpent i hi)]

/-- An explicit permutation of the 8 cubie blocks from its value and inverse
tables. -/
def mkPerm (v w : List Nat)
    (hl : ∀ i : Fin 8, w.getD (v.getD i.1 0) 0 = i.1 ∧ v.getD i.1 0 < 8 ∧
      v.getD (w.getD i.1 0) 0 = i.1 ∧ w.getD i.1 0 < 8) : Equiv.Perm (Fin 8) :=
  { toFun := fun i => ⟨v.getD i.1 0, (hl i).2.1⟩
    invFun := fun i => ⟨w.getD i.1 0, (hl i).2.2.2⟩
    left_inv := fun i => Fin.ext (hl i).1
    right_inv := fun i => Fin.ext (hl i).2.2.1 }

/-- The block permutation of each restricted move. -/
def blockEquiv (m : String) : Equiv.Perm (Fin 8) :=
  if m = "U" then mkPerm [3, 0, 1, 2, 4, 5, 6, 7] [1, 2, 3, 0, 4, 5, 6, 7] (by decide)
  else if m = "R" then mkPerm [0, 1, 3, 7, 4, 5, 2, 6] [0, 1, 6, 2, 4, 5, 7, 3] (by decide)
  else if m = "F" then mkPerm [4, 1, 2, 0, 7, 5, 6, 3] [3, 1, 2, 7, 0, 5, 6, 4] (by decide)
  else if m = "u" then mkPerm [1, 2, 3, 0, 4, 5, 6, 7] [3, 0, 1, 2, 4, 5, 6, 7] (by decide)
  else if m = "r" then mkPerm [0, 1, 6, 2, 4, 5, 7, 3] [0, 1, 3, 7, 4, 5, 2, 6] (by decide)
  else if m = "f" then mkPerm [3, 1, 2, 7, 0, 5, 6, 4] [4, 1, 2, 0, 7, 5, 6, 3] (by decide)
  else 1

lemma blockEquiv_table : ∀ m ∈ CubeBuilder.solve_moves, ∀ i : Fin 8,
    ((blockEquiv m) i).1 = (tableOf m).getD (3 * i.1) 0 / 3 := by decide

lemma blockEquiv_sign : ∀ m ∈ CubeBuilder.solve_moves,
    Equiv.Perm.sign (blockEquiv m) = -1 := by decide

/-- The block permutation of a move word. -/
def wordEquiv (ms : List String) : Equiv.Perm (Fin 8) := (ms.map blockEquiv).prod

lemma wordEquiv_append (ms : List String) (m : String) :
    wordEquiv (ms ++ [m]) = wordEquiv ms * blockEquiv m := by
  unfold wordEquiv
  rw [List.map_append, List.prod_append]
  simp

lemma wordEquiv_sign (ms : List String) (hms : ∀ m ∈ ms, m ∈ CubeBuilder.solve_moves) :
    Equiv.Perm.sign (wordEquiv ms) = (-1) ^ ms.length := by
  induction ms using List.reverseRecOn with
  | nil =>
    show Equiv.Perm.sign (List.prod []) = _
    simp
  | append_singleton xs x ih =>
    have hx : x ∈ CubeBuilder.solve_moves := hms x (by simp)
    have hxs : ∀ m ∈ xs, m ∈ CubeBuilder.solve_moves := fun m hm => hms m (by simp [hm])
    rw [wordEquiv_append, map_mul, ih hxs, blockEquiv_sign x hx, List.length_append]
    rw [pow_add]
    rfl

lemma wordEquiv_id_bm : ∀ i : Fin 8,
    ((wordEquiv []) i).1 = (List.range 24).getD (3 * i.1) 0 / 3 := by decide

/-- The word's block permutation agrees with the block map of its composed
sticker table. -/
lemma wordEquiv_blockMap (ms : List String) (hms : ∀ m ∈ ms, m ∈ CubeBuilder.solve_moves) :
    ∀ i : Fin 8, ((wordEquiv ms) i).1 = (wordPerm ms).getD (3 * i.1) 0 / 3 := by
  induction ms using List.reverseRecOn with
  | nil => exact wordEquiv_id_bm
  | append_singleton xs x ih =>
    intro i
    have hx : x ∈ CubeBuilder.solve_moves := hms x (by simp)
    have hxs : ∀ m ∈ xs, m ∈ CubeBuilder.solve_moves := fun m hm => hms m (by simp [hm])
    obtain ⟨hPlen, hPent, hPbr⟩ := wordPerm_facts xs hxs
    obtain ⟨hplen, hpent, hpbr⟩ := solve_tableOf_facts x hx
    have hmul : (wordEquiv (xs ++ [x])) i = (wordEquiv xs) ((blockEquiv x) i) := by
      rw [wordEquiv_append]
      exact Equiv.Perm.mul_apply _ _ i
    rw [hmul, ih hxs ((blockEquiv x) i), wordPerm_append,
        blockMap_comp (wordPerm xs) (tableOf x) hPbr hpbr hplen i.1 i.2,
        ← blockEquiv_table x hx i]

/-- A restricted word that returns the solved configuration to itself has
even length (each restricted move is an odd permutation of the blocks). -/
lemma stab_even (ms : List String) (hms : ∀ m ∈ ms, m ∈ CubeBuilder.solve_moves)
    (h : applySeq Cube.solved_tuple ms = Cube.solved_tuple) : ms.length % 2 = 0 := by
  obtain ⟨hPlen, hPent, hPbr⟩ := wordPerm_facts ms hms
  have hperm : Cube.permute Cube.solved_tuple (wordPerm ms) = Cube.solved_tuple := by
    rw [← applySeq_wordPerm ms hms Cube.solved_tuple (by decide)]
    exact h
  have hbm : ∀ i : Fin 8, (wordPerm ms).getD (3 * i.1) 0 / 3 = i.1 := by
    intro i
    obtain ⟨hrot, hlt⟩ := cubie_permute Cube.solved_tuple (by decide) (wordPerm ms)
      hPbr hPlen i.1 i.2
    rw [hperm] at hrot
    exact solved_rot_disjoint _ hlt i.1 i.2 _ hrot (Or.inl rfl)
  have hid : wordEquiv ms = 1 := by
    apply Equiv.ext
    intro i
    apply Fin.ext
    rw [wordEquiv_blockMap ms hms i, hbm i]
    rfl
  have hsign : ((-1 : ℤˣ)) ^ ms.length = 1 := by
    rw [← wordEquiv_sign ms hms, hid]
    simp
  have heven : Even ms.length := by
    by_contra hodd
    rw [Nat.not_even_iff_odd] at hodd
    rw [Odd.neg_one_pow hodd] at hsign
    exact absurd hsign (by decide)
  exact Nat.even_iff.mp heven

/-- Any two restricted-move word lengths reaching the same configuration
from solved have the same parity. -/
lemma reach_parity (z : Config) (n n' : Nat)
    (h1 : ReachN CubeBuilder.solve_moves Cube.solved_tuple z n)
    (h2 : ReachN CubeBuilder.solve_moves Cube.solved_tuple z n') :
    (n + n') % 2 = 0 := by
  obtain ⟨w1, hl1, hm1, ha1⟩ := h1
  obtain ⟨w2, hl2, hm2, ha2⟩ := h2
  have hcancel : applySeq Cube.solved_tuple (w1 ++ invWord w2) = Cube.solved_tuple := by
    rw [applySeq_append, ha1, ← ha2]
    exact invWord_cancel w2 Cube.solved_tuple hm2 (by decide)
  have hmem : ∀ m ∈ w1 ++ invWord w2, m ∈ CubeBuilder.solve_moves := by
    intro x hx
    rcases List.mem_append.mp hx with h | h
    · exact hm1 x h
    · exact invWord_mem w2 hm2 x h
  have := stab_even (w1 ++ invWord w2) hmem hcancel
  rw [List.length_append] at this
  have hiw : (invWord w2).length = n' := by
    unfold invWord
    simp [hl2]
  rw [hl1, hiw] at this
  exact this

/-- A searcher whose layers are both empty produces nothing and stays empty. -/
lemma get_next_empty (s : SearchState) (hc : s.currentLayer = []) (hn : s.nextLayer = []) :
    (Searcher.get_next s).1 = none ∧ (Searcher.get_next s).2.currentLayer = [] ∧
    (Searcher.get_next s).2.nextLayer = [] := by
  obtain ⟨cur, next, vis, cnt, ln, mv⟩ := s
  simp only at hc hn
  subst hc
  subst hn
  simp [Searcher.get_next, Searcher.fuel_for, Searcher.get_next_fuel, Searcher.promote]

/-- With both layers empty, the invariant's completeness fields imply every
reachable configuration has been pulled. -/
lemma exhaust_complete (start : Config) (moves : List String)
    (hmoves : ∀ m ∈ moves, (Cube.find_move m).isSome)
    (s : SearchState) (pulled : List Node) (hinv : SearchInv start moves s pulled)
    (hc : s.currentLayer = []) (hn : s.nextLayer = []) :
    ∀ c d, MinReach moves start c d → c ∈ pulled.map Node.configuration := by
  have hnone : ∀ d', s.layerNumber + 1 ≤ d' → ∀ c', ¬ MinReach moves start c' d' := by
    intro d' hd'
    induction d', hd' using Nat.le_induction with
    | base =>
      intro c' hmin
      rcases hinv.complete_next c' hmin with ⟨nd, hnd, -⟩ | ⟨c2, -, hc2⟩
      · rw [hn] at hnd; cases hnd
      · rw [hc] at hc2; simp at hc2
    | succ d' hd' ih =>
      intro c' hmin
      obtain ⟨c2, hmin2, -⟩ := minReach_pred moves hmoves start c' d' hmin
      exact ih c2 hmin2
  intro c d hmin
  rcases Nat.lt_trichotomy d s.layerNumber with hlt | heq | hgt
  · exact hinv.complete_lt c d hmin hlt
  · subst heq
    rcases hinv.complete_cur c hmin with h | h
    · exact h
    · rw [hc] at h; simp at h
  · exact absurd hmin (hnone d (by omega) c)

/-- All restricted-move words of length at most `δ`. -/
def allSeqs (moves : List String) (δ : Nat) : List (List String) :=
  (List.range (δ + 1)).flatMap (seqsOf moves)

/-- Nodes with distinct configurations at distance at most `δ` are no more
numerous than the words of length at most `δ`. -/
lemma count_bound (start : Config) (moves : List String) (δ : Nat) (P : List Node)
    (hnd : (P.map Node.configuration).Nodup)
    (hp : ∀ p ∈ P, p.depth ≤ δ ∧ MinReach moves start p.configuration p.depth) :
    P.length ≤ (allSeqs moves δ).length := by
  have hsub : (P.map Node.configuration) ⊆ (allSeqs moves δ).map (applySeq start) := by
    intro c hc
    obtain ⟨p, hpP, rfl⟩ := List.mem_map.mp hc
    obtain ⟨hd, ⟨ms, hlen, hmem, happ⟩, -⟩ := hp p hpP
    refine List.mem_map.mpr ⟨ms, ?_, happ⟩
    unfold allSeqs
    rw [List.mem_flatMap]
    exact ⟨ms.length, by rw [List.mem_range]; omega,
      (mem_seqsOf moves ms.length ms).mpr ⟨rfl, hmem⟩⟩
  have hlen := (hnd.subperm hsub).length_le
  rw [List.length_map, List.length_map] at hlen
  exact hlen

lemma big_subset (P : List Node) (configs : List Config) (hnd : configs.Nodup)
    (hsub : ∀ c ∈ configs, c ∈ P.map Node.configuration) :
    configs.length ≤ P.length := by
  have h1 := (hnd.subperm (fun c hc => hsub c hc)).length_le
  rw [List.length_map] at h1
  exact h1

/-- A node list with nondecreasing depths ending in `z` bounds the depth of
every member by that of `z`. -/
lemma mono_last (P0 : List Node) (z : Node)
    (hmono : List.Pairwise (fun a b => Node.depth a ≤ Node.depth b) (P0 ++ [z])) :
    ∀ y ∈ P0 ++ [z], y.depth ≤ z.depth := by
  intro y hy
  rw [List.pairwise_append] at hmono
  rcases List.mem_append.mp hy with h | h
  · exact hmono.2.2 y h z (by simp)
  · rw [List.mem_singleton.mp h]

/-- The full invariant of the lock-step bidirectional trace at iteration `n`:
both searcher invariants, with the pulled lists exactly the heads seen so
far, the current head last-pulled at the current layer depth, and empty
layers on exhaustion. -/
structure TraceInv (origin target : Config) (moves : List String)
    (st : SearchState × SearchState × Option Node × Option Node) (n : Nat)
    (Pf Pb : List Node) : Prop where
  invF : SearchInv origin moves (Solver.trace st n).1 Pf
  invB : SearchInv target moves (Solver.trace st n).2.1 Pb
  lenF : Pf.length ≤ n + 1
  lenB : Pb.length ≤ n + 1
  headsF : ∀ y, y ∈ Pf ↔ ∃ k ≤ n, (Solver.trace st k).2.2.1 = some y
  headsB : ∀ y, y ∈ Pb ↔ ∃ k ≤ n, (Solver.trace st k).2.2.2 = some y
  headF_eq : ∀ y, (Solver.trace st n).2.2.1 = some y → ∃ P0, Pf = P0 ++ [y]
  headB_eq : ∀ y, (Solver.trace st n).2.2.2 = some y → ∃ P0, Pb = P0 ++ [y]
  headF_depth : ∀ y, (Solver.trace st n).2.2.1 = some y →
    y.depth = (Solver.trace st n).1.layerNumber
  headB_depth : ∀ y, (Solver.trace st n).2.2.2 = some y →
    y.depth = (Solver.trace st n).2.1.layerNumber
  lenF_some : ∀ y, (Solver.trace st n).2.2.1 = some y → Pf.length = n + 1
  lenB_some : ∀ y, (Solver.trace st n).2.2.2 = some y → Pb.length = n + 1
  exhF : (Solver.trace st n).2.2.1 = none → (Solver.trace st n).1.currentLayer = [] ∧
    (Solver.trace st n).1.nextLayer = []
  exhB : (Solver.trace st n).2.2.2 = none → (Solver.trace st n).2.1.currentLayer = [] ∧
    (Solver.trace st n).2.1.nextLayer = []

/-- The invariant of one searcher along a run: `f n` is its state after the
`n`-th pull and `h n` the node that pull produced. -/
structure SideInv (start : Config) (moves : List String)
    (f : Nat → SearchState) (h : Nat → Option Node) (n : Nat) (P : List Node) : Prop where
  inv : SearchInv start moves (f n) P
  len : P.length ≤ n + 1
  heads : ∀ y, y ∈ P ↔ ∃ k ≤ n, h k = some y
  head_eq : ∀ y, h n = some y → ∃ P0, P = P0 ++ [y]
  head_depth : ∀ y, h n = some y → y.depth = (f n).layerNumber
  len_some : ∀ y, h n = some y → P.length = n + 1
  exh : h n = none → (f n).currentLayer = [] ∧ (f n).nextLayer = []

lemma side_inv_zero (start : Config) (moves : List String)
    (hmoves : ∀ m ∈ moves, (Cube.find_move m).isSome)
    (f : Nat → SearchState) (h : Nat → Option Node)
    (h0f : f 0 = (Searcher.get_next (Searcher.init start moves)).2)
    (h0h : h 0 = (Searcher.get_next (Searcher.init start moves)).1) :
    ∃ P, SideInv start moves f h 0 P := by
  rcases get_next_spec' start moves hmoves (Searcher.init start moves) []
      (init_inv start moves hmoves) with
    ⟨nd, s', hr, hinv', hdep, -⟩ | ⟨s', hr, hinv', hcur, hnext, -⟩
  · refine ⟨[nd], ?_⟩
    have hf : f 0 = s' := by rw [h0f, hr]
    have hh : h 0 = some nd := by rw [h0h, hr]
    refine ⟨?_, by simp, ?_, ?_, ?_, ?_, ?_⟩
    · rw [hf]; simpa using hinv'
    · intro y
      constructor
      · intro hy
        rw [List.mem_singleton] at hy
        exact ⟨0, le_refl 0, by rw [hh, hy]⟩
      · rintro ⟨k, hk, hky⟩
        have : k = 0 := by omega
        subst this
        rw [hh] at hky
        cases hky
        simp
    · intro y hy
      rw [hh] at hy
      cases hy
      exact ⟨[], rfl⟩
    · intro y hy
      rw [hh] at hy
      cases hy
      rw [hf]
      exact hdep
    · intro y _; rfl
    · intro hnone
      rw [hh] at hnone
      cases hnone
  · refine ⟨[], ?_⟩
    have hf : f 0 = s' := by rw [h0f, hr]
    have hh : h 0 = none := by rw [h0h, hr]
    refine ⟨?_, by simp, ?_, ?_, ?_, ?_, ?_⟩
    · rw [hf]; exact hinv'
    · intro y
      constructor
      · intro hy; cases hy
      · rintro ⟨k, hk, hky⟩
        have : k = 0 := by omega
        subst this
        rw [hh] at hky
        cases hky
    · intro y hy; rw [hh] at hy; cases hy
    · intro y hy; rw [hh] at hy; cases hy
    · intro y hy; rw [hh] at hy; cases hy
    · intro _
      rw [hf]
      exact ⟨hcur, hnext⟩

lemma side_inv_step (start : Config) (moves : List String)
    (hmoves : ∀ m ∈ moves, (Cube.find_move m).isSome)
    (f : Nat → SearchState) (h : Nat → Option Node)
    (hstep : ∀ n, f (n + 1) = (Searcher.get_next (f n)).2 ∧
      h (n + 1) = (Searcher.get_next (f n)).1)
    (n : Nat) (P : List Node) (hi : SideInv start moves f h n P) :
    ∃ P', SideInv start moves f h (n + 1) P' := by
  obtain ⟨hsf, hsh⟩ := hstep n
  rcases get_next_spec' start moves hmoves (f n) P hi.inv with
    ⟨nd, s', hr, hinv', hdep, -⟩ | ⟨s', hr, hinv', hcur, hnext, -⟩
  · refine ⟨P ++ [nd], ?_⟩
    have hf : f (n + 1) = s' := by rw [hsf, hr]
    have hh : h (n + 1) = some nd := by rw [hsh, hr]
    have hPlen : P.length = n + 1 := by
      cases hn : h n with
      | none =>
        exfalso
        obtain ⟨hc, hx⟩ := hi.exh hn
        have := (get_next_empty (f n) hc hx).1
        rw [hr] at this
        cases this
      | some y => exact hi.len_some y hn
    refine ⟨?_, ?_, ?_, ?_, ?_, ?_, ?_⟩
    · rw [hf]; exact hinv'
    · rw [List.length_append, List.length_cons, List.length_nil]; omega
    · intro y
      constructor
      · intro hy
        rcases List.mem_append.mp hy with hp | hp
        · obtain ⟨k, hk, hky⟩ := (hi.heads y).mp hp
          exact ⟨k, by omega, hky⟩
        · rw [List.mem_singleton] at hp
          exact ⟨n + 1, le_refl _, by rw [hh, hp]⟩
      · rintro ⟨k, hk, hky⟩
        rcases Nat.lt_or_ge k (n + 1) with hlt | hge
        · exact List.mem_append.mpr (Or.inl ((hi.heads y).mpr ⟨k, by omega, hky⟩))
        · have : k = n + 1 := by omega
          subst this
          rw [hh] at hky
          cases hky
          simp
    · intro y hy
      rw [hh] at hy
      cases hy
      exact ⟨P, rfl⟩
    · intro y hy
      rw [hh] at hy
      cases hy
      rw [hf]
      exact hdep
    · intro y _
      rw [List.length_append, List.length_cons, List.length_nil]
      omega
    · intro hnone
      rw [hh] at hnone
      cases hnone
  · refine ⟨P, ?_⟩
    have hf : f (n + 1) = s' := by rw [hsf, hr]
    have hh : h (n + 1) = none := by rw [hsh, hr]
    refine ⟨?_, ?_, ?_, ?_, ?_, ?_, ?_⟩
    · rw [hf]; exact hinv'
    · have := hi.len; omega
    · intro y
      constructor
      · intro hy
        obtain ⟨k, hk, hky⟩ := (hi.heads y).mp hy
        exact ⟨k, by omega, hky⟩
      · rintro ⟨k, hk, hky⟩
        rcases Nat.lt_or_ge k (n + 1) with hlt | hge
        · exact (hi.heads y).mpr ⟨k, by omega, hky⟩
        · have : k = n + 1 := by omega
          subst this
          rw [hh] at hky
          cases hky
    · intro y hy; rw [hh] at hy; cases hy
    · intro y hy; rw [hh] at hy; cases hy
    · intro y hy; rw [hh] at hy; cases hy
    · intro _
      rw [hf]
      exact ⟨hcur, hnext⟩

lemma side_inv_exists (start : Config) (moves : List String)
    (hmoves : ∀ m ∈ moves, (Cube.find_move m).isSome)
    (f : Nat → SearchState) (h : Nat → Option Node)
    (h0f : f 0 = (Searcher.get_next (Searcher.init start moves)).2)
    (h0h : h 0 = (Searcher.get_next (Searcher.init start moves)).1)
    (hstep : ∀ n, f (n + 1) = (Searcher.get_next (f n)).2 ∧
      h (n + 1) = (Searcher.get_next (f n)).1) :
    ∀ n, ∃ P, SideInv start moves f h n P := by
  intro n
  induction n with
  | zero => exact side_inv_zero start moves hmoves f h h0f h0h
  | succ n ih =>
    obtain ⟨P, hP⟩ := ih
    exact side_inv_step start moves hmoves f h hstep n P hP

/-- Projections of the lock-step trace: front state, back state, front head,
back head at iteration `n`. -/
def Solver.fsAt (origin target : Config) (moves : List String) (n : Nat) : SearchState :=
  (Solver.trace (Solver.initial_state origin target moves) n).1

def Solver.bsAt (origin target : Config) (moves : List String) (n : Nat) : SearchState :=
  (Solver.trace (Solver.initial_state origin target moves) n).2.1

def Solver.cfAt (origin target : Config) (moves : List String) (n : Nat) : Option Node :=
  (Solver.trace (Solver.initial_state origin target moves) n).2.2.1

def Solver.cbAt (origin target : Config) (moves : List String) (n : Nat) : Option Node :=
  (Solver.trace (Solver.initial_state origin target moves) n).2.2.2

lemma trace_sideF (origin target : Config) (moves : List String)
    (hmoves : ∀ m ∈ moves, (Cube.find_move m).isSome) :
    ∀ n, ∃ P, SideInv origin moves (Solver.fsAt origin target moves)
      (Solver.cfAt origin target moves) n P :=
  side_inv_exists origin moves hmoves _ _ rfl rfl (fun _ => ⟨rfl, rfl⟩)

lemma trace_sideB (origin target : Config) (moves : List String)
    (hmoves : ∀ m ∈ moves, (Cube.find_move m).isSome) :
    ∀ n, ∃ P, SideInv target moves (Solver.bsAt origin target moves)
      (Solver.cbAt origin target moves) n P :=
  side_inv_exists target moves hmoves _ _ rfl rfl (fun _ => ⟨rfl, rfl⟩)

/-- A configuration at distance `δ` is pulled within the first
`(allSeqs moves δcap).length` iterations of its searcher. -/
lemma side_rank (start : Config) (moves : List String)
    (hmoves : ∀ m ∈ moves, (Cube.find_move m).isSome)
    (f : Nat → SearchState) (h : Nat → Option Node)
    (hside : ∀ n, ∃ P, SideInv start moves f h n P)
    (x : Config) (δ : Nat) (hx : MinReach moves start x δ)
    (δcap B : Nat) (hδ : δ ≤ δcap) (hB : (allSeqs moves δcap).length = B) :
    ∃ k ≤ B, ∃ y, h k = some y ∧ y.configuration = x := by
  by_contra hno
  push_neg at hno
  obtain ⟨P, hP⟩ := hside B
  have hxnot : x ∉ P.map Node.configuration := by
    intro hmem
    obtain ⟨p, hpP, hpc⟩ := List.mem_map.mp hmem
    obtain ⟨k, hk, hky⟩ := (hP.heads p).mp hpP
    exact hno k hk p hky hpc
  cases hh : h B with
  | none =>
    obtain ⟨hc, hn⟩ := hP.exh hh
    exact hxnot (exhaust_complete start moves hmoves _ P hP.inv hc hn x δ hx)
  | some hB' =>
    have hlen : P.length = B + 1 := hP.len_some _ hh
    have hlayer : (f B).layerNumber ≤ δ := by
      by_contra hgt
      push_neg at hgt
      exact hxnot (hP.inv.complete_lt x δ hx hgt)
    have hcount := count_bound start moves δcap P hP.inv.nodup (fun p hp =>
      ⟨le_trans (le_trans (hP.inv.pulled_le p hp) hlayer) hδ, hP.inv.pulled_min p hp⟩)
    omega

/-- Enough distinct nearby configurations force the searcher's layer to stay
small. -/
lemma side_layer_bound (start : Config) (moves : List String)
    (f : Nat → SearchState) (h : Nat → Option Node)
    (hside : ∀ n, ∃ P, SideInv start moves f h n P)
    (L : Nat) (configs : List Config) (hnd : configs.Nodup)
    (hrc : ∀ c ∈ configs, ∃ dc ≤ L, MinReach moves start c dc)
    (n : Nat) (hn : n + 1 < configs.length) :
    (f n).layerNumber ≤ L := by
  by_contra hgt
  push_neg at hgt
  obtain ⟨P, hP⟩ := hside n
  have hsub : ∀ c ∈ configs, c ∈ P.map Node.configuration := by
    intro c hc
    obtain ⟨dc, hdc, hmin⟩ := hrc c hc
    exact hP.inv.complete_lt c dc hmin (by omega)
  have h1 := big_subset P configs hnd hsub
  have h2 := hP.len
  omega

/-- Enough distinct reachable configurations rule out early exhaustion. -/
lemma side_no_exhaust (start : Config) (moves : List String)
    (hmoves : ∀ m ∈ moves, (Cube.find_move m).isSome)
    (f : Nat → SearchState) (h : Nat → Option Node)
    (hside : ∀ n, ∃ P, SideInv start moves f h n P)
    (configs : List Config) (hnd : configs.Nodup)
    (hrc : ∀ c ∈ configs, ∃ dc, MinReach moves start c dc)
    (n : Nat) (hn : n + 1 < configs.length) :
    h n ≠ none := by
  intro hh
  obtain ⟨P, hP⟩ := hside n
  obtain ⟨hc, hx⟩ := hP.exh hh
  have hsub : ∀ c ∈ configs, c ∈ P.map Node.configuration := by
    intro c hc'
    obtain ⟨dc, hmin⟩ := hrc c hc'
    exact exhaust_complete start moves hmoves _ P hP.inv hc hx c dc hmin
  have h1 := big_subset P configs hnd hsub
  have h2 := hP.len
  omega

/-- In the `found` outcome, the returned pair comes from the first meeting of
the trace: either the front head found in the back visited map, or (the front
check failing) the back head found in the front visited map. -/
lemma loop_found_detail (startF : Config) (h24 : startF.length = 24) (moves : List String)
    (hmoves : ∀ m ∈ moves, (Cube.find_move m).isSome) :
    ∀ (fuel : Nat) (fs bs : SearchState) (cf cb : Option Node) (pulledF : List Node),
      SearchInv startF moves fs pulledF →
      Nat.factorial 24 + 2 ≤ fuel + pulledF.length →
      ∀ f b, Solver.loop fuel fs bs cf cb = .found f b →
        ∃ n, Solver.runsTo (fs, bs, cf, cb) n ∧
          ∃ hf hb, (Solver.trace (fs, bs, cf, cb) n).2.2.1 = some hf ∧
            (Solver.trace (fs, bs, cf, cb) n).2.2.2 = some hb ∧
            ((f = hf ∧ lookupVisited (Solver.trace (fs, bs, cf, cb) n).2.1.visited
                hf.configuration = some b) ∨
             (lookupVisited (Solver.trace (fs, bs, cf, cb) n).2.1.visited
                hf.configuration = none ∧ b = hb ∧
              lookupVisited (Solver.trace (fs, bs, cf, cb) n).1.visited
                hb.configuration = some f)) := by
  intro fuel
  induction fuel with
  | zero =>
    intro fs bs cf cb pulledF hinv hfuel f b hres
    exfalso
    have := pulled_length_le startF h24 moves fs pulledF hinv
    omega
  | succ fuel ih =>
    intro fs bs cf cb pulledF hinv hfuel f b hres
    cases cf with
    | none =>
      exfalso
      have heq : Solver.loop (fuel + 1) fs bs none cb = .noMeeting := by
        cases cb <;> rfl
      rw [heq] at hres
      cases hres
    | some f' =>
      cases cb with
      | none =>
        exfalso
        have heq : Solver.loop (fuel + 1) fs bs (some f') none = .noMeeting := rfl
        rw [heq] at hres
        cases hres
      | some b' =>
        have hnoexh : ¬ Solver.exhaustAt (fs, bs, some f', some b') 0 := by
          rintro (h | h) <;> cases h
        cases hvb : lookupVisited bs.visited f'.configuration with
        | some bnode =>
          have heq : Solver.loop (fuel + 1) fs bs (some f') (some b') = .found f' bnode := by
            simp only [Solver.loop, hvb]
          rw [heq] at hres
          cases hres
          refine ⟨0, by intro k hk; omega, _, _, rfl, rfl, Or.inl ⟨rfl, ?_⟩⟩
          exact hvb
        | none =>
          cases hvf : lookupVisited fs.visited b'.configuration with
          | some fnode =>
            have heq : Solver.loop (fuel + 1) fs bs (some f') (some b') = .found fnode b' := by
              simp only [Solver.loop, hvb, hvf]
            rw [heq] at hres
            cases hres
            refine ⟨0, by intro k hk; omega, _, _, rfl, rfl, Or.inr ⟨?_, rfl, ?_⟩⟩
            · exact hvb
            · exact hvf
          | none =>
            have hnomeet : ¬ Solver.meetAt (fs, bs, some f', some b') 0 := by
              rintro ⟨f'', b'', hf'', hb'', hor⟩
              cases hf''
              cases hb''
              rcases hor with h | h
              · exact h hvb
              · exact h hvf
            by_cases hbd : (Searcher.get_next fs).2.layerNumber +
                (Searcher.get_next bs).2.layerNumber > Cube.maximum_moves
            · exfalso
              have heq : Solver.loop (fuel + 1) fs bs (some f') (some b') = .boundExceeded := by
                simp only [Solver.loop, hvb, hvf]
                rw [if_pos hbd]
              rw [heq] at hres
              cases hres
            · have heq : Solver.loop (fuel + 1) fs bs (some f') (some b') =
                  Solver.loop fuel (Searcher.get_next fs).2 (Searcher.get_next bs).2
                    (Searcher.get_next fs).1 (Searcher.get_next bs).1 := by
                simp only [Solver.loop, hvb, hvf]
                rw [if_neg hbd]
              have h0 : ¬ Solver.exhaustAt (fs, bs, some f', some b') 0 ∧
                  ¬ Solver.meetAt (fs, bs, some f', some b') 0 ∧
                  ¬ Solver.boundAt (fs, bs, some f', some b') 0 := ⟨hnoexh, hnomeet, hbd⟩
              have hadv : Solver.advance (fs, bs, some f', some b') =
                  ((Searcher.get_next fs).2, (Searcher.get_next bs).2,
                   (Searcher.get_next fs).1, (Searcher.get_next bs).1) := rfl
              rw [heq] at hres
              rcases get_next_spec' startF moves hmoves fs pulledF hinv with
                ⟨nd, fs', hr, hinv', -, -⟩ | ⟨fs', hr, hinv', -, -, -⟩
              · have hr2 : (Searcher.get_next fs).2 = fs' := by rw [hr]
                have hfuel' : Nat.factorial 24 + 2 ≤ fuel + (pulledF ++ [nd]).length := by
                  rw [List.length_append, List.length_cons, List.length_nil]
                  omega
                obtain ⟨n, hrun, hf, hb, hhf, hhb, hor⟩ :=
                  ih (Searcher.get_next fs).2 (Searcher.get_next bs).2
                    (Searcher.get_next fs).1 (Searcher.get_next bs).1 (pulledF ++ [nd])
                    (by rw [hr2]; exact hinv') hfuel' f b hres
                refine ⟨n + 1, runsTo_shift _ n h0 (by rw [hadv]; exact hrun),
                  hf, hb, ?_, ?_, ?_⟩
                · rw [trace_shift, hadv]; exact hhf
                · rw [trace_shift, hadv]; exact hhb
                · rw [trace_shift]; exact hor
              · exfalso
                have hr1 : (Searcher.get_next fs).1 = none := by rw [hr]
                obtain ⟨g, rfl⟩ : ∃ g, fuel = g + 1 := ⟨fuel - 1, by
                  have := pulled_length_le startF h24 moves fs pulledF hinv
                  omega⟩
                have heq2 : Solver.loop (g + 1) (Searcher.get_next fs).2
                    (Searcher.get_next bs).2 (Searcher.get_next fs).1
                    (Searcher.get_next bs).1 = .noMeeting := by
                  rw [hr1]
                  cases (Searcher.get_next bs).1 <;> rfl
                rw [heq2] at hres
                cases hres
def ballWords : List (List String) :=
  [[], ["R"], ["r"], ["F"],
   ["f"], ["U"], ["u"], ["R", "R"],
   ["R", "F"], ["R", "f"], ["R", "U"], ["R", "u"],
   ["r", "F"], ["r", "f"], ["r", "U"], ["r", "u"],
   ["F", "R"], ["F", "r"], ["F", "F"], ["F", "U"],
   ["F", "u"], ["f", "R"], ["f", "r"], ["f", "U"],
   ["f", "u"], ["U", "R"], ["U", "r"], ["U", "F"],
   ["U", "f"], ["U", "U"], ["u", "R"], ["u", "r"],
   ["u", "F"], ["u", "f"], ["R", "R", "F"], ["R", "R", "f"],
   ["R", "R", "U"], ["R", "R", "u"], ["R", "F", "R"], ["R", "F", "r"],
   ["R", "F", "F"], ["R", "F", "U"], ["R", "F", "u"], ["R", "f", "R"],
   ["R", "f", "r"], ["R", "f", "U"], ["R", "f", "u"], ["R", "U", "R"],
   ["R", "U", "r"], ["R", "U", "F"], ["R", "U", "f"], ["R", "U", "U"],
   ["R", "u", "R"], ["R", "u", "r"], ["R", "u", "F"], ["R", "u", "f"],
   ["r", "F", "R"], ["r", "F", "r"], ["r", "F", "F"], ["r", "F", "U"],
   ["r", "F", "u"], ["r", "f", "R"], ["r", "f", "r"], ["r", "f", "U"],
   ["r", "f", "u"], ["r", "U", "R"], ["r", "U", "r"], ["r", "U", "F"],
   ["r", "U", "f"], ["r", "U", "U"], ["r", "u", "R"], ["r", "u", "r"],
   ["r", "u", "F"], ["r", "u", "f"], ["F", "R", "R"], ["F", "R", "F"],
   ["F", "R", "f"], ["F", "R", "U"], ["F", "R", "u"], ["F", "r", "F"],
   ["F", "r", "f"], ["F", "r", "U"], ["F", "r", "u"], ["F", "F", "R"],
   ["F", "F", "r"], ["F", "F", "U"], ["F", "F", "u"], ["F", "U", "R"],
   ["F", "U", "r"], ["F", "U", "F"], ["F", "U", "f"], ["F", "U", "U"],
   ["F", "u", "R"], ["F", "u", "r"], ["F", "u", "F"], ["F", "u", "f"],
   ["f", "R", "R"], ["f", "R", "F"], ["f", "R", "f"], ["f", "R", "U"],
   ["f", "R", "u"], ["f", "r", "F"], ["f", "r", "f"], ["f", "r", "U"],
   ["f", "r", "u"], ["f", "U", "R"], ["f", "U", "r"], ["f", "U", "F"],
   ["f", "U", "f"], ["f", "U", "U"], ["f", "u", "R"], ["f", "u", "r"],
   ["f", "u", "F"], ["f", "u", "f"], ["U", "R", "R"], ["U", "R", "F"],
   ["U", "R", "f"], ["U", "R", "U"], ["U", "R", "u"], ["U", "r", "F"],
   ["U", "r", "f"], ["U", "r", "U"], ["U", "r", "u"], ["U", "F", "R"],
   ["U", "F", "r"], ["U", "F", "F"], ["U", "F", "U"], ["U", "F", "u"],
   ["U", "f", "R"], ["U", "f", "r"], ["U", "f", "U"], ["U", "f", "u"],
   ["U", "U", "R"], ["U", "U", "r"], ["U", "U", "F"], ["U", "U", "f"],
   ["u", "R", "R"], ["u", "R", "F"], ["u", "R", "f"], ["u", "R", "U"],
   ["u", "R", "u"], ["u", "r", "F"], ["u", "r", "f"], ["u", "r", "U"],
   ["u", "r", "u"], ["u", "F", "R"], ["u", "F", "r"], ["u", "F", "F"],
   ["u", "F", "U"], ["u", "F", "u"], ["u", "f", "R"], ["u", "f", "r"],
   ["u", "f", "U"], ["u", "f", "u"], ["R", "R", "F", "R"], ["R", "R", "F", "r"],
   ["R", "R", "F", "F"], ["R", "R", "F", "U"], ["R", "R", "F", "u"], ["R", "R", "f", "R"],
   ["R", "R", "f", "r"], ["R", "R", "f", "U"], ["R", "R", "f", "u"], ["R", "R", "U", "R"],
   ["R", "R", "U", "r"], ["R", "R", "U", "F"], ["R", "R", "U", "f"], ["R", "R", "U", "U"],
   ["R", "R", "u", "R"], ["R", "R", "u", "r"], ["R", "R", "u", "F"], ["R", "R", "u", "f"],
   ["R", "F", "R", "R"], ["R", "F", "R", "F"], ["R", "F", "R", "f"], ["R", "F", "R", "U"],
   ["R", "F", "R", "u"], ["R", "F", "r", "F"], ["R", "F", "r", "f"], ["R", "F", "r", "U"],
   ["R", "F", "r", "u"], ["R", "F", "F", "R"], ["R", "F", "F", "r"], ["R", "F", "F", "U"],
   ["R", "F", "F", "u"], ["R", "F", "U", "R"], ["R", "F", "U", "r"], ["R", "F", "U", "F"],
   ["R", "F", "U", "f"], ["R", "F", "U", "U"], ["R", "F", "u", "R"], ["R", "F", "u", "r"],
   ["R", "F", "u", "F"], ["R", "F", "u", "f"], ["R", "f", "R", "R"], ["R", "f", "R", "F"],
   ["R", "f", "R", "f"], ["R", "f", "R", "U"], ["R", "f", "R", "u"], ["R", "f", "r", "F"],
   ["R", "f", "r", "f"], ["R", "f", "r", "U"], ["R", "f", "r", "u"], ["R", "f", "U", "R"],
   ["R", "f", "U", "r"], ["R", "f", "U", "F"], ["R", "f", "U", "f"], ["R", "f", "U", "U"],
   ["R", "f", "u", "R"], ["R", "f", "u", "r"], ["R", "f", "u", "F"], ["R", "f", "u", "f"],
   ["R", "U", "R", "R"], ["R", "U", "R", "F"], ["R", "U", "R", "f"], ["R", "U", "R", "U"],
   ["R", "U", "R", "u"], ["R", "U", "r", "F"], ["R", "U", "r", "f"], ["R", "U", "r", "U"],
   ["R", "U", "r", "u"], ["R", "U", "F", "R"], ["R", "U", "F", "r"], ["R", "U", "F", "F"],
   ["R", "U", "F", "U"], ["R", "U", "F", "u"], ["R", "U", "f", "R"], ["R", "U", "f", "r"],
   ["R", "U", "f", "U"], ["R", "U", "f", "u"], ["R", "U", "U", "R"], ["R", "U", "U", "r"],
   ["R", "U", "U", "F"], ["R", "U", "U", "f"], ["R", "u", "R", "R"], ["R", "u", "R", "F"],
   ["R", "u", "R", "f"], ["R", "u", "R", "U"], ["R", "u", "R", "u"], ["R", "u", "r", "F"],
   ["R", "u", "r", "f"], ["R", "u", "r", "U"], ["R", "u", "r", "u"], ["R", "u", "F", "R"],
   ["R", "u", "F", "r"], ["R", "u", "F", "F"], ["R", "u", "F", "U"], ["R", "u", "F", "u"],
   ["R", "u", "f", "R"], ["R", "u", "f", "r"], ["R", "u", "f", "U"], ["R", "u", "f", "u"],
   ["r", "F", "R", "R"], ["r", "F", "R", "F"], ["r", "F", "R", "f"], ["r", "F", "R", "U"],
   ["r", "F", "R", "u"], ["r", "F", "r", "F"], ["r", "F", "r", "f"], ["r", "F", "r", "U"],
   ["r", "F", "r", "u"], ["r", "F", "F", "R"], ["r", "F", "F", "r"], ["r", "F", "F", "U"],
   ["r", "F", "F", "u"], ["r", "F", "U", "R"], ["r", "F", "U", "r"], ["r", "F", "U", "F"],
   ["r", "F", "U", "f"], ["r", "F", "U", "U"], ["r", "F", "u", "R"], ["r", "F", "u", "r"],
   ["r", "F", "u", "F"], ["r", "F", "u", "f"], ["r", "f", "R", "R"], ["r", "f", "R", "F"],
   ["r", "f", "R", "f"], ["r", "f", "R", "U"], ["r", "f", "R", "u"], ["r", "f", "r", "F"],
   ["r", "f", "r", "f"], ["r", "f", "r", "U"], ["r", "f", "r", "u"], ["r", "f", "U", "R"],
   ["r", "f", "U", "r"], ["r", "f", "U", "F"], ["r", "f", "U", "f"], ["r", "f", "U", "U"],
   ["r", "f", "u", "R"], ["r", "f", "u", "r"], ["r", "f", "u", "F"], ["r", "f", "u", "f"],
   ["r", "U", "R", "R"], ["r", "U", "R", "F"], ["r", "U", "R", "f"], ["r", "U", "R", "U"],
   ["r", "U", "R", "u"], ["r", "U", "r", "F"], ["r", "U", "r", "f"], ["r", "U", "r", "U"]
  ]

set_option maxRecDepth 100000 in
lemma ballWords_len : ballWords.length = 300 := by decide

set_option maxRecDepth 100000 in
lemma ballWords_short : ∀ w ∈ ballWords, w.length ≤ 4 ∧
    ∀ m ∈ w, m ∈ CubeBuilder.solve_moves := by decide

/-- A compact numeric fingerprint of a configuration, used to keep the
distinctness check of the 300 ball configurations cheap. -/
def labelIdx (s : String) : Nat :=
  if s = "up" then 0 else if s = "front" then 1 else if s = "left" then 2
  else if s = "right" then 3 else if s = "back" then 4 else if s = "down" then 5 else 6

def configCode (c : Config) : Nat := c.foldl (fun a s => a * 7 + labelIdx s) 0

set_option maxRecDepth 100000 in
lemma ballCodes_nodup :
    ((ballWords.map (fun w => configCode (applySeq Cube.solved_tuple w))).Nodup) := by decide

lemma ballWords_nodup : ((ballWords.map (applySeq Cube.solved_tuple)).Nodup) := by
  apply List.Nodup.of_map configCode
  rw [List.map_map]
  exact ballCodes_nodup

lemma minReach_symm (a b : Config) (ha : a.length = 24) (hb : b.length = 24) (n : Nat)
    (h : MinReach CubeBuilder.solve_moves a b n) : MinReach CubeBuilder.solve_moves b a n := by
  refine ⟨reachN_symm a b n ha h.1, ?_⟩
  intro j hj hR
  exact h.2 j hj (reachN_symm b a j hb hR)

/-- The first meeting of the bidirectional run sits exactly on a geodesic:
the two found nodes are well-formed, meet on a common configuration, and
their depths sum to the distance between origin and target. -/
lemma meet_sum (origin : Config) (h24o : origin.length = 24)
    (k : Nat) (hk : ReachN CubeBuilder.solve_moves Cube.solved_tuple origin k)
    (d : Nat) (hd : MinReach CubeBuilder.solve_moves origin Cube.solved_tuple d)
    (n : Nat)
    (hrun : Solver.runsTo (Solver.initial_state origin Cube.solved_tuple
      CubeBuilder.solve_moves) n)
    (f b hf hb : Node)
    (hhf : Solver.cfAt origin Cube.solved_tuple CubeBuilder.solve_moves n = some hf)
    (hhb : Solver.cbAt origin Cube.solved_tuple CubeBuilder.solve_moves n = some hb)
    (hor : (f = hf ∧ lookupVisited
        (Solver.bsAt origin Cube.solved_tuple CubeBuilder.solve_moves n).visited
        hf.configuration = some b) ∨
      (lookupVisited (Solver.bsAt origin Cube.solved_tuple CubeBuilder.solve_moves n).visited
        hf.configuration = none ∧ b = hb ∧
       lookupVisited (Solver.fsAt origin Cube.solved_tuple CubeBuilder.solve_moves n).visited
        hb.configuration = some f)) :
    Node.ok origin CubeBuilder.solve_moves f ∧
    Node.ok Cube.solved_tuple CubeBuilder.solve_moves b ∧
    f.configuration = b.configuration ∧
    f.depth + b.depth = d := by
  have hmv : ∀ m ∈ CubeBuilder.solve_moves, (Cube.find_move m).isSome := by decide
  obtain ⟨PF, hPF⟩ := trace_sideF origin Cube.solved_tuple CubeBuilder.solve_moves hmv n
  obtain ⟨PB, hPB⟩ := trace_sideB origin Cube.solved_tuple CubeBuilder.solve_moves hmv n
  have hfPF : hf ∈ PF := (hPF.heads hf).mpr ⟨n, le_refl n, hhf⟩
  have hbPB : hb ∈ PB := (hPB.heads hb).mpr ⟨n, le_refl n, hhb⟩
  have hmain : f ∈ PF ∧ b ∈ PB ∧ f.configuration = b.configuration := by
    rcases hor with ⟨rfl, hlk⟩ | ⟨hnone, rfl, hlk⟩
    · rw [hPB.inv.visited_eq] at hlk
      have h1 := lookupVisited_some_mem PB f.configuration b hlk
      exact ⟨hfPF, h1.1, h1.2.symm⟩
    · rw [hPF.inv.visited_eq] at hlk
      have h1 := lookupVisited_some_mem PF b.configuration f hlk
      exact ⟨h1.1, hbPB, h1.2⟩
  obtain ⟨hfPFm, hbPBm, hcfg⟩ := hmain
  have hokf : Node.ok origin CubeBuilder.solve_moves f := hPF.inv.pulled_ok f hfPFm
  have hokb : Node.ok Cube.solved_tuple CubeBuilder.solve_moves b := hPB.inv.pulled_ok b hbPBm
  have hminf : MinReach CubeBuilder.solve_moves origin f.configuration f.depth :=
    hPF.inv.pulled_min f hfPFm
  have hminb : MinReach CubeBuilder.solve_moves Cube.solved_tuple b.configuration b.depth :=
    hPB.inv.pulled_min b hbPBm
  have hminb' : MinReach CubeBuilder.solve_moves Cube.solved_tuple f.configuration b.depth := by
    rw [hcfg]; exact hminb
  refine ⟨hokf, hokb, hcfg, ?_⟩
  have hm24 : f.configuration.length = 24 :=
    node_ok_length origin h24o CubeBuilder.solve_moves f hokf
  have hlow : d ≤ f.depth + b.depth := by
    by_contra hlt
    push_neg at hlt
    have r2 : ReachN CubeBuilder.solve_moves f.configuration Cube.solved_tuple b.depth :=
      reachN_symm Cube.solved_tuple f.configuration b.depth (by decide) hminb'.1
    exact hd.2 (f.depth + b.depth) hlt
      (reachN_trans origin f.configuration Cube.solved_tuple f.depth b.depth hminf.1 r2)
  have hpar : (f.depth + b.depth) % 2 = d % 2 := by
    have R1 : ReachN CubeBuilder.solve_moves Cube.solved_tuple f.configuration (k + f.depth) :=
      reachN_trans Cube.solved_tuple origin f.configuration k f.depth hk hminf.1
    have P1 := reach_parity f.configuration (k + f.depth) b.depth R1 hminb'.1
    have R3 : ReachN CubeBuilder.solve_moves Cube.solved_tuple Cube.solved_tuple (k + d) :=
      reachN_trans Cube.solved_tuple origin Cube.solved_tuple k d hk hd.1
    have R4 : ReachN CubeBuilder.solve_moves Cube.solved_tuple Cube.solved_tuple 0 :=
      ⟨[], rfl, by simp, rfl⟩
    have P2 := reach_parity Cube.solved_tuple (k + d) 0 R3 R4
    omega
  by_contra hne
  have ha1 : 1 ≤ f.depth := by
    by_contra h0
    push_neg at h0
    have ha0 : f.depth = 0 := by omega
    have hmo : f.configuration = origin := by
      have := hminf.1
      rw [ha0] at this
      exact (reachN_zero CubeBuilder.solve_moves origin f.configuration).mp this
    have h1 : MinReach CubeBuilder.solve_moves Cube.solved_tuple origin b.depth := by
      rw [← hmo]
      exact hminb'
    have h2 : MinReach CubeBuilder.solve_moves Cube.solved_tuple origin d :=
      minReach_symm origin Cube.solved_tuple h24o (by decide) d hd
    have hbd : b.depth = d :=
      minReach_unique CubeBuilder.solve_moves Cube.solved_tuple origin b.depth d h1 h2
    omega
  have hb1 : 1 ≤ b.depth := by
    by_contra h0
    push_neg at h0
    have hb0 : b.depth = 0 := by omega
    have hms : f.configuration = Cube.solved_tuple := by
      have := hminb'.1
      rw [hb0] at this
      exact (reachN_zero CubeBuilder.solve_moves Cube.solved_tuple f.configuration).mp this
    have h1 : MinReach CubeBuilder.solve_moves origin Cube.solved_tuple f.depth := by
      rw [← hms]
      exact hminf
    have had : f.depth = d :=
      minReach_unique CubeBuilder.solve_moves origin Cube.solved_tuple f.depth d h1 hd
    omega
  have hup : d + 2 ≤ f.depth + b.depth := by omega
  obtain ⟨ms, hmslen, hmsmem, hmsapp⟩ := hd.1
  have hα1 : (d + 1 - b.depth) + 1 ≤ f.depth := by omega
  have hαd : d + 1 - b.depth ≤ d := by omega
  have htakelen : (ms.take (d + 1 - b.depth)).length = d + 1 - b.depth := by
    rw [List.length_take, hmslen]
    omega
  have htakemem : ∀ m ∈ ms.take (d + 1 - b.depth), m ∈ CubeBuilder.solve_moves :=
    fun m hm => hmsmem m (List.mem_of_mem_take hm)
  have hreachx : ReachN CubeBuilder.solve_moves origin
      (applySeq origin (ms.take (d + 1 - b.depth))) (d + 1 - b.depth) :=
    ⟨ms.take (d + 1 - b.depth), htakelen, htakemem, rfl⟩
  obtain ⟨δx, hδxle, hδxmin⟩ := reach_least CubeBuilder.solve_moves origin _ _ hreachx
  have hx24 : (applySeq origin (ms.take (d + 1 - b.depth))).length = 24 :=
    applySeq_length (ms.take (d + 1 - b.depth)) origin
      (fun m hm => solve_moves_some m (htakemem m hm)) h24o
  have hsuffix : applySeq (applySeq origin (ms.take (d + 1 - b.depth)))
      (ms.drop (d + 1 - b.depth)) = Cube.solved_tuple := by
    rw [← applySeq_append, List.take_append_drop, hmsapp]
  have hdroplen : (ms.drop (d + 1 - b.depth)).length = d - (d + 1 - b.depth) := by
    rw [List.length_drop, hmslen]
  have hrx2 : ReachN CubeBuilder.solve_moves (applySeq origin (ms.take (d + 1 - b.depth)))
      Cube.solved_tuple (d - (d + 1 - b.depth)) :=
    ⟨ms.drop (d + 1 - b.depth), hdroplen,
     fun m hm => hmsmem m (List.mem_of_mem_drop hm), hsuffix⟩
  have hrx3 : ReachN CubeBuilder.solve_moves Cube.solved_tuple
      (applySeq origin (ms.take (d + 1 - b.depth))) (d - (d + 1 - b.depth)) :=
    reachN_symm _ _ _ hx24 hrx2
  obtain ⟨δbx, hδbxle, hδbxmin⟩ := reach_least CubeBuilder.solve_moves Cube.solved_tuple _ _ hrx3
  have hδx1 : δx + 1 ≤ f.depth := by omega
  have hδb1 : δbx + 1 ≤ b.depth := by omega
  have hlayF : f.depth ≤
      (Solver.fsAt origin Cube.solved_tuple CubeBuilder.solve_moves n).layerNumber :=
    hPF.inv.pulled_le f hfPFm
  have hxin : applySeq origin (ms.take (d + 1 - b.depth)) ∈ PF.map Node.configuration :=
    hPF.inv.complete_lt _ δx hδxmin (by omega)
  obtain ⟨yx, hyxPF, hyxcfg⟩ := List.mem_map.mp hxin
  obtain ⟨kx, hkx, hkxh⟩ := (hPF.heads yx).mp hyxPF
  have hkxlt : kx < n := by
    rcases Nat.lt_or_ge kx n with h | h
    · exact h
    · exfalso
      have hkxn : kx = n := by omega
      subst hkxn
      rw [hhf] at hkxh
      have hyxhf : yx = hf := by
        injection hkxh with h'
        exact h'.symm
      subst hyxhf
      have hdep := hPF.head_depth yx hhf
      have hmin2 : MinReach CubeBuilder.solve_moves origin
          (applySeq origin (ms.take (d + 1 - b.depth))) yx.depth := by
        rw [← hyxcfg]
        exact hPF.inv.pulled_min yx hyxPF
      have hδeq : δx = yx.depth :=
        minReach_unique CubeBuilder.solve_moves origin _ δx yx.depth hδxmin hmin2
      omega
  have hlayB : b.depth ≤
      (Solver.bsAt origin Cube.solved_tuple CubeBuilder.solve_moves n).layerNumber :=
    hPB.inv.pulled_le b hbPBm
  have hxinB : applySeq origin (ms.take (d + 1 - b.depth)) ∈ PB.map Node.configuration :=
    hPB.inv.complete_lt _ δbx hδbxmin (by omega)
  obtain ⟨yb, hybPB, hybcfg⟩ := List.mem_map.mp hxinB
  obtain ⟨kb, hkb, hkbh⟩ := (hPB.heads yb).mp hybPB
  have hkblt : kb < n := by
    rcases Nat.lt_or_ge kb n with h | h
    · exact h
    · exfalso
      have hkbn : kb = n := by omega
      subst hkbn
      rw [hhb] at hkbh
      have hybhb : yb = hb := by
        injection hkbh with h'
        exact h'.symm
      subst hybhb
      obtain ⟨P0, hP0⟩ := hPB.head_eq yb hhb
      have hmono := hPB.inv.pulled_mono
      rw [hP0] at hmono
      have hble : b.depth ≤ yb.depth := mono_last P0 yb hmono b (hP0 ▸ hbPBm)
      have hmin2 : MinReach CubeBuilder.solve_moves Cube.solved_tuple
          (applySeq origin (ms.take (d + 1 - b.depth))) yb.depth := by
        rw [← hybcfg]
        exact hPB.inv.pulled_min yb hybPB
      have hδeq : δbx = yb.depth :=
        minReach_unique CubeBuilder.solve_moves Cube.solved_tuple _ δbx yb.depth hδbxmin hmin2
      omega
  have hKlt : max kx kb < n := by omega
  have hnx := (hrun (max kx kb) hKlt).1
  have hnm := (hrun (max kx kb) hKlt).2.1
  apply hnm
  cases hcfK : Solver.cfAt origin Cube.solved_tuple CubeBuilder.solve_moves (max kx kb) with
  | none => exact absurd (Or.inl hcfK) hnx
  | some fK =>
    cases hcbK : Solver.cbAt origin Cube.solved_tuple CubeBuilder.solve_moves (max kx kb) with
    | none => exact absurd (Or.inr hcbK) hnx
    | some bK =>
      refine ⟨fK, bK, hcfK, hcbK, ?_⟩
      rcases Nat.le_total kb kx with hle | hle
      · left
        have hKeq : max kx kb = kx := by omega
        have hfKyx : fK = yx := by
          rw [hKeq] at hcfK
          rw [hcfK] at hkxh
          exact Option.some.inj hkxh
        obtain ⟨PBK, hPBK⟩ :=
          trace_sideB origin Cube.solved_tuple CubeBuilder.solve_moves hmv (max kx kb)
        have hybK : yb ∈ PBK := (hPBK.heads yb).mpr ⟨kb, by omega, hkbh⟩
        show lookupVisited
          (Solver.bsAt origin Cube.solved_tuple CubeBuilder.solve_moves (max kx kb)).visited
          fK.configuration ≠ none
        rw [hPBK.inv.visited_eq]
        intro heq
        rw [lookupVisited_none_iff] at heq
        apply heq
        rw [hfKyx, hyxcfg, ← hybcfg]
        exact List.mem_map.mpr ⟨yb, hybK, rfl⟩
      · right
        have hKeq : max kx kb = kb := by omega
        have hbKyb : bK = yb := by
          rw [hKeq] at hcbK
          rw [hcbK] at hkbh
          exact Option.some.inj hkbh
        obtain ⟨PFK, hPFK⟩ :=
          trace_sideF origin Cube.solved_tuple CubeBuilder.solve_moves hmv (max kx kb)
        have hyxK : yx ∈ PFK := (hPFK.heads yx).mpr ⟨kx, by omega, hkxh⟩
        show lookupVisited
          (Solver.fsAt origin Cube.solved_tuple CubeBuilder.solve_moves (max kx kb)).visited
          bK.configuration ≠ none
        rw [hPFK.inv.visited_eq]
        intro heq
        rw [lookupVisited_none_iff] at heq
        apply heq
        rw [hbKyb, hybcfg, ← hyxcfg]
        exact List.mem_map.mpr ⟨yx, hyxK, rfl⟩

set_option maxRecDepth 100000 in
lemma allSeqs3_len : (allSeqs CubeBuilder.solve_moves 3).length = 259 := by decide

/-- Claim C1: for every scramble of at most 6 restricted moves applied to the
solved configuration, the canonicalizer returns the scrambled configuration
unchanged and `Solver.get_solution` returns a move sequence no longer than
the scramble which takes the configuration back to the solved one; an
already-solved configuration yields the empty sequence. -/
theorem claim_C1 (seq : List String) (hseq : ∀ m ∈ seq, m ∈ CubeBuilder.solve_moves)
    (hlen : seq.length ≤ 6) :
    CubeBuilder.get_cube_from_colors (applySeq Cube.solved_tuple seq) =
      .ok (applySeq Cube.solved_tuple seq) ∧
    ∃ sol : List String,
      Solver.get_solution (applySeq Cube.solved_tuple seq) Cube.solved_tuple
        CubeBuilder.solve_moves = .ok sol ∧
      sol.length ≤ seq.length ∧
      Cube.do_moves (applySeq Cube.solved_tuple seq) sol = .ok Cube.solved_tuple ∧
      (applySeq Cube.solved_tuple seq = Cube.solved_tuple → sol = []) := by
  have hmv : ∀ m ∈ CubeBuilder.solve_moves, (Cube.find_move m).isSome := by decide
  have hcanon := canon_identity seq hseq
  refine ⟨hcanon, ?_⟩
  have h24o : (applySeq Cube.solved_tuple seq).length = 24 :=
    applySeq_length seq Cube.solved_tuple
      (fun m hm => solve_moves_some m (hseq m hm)) (by decide)
  have hk : ReachN CubeBuilder.solve_moves Cube.solved_tuple
      (applySeq Cube.solved_tuple seq) seq.length := ⟨seq, rfl, hseq, rfl⟩
  have hko : ReachN CubeBuilder.solve_moves (applySeq Cube.solved_tuple seq)
      Cube.solved_tuple seq.length := reachN_symm _ _ _ (by decide) hk
  obtain ⟨d, hdk, hd⟩ := reach_least _ _ _ _ hko
  have hd6 : d ≤ 6 := le_trans hdk hlen
  -- ball facts
  have hB_len : (ballWords.map (applySeq Cube.solved_tuple)).length = 300 := by
    rw [List.length_map, ballWords_len]
  have hB_back : ∀ c ∈ ballWords.map (applySeq Cube.solved_tuple),
      ∃ dc ≤ 4, MinReach CubeBuilder.solve_moves Cube.solved_tuple c dc := by
    intro c hc
    obtain ⟨w, hw, rfl⟩ := List.mem_map.mp hc
    obtain ⟨hwlen, hwmem⟩ := ballWords_short w hw
    obtain ⟨dc, hdc, hmin⟩ := reach_least CubeBuilder.solve_moves Cube.solved_tuple _
      w.length ⟨w, rfl, hwmem, rfl⟩
    exact ⟨dc, by omega, hmin⟩
  have hB_front : ∀ c ∈ ballWords.map (applySeq Cube.solved_tuple),
      ∃ dc ≤ 10, MinReach CubeBuilder.solve_moves (applySeq Cube.solved_tuple seq) c dc := by
    intro c hc
    obtain ⟨w, hw, rfl⟩ := List.mem_map.mp hc
    obtain ⟨hwlen, hwmem⟩ := ballWords_short w hw
    have hr : ReachN CubeBuilder.solve_moves (applySeq Cube.solved_tuple seq)
        (applySeq Cube.solved_tuple w) (d + w.length) :=
      reachN_trans _ _ _ d w.length hd.1 ⟨w, rfl, hwmem, rfl⟩
    obtain ⟨dc, hdc, hmin⟩ := reach_least CubeBuilder.solve_moves _ _ _ hr
    exact ⟨dc, by omega, hmin⟩
  -- no early exhaustion
  have hnoexhF : ∀ j, j + 1 < 300 →
      Solver.cfAt (applySeq Cube.solved_tuple seq) Cube.solved_tuple
        CubeBuilder.solve_moves j ≠ none := by
    intro j hj
    refine side_no_exhaust _ _ hmv _ _
      (trace_sideF (applySeq Cube.solved_tuple seq) Cube.solved_tuple
        CubeBuilder.solve_moves hmv)
      (ballWords.map (applySeq Cube.solved_tuple)) ballWords_nodup ?_ j (by omega)
    intro c hc
    obtain ⟨dc, -, hmin⟩ := hB_front c hc
    exact ⟨dc, hmin⟩
  have hnoexhB : ∀ j, j + 1 < 300 →
      Solver.cbAt (applySeq Cube.solved_tuple seq) Cube.solved_tuple
        CubeBuilder.solve_moves j ≠ none := by
    intro j hj
    refine side_no_exhaust _ _ hmv _ _
      (trace_sideB (applySeq Cube.solved_tuple seq) Cube.solved_tuple
        CubeBuilder.solve_moves hmv)
      (ballWords.map (applySeq Cube.solved_tuple)) ballWords_nodup ?_ j (by omega)
    intro c hc
    obtain ⟨dc, -, hmin⟩ := hB_back c hc
    exact ⟨dc, hmin⟩
  -- layer bounds
  have hlayF : ∀ j, j + 1 < 300 →
      (Solver.fsAt (applySeq Cube.solved_tuple seq) Cube.solved_tuple
        CubeBuilder.solve_moves j).layerNumber ≤ 10 := by
    intro j hj
    exact side_layer_bound _ _ _ _
      (trace_sideF (applySeq Cube.solved_tuple seq) Cube.solved_tuple
        CubeBuilder.solve_moves hmv)
      10 (ballWords.map (applySeq Cube.solved_tuple)) ballWords_nodup hB_front j (by omega)
  have hlayB : ∀ j, j + 1 < 300 →
      (Solver.bsAt (applySeq Cube.solved_tuple seq) Cube.solved_tuple
        CubeBuilder.solve_moves j).layerNumber ≤ 4 := by
    intro j hj
    exact side_layer_bound _ _ _ _
      (trace_sideB (applySeq Cube.solved_tuple seq) Cube.solved_tuple
        CubeBuilder.solve_moves hmv)
      4 (ballWords.map (applySeq Cube.solved_tuple)) ballWords_nodup hB_back j (by omega)
  -- the geodesic midpoint and its ranks
  obtain ⟨ms, hmslen, hmsmem, hmsapp⟩ := hd.1
  have htakelen : (ms.take (d - d / 2)).length = d - d / 2 := by
    rw [List.length_take, hmslen]
    omega
  have htakemem : ∀ m ∈ ms.take (d - d / 2), m ∈ CubeBuilder.solve_moves :=
    fun m hm => hmsmem m (List.mem_of_mem_take hm)
  obtain ⟨δf, hδfle, hδfmin⟩ := reach_least CubeBuilder.solve_moves
    (applySeq Cube.solved_tuple seq) _ _
    (⟨ms.take (d - d / 2), htakelen, htakemem, rfl⟩ :
      ReachN CubeBuilder.solve_moves (applySeq Cube.solved_tuple seq)
        (applySeq (applySeq Cube.solved_tuple seq) (ms.take (d - d / 2))) (d - d / 2))
  have hx24 : (applySeq (applySeq Cube.solved_tuple seq) (ms.take (d - d / 2))).length = 24 :=
    applySeq_length (ms.take (d - d / 2)) _
      (fun m hm => solve_moves_some m (htakemem m hm)) h24o
  have hsuffix : applySeq (applySeq (applySeq Cube.solved_tuple seq)
      (ms.take (d - d / 2))) (ms.drop (d - d / 2)) = Cube.solved_tuple := by
    rw [← applySeq_append, List.take_append_drop, hmsapp]
  have hdroplen : (ms.drop (d - d / 2)).length = d - (d - d / 2) := by
    rw [List.length_drop, hmslen]
  obtain ⟨δb, hδble, hδbmin⟩ := reach_least CubeBuilder.solve_moves Cube.solved_tuple _ _
    (reachN_symm _ _ _ hx24
      (⟨ms.drop (d - d / 2), hdroplen,
        fun m hm => hmsmem m (List.mem_of_mem_drop hm), hsuffix⟩ :
        ReachN CubeBuilder.solve_moves
          (applySeq (applySeq Cube.solved_tuple seq) (ms.take (d - d / 2)))
          Cube.solved_tuple (d - (d - d / 2))))
  obtain ⟨kf, hkf, yf, hyf, hyfcfg⟩ := side_rank _ _ hmv _ _
    (trace_sideF (applySeq Cube.solved_tuple seq) Cube.solved_tuple
      CubeBuilder.solve_moves hmv) _ δf hδfmin 3 259 (by omega) allSeqs3_len
  obtain ⟨kb, hkb, yb, hyb, hybcfg⟩ := side_rank _ _ hmv _ _
    (trace_sideB (applySeq Cube.solved_tuple seq) Cube.solved_tuple
      CubeBuilder.solve_moves hmv) _ δb hδbmin 3 259 (by omega) allSeqs3_len
  -- a meeting happens by iteration max kf kb ≤ 259
  have hmeet : Solver.meetAt (Solver.initial_state (applySeq Cube.solved_tuple seq)
      Cube.solved_tuple CubeBuilder.solve_moves) (max kf kb) := by
    cases hcfK : Solver.cfAt (applySeq Cube.solved_tuple seq) Cube.solved_tuple
        CubeBuilder.solve_moves (max kf kb) with
    | none => exact absurd hcfK (hnoexhF (max kf kb) (by omega))
    | some fK =>
      cases hcbK : Solver.cbAt (applySeq Cube.solved_tuple seq) Cube.solved_tuple
          CubeBuilder.solve_moves (max kf kb) with
      | none => exact absurd hcbK (hnoexhB (max kf kb) (by omega))
      | some bK =>
        refine ⟨fK, bK, hcfK, hcbK, ?_⟩
        rcases Nat.le_total kb kf with hle | hle
        · left
          have hKeq : max kf kb = kf := by omega
          have hfKyf : fK = yf := by
            rw [hKeq] at hcfK
            rw [hcfK] at hyf
            exact Option.some.inj hyf
          obtain ⟨PBK, hPBK⟩ := trace_sideB (applySeq Cube.solved_tuple seq)
            Cube.solved_tuple CubeBuilder.solve_moves hmv (max kf kb)
          have hybK : yb ∈ PBK := (hPBK.heads yb).mpr ⟨kb, by omega, hyb⟩
          show lookupVisited (Solver.bsAt (applySeq Cube.solved_tuple seq)
            Cube.solved_tuple CubeBuilder.solve_moves (max kf kb)).visited
            fK.configuration ≠ none
          rw [hPBK.inv.visited_eq]
          intro heq
          rw [lookupVisited_none_iff] at heq
          apply heq
          rw [hfKyf, hyfcfg, ← hybcfg]
          exact List.mem_map.mpr ⟨yb, hybK, rfl⟩
        · right
          have hKeq : max kf kb = kb := by omega
          have hbKyb : bK = yb := by
            rw [hKeq] at hcbK
            rw [hcbK] at hyb
            exact Option.some.inj hyb
          obtain ⟨PFK, hPFK⟩ := trace_sideF (applySeq Cube.solved_tuple seq)
            Cube.solved_tuple CubeBuilder.solve_moves hmv (max kf kb)
          have hyfK : yf ∈ PFK := (hPFK.heads yf).mpr ⟨kf, by omega, hyf⟩
          show lookupVisited (Solver.fsAt (applySeq Cube.solved_tuple seq)
            Cube.solved_tuple CubeBuilder.solve_moves (max kf kb)).visited
            bK.configuration ≠ none
          rw [hPFK.inv.visited_eq]
          intro heq
          rw [lookupVisited_none_iff] at heq
          apply heq
          rw [hbKyb, hybcfg, ← hyfcfg]
          exact List.mem_map.mpr ⟨yf, hyfK, rfl⟩
  -- classify the loop's result
  obtain ⟨P0, hP0⟩ := trace_sideF (applySeq Cube.solved_tuple seq) Cube.solved_tuple
    CubeBuilder.solve_moves hmv 0
  have hinv0 : SearchInv (applySeq Cube.solved_tuple seq) CubeBuilder.solve_moves
      (Searcher.get_next (Searcher.init (applySeq Cube.solved_tuple seq)
        CubeBuilder.solve_moves)).2 P0 := hP0.inv
  have hcls := loop_classify (applySeq Cube.solved_tuple seq) h24o
    CubeBuilder.solve_moves hmv (Nat.factorial 24 + 2)
    (Searcher.get_next (Searcher.init (applySeq Cube.solved_tuple seq)
      CubeBuilder.solve_moves)).2
    (Searcher.get_next (Searcher.init Cube.solved_tuple CubeBuilder.solve_moves)).2
    (Searcher.get_next (Searcher.init (applySeq Cube.solved_tuple seq)
      CubeBuilder.solve_moves)).1
    (Searcher.get_next (Searcher.init Cube.solved_tuple CubeBuilder.solve_moves)).1
    P0 hinv0 (by omega)
  have hred0 : Solver.get_solution (applySeq Cube.solved_tuple seq) Cube.solved_tuple
      CubeBuilder.solve_moves =
      (match Solver.find_matching_middle (applySeq Cube.solved_tuple seq)
          Cube.solved_tuple CubeBuilder.solve_moves with
       | .found front back =>
         pure ((((Solver.get_parent_chain front).reverse.filter
                 (fun link => link.marker ≠ "")).map Node.marker) ++
               (((Solver.get_parent_chain back).filter
                 (fun link => link.marker ≠ "")).map
                   (fun link => Cube.invert_move link.marker)))
       | .noMeeting => .error "CubeError: Cube is unsolvable."
       | .boundExceeded => .error "Cube Error: cube is impossible to solve."
       | .fuelOut => .error "fuel exhausted") := by
    unfold Solver.get_solution
    rw [hcanon]
    rfl
  cases hres : Solver.find_matching_middle (applySeq Cube.solved_tuple seq)
      Cube.solved_tuple CubeBuilder.solve_moves with
  | fuelOut => exact absurd hres hcls.1
  | noMeeting =>
    exfalso
    obtain ⟨n, hrun, hexh⟩ := hcls.2.1 hres
    by_cases hn : n + 1 < 300
    · rcases hexh with h | h
      · exact hnoexhF n hn h
      · exact hnoexhB n hn h
    · have hKn : max kf kb < n := by omega
      exact (hrun (max kf kb) hKn).2.1 hmeet
  | boundExceeded =>
    exfalso
    obtain ⟨n, hrun, hx, hm, hbd⟩ := hcls.2.2.1 hres
    rcases Nat.lt_or_ge (max kf kb) n with hKn | hKn
    · exact (hrun (max kf kb) hKn).2.1 hmeet
    · have hn260 : n + 1 ≤ 260 := by omega
      have h1 := hlayF (n + 1) (by omega)
      have h2 := hlayB (n + 1) (by omega)
      have hbd' : (Solver.fsAt (applySeq Cube.solved_tuple seq) Cube.solved_tuple
          CubeBuilder.solve_moves (n + 1)).layerNumber +
          (Solver.bsAt (applySeq Cube.solved_tuple seq) Cube.solved_tuple
          CubeBuilder.solve_moves (n + 1)).layerNumber > Cube.maximum_moves := hbd
      have : Cube.maximum_moves = 14 := rfl
      omega
  | found f b =>
    obtain ⟨n, hrun, hf, hb, hhf, hhb, hor⟩ := loop_found_detail
      (applySeq Cube.solved_tuple seq) h24o CubeBuilder.solve_moves hmv
      (Nat.factorial 24 + 2)
      (Searcher.get_next (Searcher.init (applySeq Cube.solved_tuple seq)
        CubeBuilder.solve_moves)).2
      (Searcher.get_next (Searcher.init Cube.solved_tuple CubeBuilder.solve_moves)).2
      (Searcher.get_next (Searcher.init (applySeq Cube.solved_tuple seq)
        CubeBuilder.solve_moves)).1
      (Searcher.get_next (Searcher.init Cube.solved_tuple CubeBuilder.solve_moves)).1
      P0 hinv0 (by omega) f b hres
    have hrun' : Solver.runsTo (Solver.initial_state (applySeq Cube.solved_tuple seq)
        Cube.solved_tuple CubeBuilder.solve_moves) n := hrun
    have hhf' : Solver.cfAt (applySeq Cube.solved_tuple seq) Cube.solved_tuple
        CubeBuilder.solve_moves n = some hf := hhf
    have hhb' : Solver.cbAt (applySeq Cube.solved_tuple seq) Cube.solved_tuple
        CubeBuilder.solve_moves n = some hb := hhb
    have hor' : (f = hf ∧ lookupVisited (Solver.bsAt (applySeq Cube.solved_tuple seq)
          Cube.solved_tuple CubeBuilder.solve_moves n).visited
          hf.configuration = some b) ∨
        (lookupVisited (Solver.bsAt (applySeq Cube.solved_tuple seq) Cube.solved_tuple
          CubeBuilder.solve_moves n).visited hf.configuration = none ∧ b = hb ∧
         lookupVisited (Solver.fsAt (applySeq Cube.solved_tuple seq) Cube.solved_tuple
          CubeBuilder.solve_moves n).visited hb.configuration = some f) := hor
    obtain ⟨hokf, hokb, hcfg2, hsum⟩ := meet_sum (applySeq Cube.solved_tuple seq)
      h24o seq.length hk d hd n hrun' f b hf hb hhf' hhb' hor'
    obtain ⟨hdo, hslen⟩ := solution_of_found (applySeq Cube.solved_tuple seq)
      Cube.solved_tuple h24o (by decide) f b hokf hokb hcfg2
    refine ⟨_, by rw [hred0, hres]; rfl, ?_, hdo, ?_⟩
    · rw [hslen, hsum]
      omega
    · intro hsolved
      have hzero : MinReach CubeBuilder.solve_moves (applySeq Cube.solved_tuple seq)
          Cube.solved_tuple 0 :=
        ⟨⟨[], rfl, by simp, hsolved⟩, by intro j hj; omega⟩
      have hd0 : d = 0 := minReach_unique CubeBuilder.solve_moves _ _ d 0 hd hzero
      apply List.eq_nil_of_length_eq_zero
      rw [hslen, hsum, hd0]

/-- Witness for C1 at a concrete input: the one-move scramble "R" satisfies
the hypotheses, and the solver solves it with at most one move. -/
theorem claim_C1_witness :
    (∀ m ∈ ["R"], m ∈ CubeBuilder.solve_moves) ∧ (["R"] : List String).length ≤ 6 ∧
    (CubeBuilder.get_cube_from_colors (applySeq Cube.solved_tuple ["R"]) =
      .ok (applySeq Cube.solved_tuple ["R"]) ∧
    ∃ sol : List String,
      Solver.get_solution (applySeq Cube.solved_tuple ["R"]) Cube.solved_tuple
        CubeBuilder.solve_moves = .ok sol ∧
      sol.length ≤ (["R"] : List String).length ∧
      Cube.do_moves (applySeq Cube.solved_tuple ["R"]) sol = .ok Cube.solved_tuple ∧
      (applySeq Cube.solved_tuple ["R"] = Cube.solved_tuple → sol = [])) :=
  ⟨by decide, by decide, claim_C1 ["R"] (by decide) (by decide)⟩
